import Mathlib

/-!
Verification of the ship-routing core (grid model, single-objective searches,
bidirectional search, genetic optimizer) against its natural-language
specification.  The Lean definitions below are a shallow embedding of the
Python sources under src/backend/: machine floats are modelled as real
numbers, mutable objects as explicit state passing, and the unbounded search
loops as fuel-indexed iteration (the invariant theorems hold for every fuel).
-/

namespace ShipRouting

/-- One cell of the navigation grid (grid.py, class Cell).  Python equality
and hashing are by the coordinate pair only, so the search-state dictionaries
below are keyed by the coordinate pair. -/
structure Cell where
  x : ℤ
  y : ℤ
  isLand : Bool
  baseCost : ℝ
  weatherCost : ℝ

/-- The coordinate pair a Python dict hashes a Cell by. -/
def Cell.key (c : Cell) : ℤ × ℤ := (c.x, c.y)

/-- Stand-in for the IEEE value float(+inf) (ℝ has no infinity; in Lean 1/0 = 0).
It marks the cost of entering a land cell.  Every search expands only
neighbors filtered by get_neighbors, which excludes land cells, and every
theorem below evaluates costs on water cells only, so this branch value is
never reached by any statement in this file. -/
noncomputable def floatInf : ℝ := 1 / 0

/-- Cell.total_cost (grid.py lines 20-25). -/
noncomputable def Cell.totalCost (c : Cell) : ℝ :=
  if c.isLand then floatInf else c.baseCost + c.weatherCost

/-- The navigation grid (grid.py, class NavigationGrid).  The Python dense
width x height array of pre-allocated cells is modelled as a total function
from coordinates; get_cell guards every access with the bounds check, so
values outside the bounds are never observed. -/
structure NavigationGrid where
  width : ℤ
  height : ℤ
  cellSizeKm : ℝ
  cells : ℤ → ℤ → Cell

/-- NavigationGrid.__init__: all-water grid, base cost 1.0, weather cost 0.0. -/
def NavigationGrid.make (w h : ℤ) (s : ℝ) : NavigationGrid :=
  ⟨w, h, s, fun x y => ⟨x, y, false, 1, 0⟩⟩

/-- NavigationGrid.get_cell: bounds-checked lookup, absent when out of range. -/
def NavigationGrid.getCell (g : NavigationGrid) (x y : ℤ) : Option Cell :=
  if 0 ≤ x ∧ x < g.width ∧ 0 ≤ y ∧ y < g.height then some (g.cells x y) else none

/-- NavigationGrid.set_land: mark one cell as land, through the bounds-checked
lookup (a no-op out of bounds).  Only the is_land flag of the targeted cell
changes. -/
def NavigationGrid.setLand (g : NavigationGrid) (x y : ℤ) (b : Bool) : NavigationGrid :=
  match g.getCell x y with
  | some _ =>
      { g with cells := fun p q =>
          if p = x ∧ q = y then { g.cells x y with isLand := b } else g.cells p q }
  | none => g

/-- Python range(a, b) over the integers. -/
def intRange (a b : ℤ) : List ℤ :=
  (List.range (b - a).toNat).map (fun i : ℕ => a + (i : ℤ))

/-- NavigationGrid.set_land_region: mark a rectangle as land; the loop ranges
are clipped to the grid bounds exactly as in the source (set_land never
changes width or height, so hoisting the two range computations is sound). -/
def NavigationGrid.setLandRegion (g : NavigationGrid)
    (xStart yStart xEnd yEnd : ℤ) : NavigationGrid :=
  (intRange (max 0 xStart) (min g.width (xEnd + 1))).foldl (fun g1 xv =>
    (intRange (max 0 yStart) (min g.height (yEnd + 1))).foldl (fun g2 yv =>
      g2.setLand xv yv true) g1) g

/-- NavigationGrid.add_island: stamp a circle of land cells. -/
def NavigationGrid.addIsland (g : NavigationGrid)
    (centerX centerY radius : ℤ) : NavigationGrid :=
  (intRange (max 0 (centerX - radius)) (min g.width (centerX + radius + 1))).foldl
    (fun g1 xv =>
      (intRange (max 0 (centerY - radius)) (min g.height (centerY + radius + 1))).foldl
        (fun g2 yv =>
          if (xv - centerX) ^ 2 + (yv - centerY) ^ 2 ≤ radius ^ 2 then
            g2.setLand xv yv true
          else g2) g1) g

/-- NavigationGrid.set_weather_cost. -/
def NavigationGrid.setWeatherCost (g : NavigationGrid) (x y : ℤ) (c : ℝ) :
    NavigationGrid :=
  match g.getCell x y with
  | some _ =>
      { g with cells := fun p q =>
          if p = x ∧ q = y then { g.cells x y with weatherCost := c } else g.cells p q }
  | none => g

/-- The movement directions tried by get_neighbors, in source order. -/
def directions (allowDiagonal : Bool) : List (ℤ × ℤ) :=
  [(0, 1), (1, 0), (0, -1), (-1, 0)] ++
    (if allowDiagonal then [(1, 1), (1, -1), (-1, 1), (-1, -1)] else [])

/-- NavigationGrid.get_neighbors: in-bounds, non-land adjacent cells, in the
order the direction list produces them. -/
def NavigationGrid.getNeighbors (g : NavigationGrid) (c : Cell)
    (allowDiagonal : Bool) : List Cell :=
  (directions allowDiagonal).filterMap (fun d =>
    match g.getCell (c.x + d.1) (c.y + d.2) with
    | some nb => if nb.isLand then none else some nb
    | none => none)

/-- NavigationGrid.get_distance: Euclidean distance in km. -/
noncomputable def NavigationGrid.getDistance (g : NavigationGrid) (c1 c2 : Cell) : ℝ :=
  Real.sqrt (((|c1.x - c2.x| ^ 2 + |c1.y - c2.y| ^ 2 : ℤ) : ℝ)) * g.cellSizeKm

/-- NavigationGrid.get_movement_cost: +inf into land, else distance scaled by
the destination cell total cost. -/
noncomputable def NavigationGrid.getMovementCost (g : NavigationGrid)
    (fromCell toCell : Cell) : ℝ :=
  if toCell.isLand then floatInf else g.getDistance fromCell toCell * toCell.totalCost

/-- NavigationGrid.is_valid_path. -/
def NavigationGrid.isValidPath (p : List Cell) : Prop :=
  ∀ c ∈ p, c.isLand = false

/-- NavigationGrid.get_path_length: total geometric length, 0 for paths
shorter than two cells. -/
noncomputable def NavigationGrid.getPathLength (g : NavigationGrid)
    (p : List Cell) : ℝ :=
  if p.length < 2 then 0
  else (p.zip p.tail).foldl (fun acc pr => acc + g.getDistance pr.1 pr.2) 0

/-- NavigationGrid.get_path_cost: total movement cost, 0 for paths shorter
than two cells. -/
noncomputable def NavigationGrid.getPathCost (g : NavigationGrid)
    (p : List Cell) : ℝ :=
  if p.length < 2 then 0
  else (p.zip p.tail).foldl (fun acc pr => acc + g.getMovementCost pr.1 pr.2) 0

/-- The weather state (weather.py, class WeatherSystem): five intensity maps,
modelled as total functions over the coordinates (the Python numpy arrays are
only ever indexed at grid cells). -/
structure WeatherSystem where
  windSpeed : ℤ → ℤ → ℝ
  windDirection : ℤ → ℤ → ℝ
  waveHeight : ℤ → ℤ → ℝ
  currentSpeed : ℤ → ℤ → ℝ
  currentDirection : ℤ → ℤ → ℝ

/-- The all-zero weather state numpy.zeros gives a fresh WeatherSystem. -/
def WeatherSystem.zero : WeatherSystem :=
  ⟨fun _ _ => 0, fun _ _ => 0, fun _ _ => 0, fun _ _ => 0, fun _ _ => 0⟩

/-- Python float modulo for a positive divisor: a % b = a - b * floor (a / b). -/
noncomputable def fmod (a b : ℝ) : ℝ := a - b * ⌊a / b⌋

/-- WeatherSystem.calculate_weather_cost (weather.py lines 89-130): the
multiplicative wave, wind and current penalty, floored at 0.1 -- but 0.0 for
a land cell, returned before the floor is applied. -/
noncomputable def WeatherSystem.calculateWeatherCost (w : WeatherSystem)
    (cell : Cell) (heading : ℝ) : ℝ :=
  if cell.isLand then 0
  else
    let waveCost := 1 + w.waveHeight cell.x cell.y / 10
    let windAngle :=
      |fmod (heading - w.windDirection cell.x cell.y + Real.pi) (2 * Real.pi) - Real.pi|
    let windCost := 1 - Real.cos windAngle * w.windSpeed cell.x cell.y / 100
    let currentAngle :=
      |fmod (heading - w.currentDirection cell.x cell.y + Real.pi) (2 * Real.pi) - Real.pi|
    let currentCost := 1 - Real.cos currentAngle * w.currentSpeed cell.x cell.y / 50
    max 0.1 (waveCost * windCost * currentCost)

/-- WeatherSystem.get_fuel_consumption: fuel in tons for a segment; the ship
speed argument is accepted but unused, exactly as in the source. -/
noncomputable def WeatherSystem.getFuelConsumption (_w : WeatherSystem)
    (distanceKm weatherCost _shipSpeedKnots : ℝ) : ℝ :=
  distanceKm / 1.852 * 0.15 * weatherCost

/-- numpy.arctan2 (piecewise, radians, 0 = +x axis); only its type matters to
the claims below, never its value. -/
noncomputable def atan2 (yv xv : ℝ) : ℝ :=
  if 0 < xv then Real.arctan (yv / xv)
  else if xv < 0 ∧ 0 ≤ yv then Real.arctan (yv / xv) + Real.pi
  else if xv < 0 ∧ yv < 0 then Real.arctan (yv / xv) - Real.pi
  else if xv = 0 ∧ 0 < yv then Real.pi / 2
  else if xv = 0 ∧ yv < 0 then -(Real.pi / 2)
  else 0

/-- Result of one point-to-point search (algorithms.py, class RouteResult).
The wall-clock computation time is outside the model and is recorded as 0. -/
structure RouteResult where
  path : List Cell
  distanceKm : ℝ
  cost : ℝ
  fuelTons : ℝ
  timeHours : ℝ
  nodesExplored : ℕ
  computationTimeMs : ℝ
  algorithm : String

/-- The router (algorithms.py, class ShipRouter): grid, optional weather
system, and the fixed cruising speed of 20 knots. -/
structure ShipRouter where
  grid : NavigationGrid
  weather : Option WeatherSystem
  shipSpeedKnots : ℝ := 20

/-- A frontier entry of the four single-objective searches: the Python heap
tuple (priority, counter, cell).  The counter is unique per push, so the
tuple comparison is decided by the (priority, counter) pair alone and the
Cell component is never compared. -/
abbrev PQEntry := ℝ × ℕ × Cell

/-- Strict lexicographic order on (priority, counter): the order in which
Python compares the heap tuples of algorithms.py. -/
def pqLt (e f : PQEntry) : Prop := e.1 < f.1 ∨ (e.1 = f.1 ∧ e.2.1 < f.2.1)

open scoped Classical in
/-- The frontier, modelled as an ordered list: insertion places an entry
before the first strictly greater one.  Since the (priority, counter) keys
are totally ordered and pairwise distinct (see the C9 theorem), the heap of
algorithms.py pops entries in exactly this order, so the ordered list is
observation-equivalent to the binary heap. -/
noncomputable def pqInsert (e : PQEntry) : List PQEntry → List PQEntry
  | [] => [e]
  | f :: rest => if pqLt e f then e :: f :: rest else f :: pqInsert e rest

/-- Update of a coordinate-keyed Python dict. -/
def dictSet {α : Type} (m : ℤ × ℤ → Option α) (k : ℤ × ℤ) (v : α) :
    ℤ × ℤ → Option α :=
  fun p => if p = k then some v else m p

/-- The mutable state shared by the four single-objective search loops:
frontier, came-from map, running-score map, nodes-popped counter and the
push counter.  The two dicts are keyed by the coordinate pair, which is how
Python hashes Cell. -/
structure SearchState where
  pq : List PQEntry
  cameFrom : ℤ × ℤ → Option (Option Cell)
  costSoFar : ℤ × ℤ → Option ℝ
  nodesExplored : ℕ
  counter : ℕ

/-- The initial search state: frontier [(0, 0, start)], came_from
mapping start to None, cost_so_far mapping start to 0. -/
def initState (start : Cell) : SearchState :=
  { pq := [(0, 0, start)]
    cameFrom := fun p => if p = start.key then some none else none
    costSoFar := fun p => if p = start.key then some 0 else none
    nodesExplored := 0
    counter := 0 }

open scoped Classical in
/-- One relaxation: the body of the for-neighbor loop shared by dijkstra,
a_star, weather_aware_astar and fuel_optimized (algorithms.py); cost gives
the running-score increment of the variant and heur its heuristic (0 for
dijkstra, whose pushed priority new_cost equals new_cost + 0). -/
noncomputable def relaxOne (cost : Cell → Cell → ℝ) (heur : Cell → ℝ)
    (current : Cell) (st : SearchState) (nb : Cell) : SearchState :=
  let newCost := (st.costSoFar current.key).getD 0 + cost current nb
  let proceed := match st.costSoFar nb.key with
    | none => True
    | some old => newCost < old
  if proceed then
    { st with
      costSoFar := dictSet st.costSoFar nb.key newCost
      counter := st.counter + 1
      pq := pqInsert (newCost + heur nb, st.counter + 1, nb) st.pq
      cameFrom := dictSet st.cameFrom nb.key (some current) }
  else st

/-- Relax every neighbor of the popped cell, in get_neighbors order. -/
noncomputable def relaxNeighbors (g : NavigationGrid) (cost : Cell → Cell → ℝ)
    (heur : Cell → ℝ) (current : Cell) (st : SearchState) : SearchState :=
  (g.getNeighbors current true).foldl (relaxOne cost heur current) st

/-- Outcome of one iteration of the while loop. -/
inductive StepOut where
  | more (s : SearchState)
  | goalPopped (s : SearchState)
  | frontierEmpty (s : SearchState)

/-- One iteration of the shared search loop: pop the least frontier entry,
count it as explored, stop if it is the goal (Python == compares coordinates
only), otherwise relax its neighbors. -/
noncomputable def searchStep (g : NavigationGrid) (cost : Cell → Cell → ℝ)
    (heur : Cell → ℝ) (goal : Cell) (s : SearchState) : StepOut :=
  match s.pq with
  | [] => .frontierEmpty s
  | (_, _, current) :: rest =>
      let s1 := { s with pq := rest, nodesExplored := s.nodesExplored + 1 }
      if current.x = goal.x ∧ current.y = goal.y then .goalPopped s1
      else .more (relaxNeighbors g cost heur current s1)

/-- The fuel-indexed while loop.  The Python loop always terminates (lazy
Dijkstra with re-insertion pops finitely often); the fuel only bounds the
iteration count of the model, and every theorem below either holds for all
fuel or evaluates a run that finishes well inside it. -/
noncomputable def searchLoop (g : NavigationGrid) (cost : Cell → Cell → ℝ)
    (heur : Cell → ℝ) (goal : Cell) : ℕ → SearchState → SearchState
  | 0, s => s
  | n + 1, s =>
      match searchStep g cost heur goal s with
      | .more s1 => searchLoop g cost heur goal n s1
      | .goalPopped s1 => s1
      | .frontierEmpty s1 => s1

/-- Follow the came-from chain from a cell, collecting cells in visit order
(goal first); absent entry or exhausted fuel yields none.  The Python chain
walk always terminates because relaxations strictly decrease the score. -/
def chaseParents (cameFrom : ℤ × ℤ → Option (Option Cell)) :
    ℕ → Cell → Option (List Cell)
  | 0, _ => none
  | n + 1, c =>
      match cameFrom c.key with
      | none => none
      | some none => some [c]
      | some (some p) => (chaseParents cameFrom n p).map (fun l => c :: l)

/-- ShipRouter._reconstruct_path: empty when the goal was never reached,
otherwise the reversed chain from the goal back to the start. -/
def reconstructPath (cameFrom : ℤ × ℤ → Option (Option Cell)) (fuel : ℕ)
    (goal : Cell) : List Cell :=
  match chaseParents cameFrom fuel goal with
  | some l => l.reverse
  | none => []

open scoped Classical in
/-- ShipRouter._create_result: assemble the metrics from the reconstructed
path; an empty path yields all-zero metrics. -/
noncomputable def ShipRouter.createResult (r : ShipRouter) (path : List Cell)
    (nodesExplored : ℕ) (algorithm : String) : RouteResult :=
  if path = [] then
    { path := [], distanceKm := 0, cost := 0, fuelTons := 0, timeHours := 0
      nodesExplored := nodesExplored, computationTimeMs := 0, algorithm := algorithm }
  else
    let distance := r.grid.getPathLength path
    let fuel :=
      match r.weather with
      | some w =>
          (path.zip path.tail).foldl (fun acc pr =>
            acc + w.getFuelConsumption (r.grid.getDistance pr.1 pr.2)
              (w.calculateWeatherCost pr.2
                (atan2 ((pr.2.y - pr.1.y : ℤ) : ℝ) ((pr.2.x - pr.1.x : ℤ) : ℝ)))
              r.shipSpeedKnots) 0
      | none => distance * 0.15 / 1.852
    { path := path
      distanceKm := distance
      cost := r.grid.getPathCost path
      fuelTons := fuel
      timeHours := distance / 1.852 / r.shipSpeedKnots
      nodesExplored := nodesExplored
      computationTimeMs := 0
      algorithm := algorithm }

/-- A generous bound on the number of frontier pops of one search run: with
nonnegative edge costs each cell relaxes its at most 8 neighbors effectively
only at its first pop, so pops never exceed 8 * width * height + 2. -/
def searchFuel (g : NavigationGrid) : ℕ :=
  8 * g.width.toNat * g.height.toNat + 2

/-- Run one single-objective variant end to end: loop, reconstruct, and
assemble the result.  The reconstruction fuel counter + 2 dominates the
length of any came-from chain. -/
noncomputable def runVariant (r : ShipRouter) (cost : Cell → Cell → ℝ)
    (heur : Cell → ℝ) (start goal : Cell) (algorithm : String) : RouteResult :=
  let final := searchLoop r.grid cost heur goal (searchFuel r.grid) (initState start)
  r.createResult (reconstructPath final.cameFrom (final.counter + 2) goal)
    final.nodesExplored algorithm

/-- ShipRouter.dijkstra: running score and priority are both the movement
cost (the pushed priority new_cost is new_cost + 0 here). -/
noncomputable def ShipRouter.dijkstra (r : ShipRouter) (start goal : Cell) :
    RouteResult :=
  runVariant r (fun a b => r.grid.getMovementCost a b) (fun _ => 0)
    start goal "Dijkstra"

/-- ShipRouter.a_star: movement-cost running score, Euclidean heuristic. -/
noncomputable def ShipRouter.aStar (r : ShipRouter) (start goal : Cell) :
    RouteResult :=
  runVariant r (fun a b => r.grid.getMovementCost a b)
    (fun c => r.grid.getDistance c goal) start goal "A*"

/-- ShipRouter.weather_aware_astar: weather-scaled distance as running score,
Euclidean heuristic; plain a_star when no weather system is present. -/
noncomputable def ShipRouter.weatherAwareAStar (r : ShipRouter)
    (start goal : Cell) : RouteResult :=
  match r.weather with
  | none => r.aStar start goal
  | some w =>
      runVariant r
        (fun cur nb =>
          r.grid.getDistance cur nb *
            w.calculateWeatherCost nb
              (atan2 ((nb.y - cur.y : ℤ) : ℝ) ((nb.x - cur.x : ℤ) : ℝ)))
        (fun c => r.grid.getDistance c goal) start goal "Weather-Aware A*"

/-- ShipRouter.fuel_optimized: per-segment fuel as running score, minimum
straight-line fuel as heuristic; plain a_star when no weather is present. -/
noncomputable def ShipRouter.fuelOptimized (r : ShipRouter)
    (start goal : Cell) : RouteResult :=
  match r.weather with
  | none => r.aStar start goal
  | some w =>
      runVariant r
        (fun cur nb =>
          w.getFuelConsumption (r.grid.getDistance cur nb)
            (w.calculateWeatherCost nb
              (atan2 ((nb.y - cur.y : ℤ) : ℝ) ((nb.x - cur.x : ℤ) : ℝ)))
            r.shipSpeedKnots)
        (fun c => w.getFuelConsumption (r.grid.getDistance c goal) 1
          r.shipSpeedKnots)
        start goal "Fuel-Optimized"

/-- Result record of bidirectional_astar.py. -/
structure BiDirectionalResult where
  path : List Cell
  distanceKm : ℝ
  fuelTons : ℝ
  timeHours : ℝ
  cost : ℝ
  nodesExplored : ℕ
  computationTimeMs : ℝ
  algorithm : String := "Bidirectional A*"

/-- A frontier entry of the bidirectional search: the Python heap tuple
(f_score, cell).  Unlike algorithms.py, there is no tie-breaking counter. -/
abbrev BiEntry := ℝ × Cell

open scoped Classical in
/-- The bidirectional frontier.  CPython heapq orders the (f_score, cell)
tuples; when two f_scores are equal the tuple comparison falls through to
the Cell operands, which define no ordering, and raises TypeError.  The
frontier is modelled as an ordered list whose insertion raises (error)
exactly when it must compare two entries of equal priority -- in particular,
pushing into a one-element frontier compares the new entry with the resident
one, precisely the _siftdown parent comparison CPython performs. -/
noncomputable def biInsert (e : BiEntry) : List BiEntry → Except Unit (List BiEntry)
  | [] => .ok [e]
  | f :: rest =>
      if e.1 < f.1 then .ok (e :: f :: rest)
      else if f.1 < e.1 then (biInsert e rest).map (fun l => f :: l)
      else .error ()

/-- One direction of the bidirectional search: frontier, predecessor map,
running-score map and closed set (bidirectional_astar.py lines 61-72). -/
structure BiSide where
  frontier : List BiEntry
  came : ℤ × ℤ → Option (Option Cell)
  gScore : ℤ × ℤ → Option ℝ
  closed : ℤ × ℤ → Bool

/-- Full state of BidirectionalAStar.search: both sides, the recorded
meeting point, the best meeting total (none standing for float inf), and
the nodes-explored counter. -/
structure BiState where
  fwd : BiSide
  bwd : BiSide
  meeting : Option Cell
  bestCost : Option ℝ
  explored : ℕ

/-- The initial bidirectional state. -/
def biInit (start goal : Cell) : BiState :=
  { fwd :=
      { frontier := [(0, start)]
        came := fun p => if p = start.key then some none else none
        gScore := fun p => if p = start.key then some 0 else none
        closed := fun _ => false }
    bwd :=
      { frontier := [(0, goal)]
        came := fun p => if p = goal.key then some none else none
        gScore := fun p => if p = goal.key then some 0 else none
        closed := fun _ => false }
    meeting := none
    bestCost := none
    explored := 0 }

open scoped Classical in
/-- The body of the for-neighbor loop of one bidirectional expansion: skip a
land or closed neighbor, relax the rest, and push (tentative + distance to
the search target, neighbor); the push can raise on a priority tie. -/
noncomputable def biRelaxStep (g : NavigationGrid) (target current : Cell)
    (sd : BiSide) (nb : Cell) : Except Unit BiSide :=
  if nb.isLand || sd.closed nb.key then pure sd
  else
    let tentative := (sd.gScore current.key).getD 0 + g.getMovementCost current nb
    let proceed := match sd.gScore nb.key with
      | none => True
      | some old => tentative < old
    if proceed then do
      let fr ← biInsert (tentative + g.getDistance nb target, nb) sd.frontier
      pure { frontier := fr
             came := dictSet sd.came nb.key (some current)
             gScore := dictSet sd.gScore nb.key tentative
             closed := sd.closed }
    else pure sd

/-- The for-neighbor loop of one bidirectional expansion. -/
noncomputable def biRelax (g : NavigationGrid) (target current : Cell)
    (side : BiSide) : Except Unit BiSide :=
  (g.getNeighbors current true).foldlM (biRelaxStep g target current) side

/-- Outcome of one phase: the loop either broke (a meeting was checked) or
continues. -/
inductive BiStep where
  | broke (s : BiState)
  | cont (s : BiState)

open scoped Classical in
/-- The forward half of one loop iteration: pop, break if the popped cell is
closed on the backward side (recording it as meeting point when its total
beats the best so far), otherwise close and expand it. -/
noncomputable def biForwardPhase (g : NavigationGrid) (goal : Cell)
    (s : BiState) : Except Unit BiStep :=
  match s.fwd.frontier with
  | [] => pure (.cont s)
  | (_, current) :: rest =>
      let s1 : BiState := { s with fwd := { s.fwd with frontier := rest } }
      if s1.bwd.closed current.key then
        let total := (s1.fwd.gScore current.key).getD 0 +
          (s1.bwd.gScore current.key).getD 0
        let improved := match s1.bestCost with
          | none => True
          | some b => total < b
        pure (.broke (if improved then
          { s1 with bestCost := some total, meeting := some current } else s1))
      else if s1.fwd.closed current.key then pure (.cont s1)
      else do
        let closed1 := fun p => if p = current.key then true else s1.fwd.closed p
        let sd ← biRelax g goal current { s1.fwd with closed := closed1 }
        pure (.cont { s1 with fwd := sd, explored := s1.explored + 1 })

open scoped Classical in
/-- The backward half of one loop iteration, mirror image of the forward
half with the heuristic aimed at the start. -/
noncomputable def biBackwardPhase (g : NavigationGrid) (start : Cell)
    (s : BiState) : Except Unit BiStep :=
  match s.bwd.frontier with
  | [] => pure (.cont s)
  | (_, current) :: rest =>
      let s1 : BiState := { s with bwd := { s.bwd with frontier := rest } }
      if s1.fwd.closed current.key then
        let total := (s1.fwd.gScore current.key).getD 0 +
          (s1.bwd.gScore current.key).getD 0
        let improved := match s1.bestCost with
          | none => True
          | some b => total < b
        pure (.broke (if improved then
          { s1 with bestCost := some total, meeting := some current } else s1))
      else if s1.bwd.closed current.key then pure (.cont s1)
      else do
        let closed1 := fun p => if p = current.key then true else s1.bwd.closed p
        let sd ← biRelax g start current { s1.bwd with closed := closed1 }
        pure (.cont { s1 with bwd := sd, explored := s1.explored + 1 })

/-- The while loop of BidirectionalAStar.search: forward phase then backward
phase while both frontiers are non-empty, stopping as soon as a phase broke. -/
noncomputable def biLoop (g : NavigationGrid) (start goal : Cell) :
    ℕ → BiState → Except Unit BiState
  | 0, s => pure s
  | n + 1, s =>
      if s.fwd.frontier.isEmpty || s.bwd.frontier.isEmpty then pure s
      else do
        match ← biForwardPhase g goal s with
        | .broke s1 => pure s1
        | .cont s1 =>
            match ← biBackwardPhase g start s1 with
            | .broke s2 => pure s2
            | .cont s2 => biLoop g start goal n s2

/-- BidirectionalAStar.search: run the loop; None when no meeting point was
recorded, otherwise the concatenation of the forward chain (start to meeting
point) with the backward chain (past the meeting point to the goal), plus
metrics.  The error value models the TypeError CPython raises when heapq
compares two Cell objects on an f_score tie. -/
noncomputable def bidirectionalSearch (g : NavigationGrid)
    (weather : Option WeatherSystem) (start goal : Cell) :
    Except Unit (Option BiDirectionalResult) := do
  let s ← biLoop g start goal (searchFuel g) (biInit start goal)
  match s.meeting with
  | none => pure none
  | some meeting =>
      let fpart := ((chaseParents s.fwd.came (searchFuel g + 2) meeting).getD []).reverse
      let bpart :=
        match s.bwd.came meeting.key with
        | some (some nxt) => (chaseParents s.bwd.came (searchFuel g + 2) nxt).getD []
        | _ => []
      let path := fpart ++ bpart
      let distance := (path.zip path.tail).foldl
        (fun acc pr => acc + g.getDistance pr.1 pr.2) 0
      let fuelT := (path.zip path.tail).foldl (fun acc pr =>
        match weather with
        | some w =>
            acc + w.getFuelConsumption (g.getDistance pr.1 pr.2)
              (w.calculateWeatherCost pr.2
                (atan2 ((pr.2.y - pr.1.y : ℤ) : ℝ) ((pr.2.x - pr.1.x : ℤ) : ℝ))) 20
        | none => acc + g.getDistance pr.1 pr.2 * 0.15 / 1.852) 0
      pure (some
        { path := path
          distanceKm := distance
          fuelTons := fuelT
          timeHours := distance / 1.852 / 20
          cost := s.bestCost.getD 0
          nodesExplored := s.explored
          computationTimeMs := 0 })

/-- A route chromosome of the genetic optimizer (genetic_optimizer.py,
class Route): waypoints plus cached fitness and raw objective values. -/
structure Route where
  waypoints : List Cell
  fitness : ℝ := 0
  distance : ℝ := 0
  fuel : ℝ := 0
  safety : ℝ := 0
  time : ℝ := 0

/-- The randomness consumed by the optimizer, one field per random call
site, each indexed by the number of draws made so far; quantifying the
theorems over every oracle makes them statements about every run.  sample
models random.sample(population, 5) and choice the index random.choice
picks from the three mutation kinds. -/
structure RandOracle where
  randint : ℕ → ℤ → ℤ → ℤ
  rand : ℕ → ℝ
  sample : ℕ → List Route → List Route
  choice : ℕ → Fin 3

/-- The contract the Python random module satisfies: randint stays in its
inclusive bounds and sample returns a non-empty sub-multiset of a non-empty
population. -/
structure OracleValid (o : RandOracle) : Prop where
  randint_lb : ∀ t a b, a ≤ b → a ≤ o.randint t a b
  randint_ub : ∀ t a b, a ≤ b → o.randint t a b ≤ b
  sample_mem : ∀ t l r, r ∈ o.sample t l → r ∈ l
  sample_ne : ∀ t l, l ≠ [] → o.sample t l ≠ []

/-- Python int() truncation of a float toward zero. -/
noncomputable def truncZ (x : ℝ) : ℤ := if 0 ≤ x then ⌊x⌋ else ⌈x⌉

/-- Stand-in for the IndexError an out-of-range Python list index would
raise; unreachable under the randint contract. -/
def dummyCell : Cell := ⟨0, 0, false, 1, 0⟩

/-- The optimizer configuration (genetic_optimizer.py constructor). -/
structure GeneticRouteOptimizer where
  grid : NavigationGrid
  weather : Option WeatherSystem
  populationSize : ℕ := 100
  generations : ℕ := 50
  crossoverRate : ℝ := 0.8

/-- The objective weights dict; defaults from optimize. -/
structure ObjectiveWeights where
  distance : ℝ := 0.25
  fuel : ℝ := 0.35
  safety : ℝ := 0.25
  time : ℝ := 0.15

/-- GeneticRouteOptimizer._evaluate_route: leg-by-leg distance, fuel and
safety accumulation; a chromosome shorter than two waypoints is penalized
with infinite distance, fuel and time (floatInf stands for the float inf --
the degenerate branch is never taken by a population route, whose length is
at least 2 by the C7 invariant). -/
noncomputable def evaluateRoute (g : NavigationGrid)
    (weather : Option WeatherSystem) (r : Route) : Route :=
  if r.waypoints.length < 2 then
    { r with distance := floatInf, fuel := floatInf, safety := 0, time := floatInf }
  else
    let acc := (r.waypoints.zip r.waypoints.tail).foldl
      (fun (acc : ℝ × ℝ × ℝ) pr =>
        let segDist := g.getDistance pr.1 pr.2
        match weather with
        | some w =>
            let wc := w.calculateWeatherCost pr.2
              (atan2 ((pr.2.y - pr.1.y : ℤ) : ℝ) ((pr.2.x - pr.1.x : ℤ) : ℝ))
            (acc.1 + segDist, acc.2.1 + w.getFuelConsumption segDist wc 20,
              acc.2.2 * (1 / wc))
        | none => (acc.1 + segDist, acc.2.1 + segDist * 0.15 / 1.852, acc.2.2))
      (0, 0, 1)
    { r with
      distance := acc.1
      fuel := acc.2.1
      safety := acc.2.2 / (r.waypoints.length : ℝ)
      time := acc.1 / 1.852 / 20 }

open scoped Classical in
/-- GeneticRouteOptimizer._calculate_fitness: normalized weighted sum with
the times-0.1 penalty for routes touching land. -/
noncomputable def calculateFitness (r : Route) (w : ObjectiveWeights) : ℝ :=
  let distanceScore := 1 - min (r.distance / 2000) 1
  let fuelScore := 1 - min (r.fuel / 200) 1
  let timeScore := 1 - min (r.time / 100) 1
  let fitness := w.distance * distanceScore + w.fuel * fuelScore +
    w.safety * r.safety + w.time * timeScore
  if ∃ wp ∈ r.waypoints, wp.isLand then fitness * 0.1 else fitness

/-- The body of the per-waypoint loop of _initialize_population: interpolate
toward the goal, jitter, clamp to the grid, and append the cell unless it is
missing or land. -/
noncomputable def initStep (o : RandOracle) (g : NavigationGrid)
    (start goal : Cell) (num : ℤ) (acc : List Cell × ℕ) (i : ℕ) :
    List Cell × ℕ :=
  let progress : ℝ := ((i : ℝ) + 1) / ((num : ℝ) + 1)
  let tx0 := truncZ ((start.x : ℝ) + ((goal.x : ℝ) - (start.x : ℝ)) * progress)
  let ty0 := truncZ ((start.y : ℝ) + ((goal.y : ℝ) - (start.y : ℝ)) * progress)
  let tx1 := tx0 + o.randint acc.2 (-5) 5
  let ty1 := ty0 + o.randint (acc.2 + 1) (-5) 5
  let tx := max 0 (min (g.width - 1) tx1)
  let ty := max 0 (min (g.height - 1) ty1)
  match g.getCell tx ty with
  | some cell =>
      if cell.isLand then (acc.1, acc.2 + 2) else (acc.1 ++ [cell], acc.2 + 2)
  | none => (acc.1, acc.2 + 2)

/-- One individual of _initialize_population: start, then up to num
interpolated-and-jittered waypoints (skipped when the clamped cell is land),
then goal, evaluated.  Returns the route and the advanced draw clock. -/
noncomputable def initIndividual (o : RandOracle) (g : NavigationGrid)
    (weather : Option WeatherSystem) (start goal : Cell) (t : ℕ) : Route × ℕ :=
  let num := o.randint t 5 15
  let res := (List.range num.toNat).foldl (initStep o g start goal num)
    ([start], t + 1)
  (evaluateRoute g weather { waypoints := res.1 ++ [goal] }, res.2)

/-- GeneticRouteOptimizer._initialize_population. -/
noncomputable def initPopulation (o : RandOracle) (opt : GeneticRouteOptimizer)
    (start goal : Cell) : List Route × ℕ :=
  (List.range opt.populationSize).foldl
    (fun (acc : List Route × ℕ) _ =>
      let ind := initIndividual o opt.grid opt.weather start goal acc.2
      (acc.1 ++ [ind.1], ind.2))
    ([], 0)

open scoped Classical in
/-- Python max(iterable, key=fitness): the first element of maximal fitness;
the empty case stands for the ValueError max([]) raises, unreachable under
the sample contract. -/
noncomputable def maxByFitness : List Route → Route
  | [] => { waypoints := [] }
  | r :: rest =>
      rest.foldl (fun best cand => if best.fitness < cand.fitness then cand else best) r

/-- GeneticRouteOptimizer._tournament_selection: population-size tournaments
of 5 sampled members each, keeping the fittest of each. -/
noncomputable def tournamentSelection (o : RandOracle) (popSize : ℕ)
    (pop : List Route) (t : ℕ) : List Route × ℕ :=
  (List.range popSize).foldl
    (fun (acc : List Route × ℕ) _ =>
      (acc.1 ++ [maxByFitness (o.sample acc.2 pop)], acc.2 + 1))
    ([], t)

open scoped Classical in
/-- GeneticRouteOptimizer._crossover: single-point crossover on consecutive
parent pairs with probability crossoverRate (only when the shorter parent
has more than 2 waypoints), both children re-evaluated; a trailing unpaired
parent is dropped by the stride-2 range. -/
noncomputable def crossoverPairs (o : RandOracle) (g : NavigationGrid)
    (weather : Option WeatherSystem) (rate : ℝ) :
    List Route → ℕ → List Route × ℕ
  | [], t => ([], t)
  | [_], t => ([], t)
  | p1 :: p2 :: rest, t =>
      if o.rand t < rate then
        let minLen := min p1.waypoints.length p2.waypoints.length
        if 2 < minLen then
          let point := (o.randint (t + 1) 1 ((minLen : ℤ) - 1)).toNat
          let c1 := evaluateRoute g weather
            { waypoints := p1.waypoints.take point ++ p2.waypoints.drop point }
          let c2 := evaluateRoute g weather
            { waypoints := p2.waypoints.take point ++ p1.waypoints.drop point }
          let res := crossoverPairs o g weather rate rest (t + 2)
          (c1 :: c2 :: res.1, res.2)
        else
          let res := crossoverPairs o g weather rate rest (t + 1)
          (p1 :: p2 :: res.1, res.2)
      else
        let res := crossoverPairs o g weather rate rest (t + 1)
        (p1 :: p2 :: res.1, res.2)

open scoped Classical in
/-- GeneticRouteOptimizer._mutate on one route, as a value: with probability
mutRate and more than two waypoints, modify a random interior waypoint,
insert a jittered midpoint (when shorter than 20), or delete an interior
waypoint (when longer than 3), then re-evaluate.  Python applies this to
the shared Route object in place; the reference-level model below writes
this same value back through the reference (mutateRouteH), which is what
the aliasing-sensitive claim C6 is settled against. -/
noncomputable def mutateRoute (o : RandOracle) (g : NavigationGrid)
    (weather : Option WeatherSystem) (mutRate : ℝ) (r : Route) (t : ℕ) :
    Route × ℕ :=
  if o.rand t < mutRate then
    if 2 < r.waypoints.length then
      let mtype := o.choice (t + 1)
      if mtype = 0 then
        let idx := (o.randint (t + 2) 1 ((r.waypoints.length : ℤ) - 2)).toNat
        let current := r.waypoints.getD idx dummyCell
        let nx := max 0 (min (g.width - 1) (current.x + o.randint (t + 3) (-3) 3))
        let ny := max 0 (min (g.height - 1) (current.y + o.randint (t + 4) (-3) 3))
        let r1 := match g.getCell nx ny with
          | some nc =>
              if nc.isLand then r else { r with waypoints := r.waypoints.set idx nc }
          | none => r
        (evaluateRoute g weather r1, t + 5)
      else if mtype = 1 then
        if r.waypoints.length < 20 then
          let idx := (o.randint (t + 2) 1 ((r.waypoints.length : ℤ) - 1)).toNat
          let prev := r.waypoints.getD (idx - 1) dummyCell
          let nxt := r.waypoints.getD idx dummyCell
          let mx := max 0 (min (g.width - 1)
            ((prev.x + nxt.x).fdiv 2 + o.randint (t + 3) (-2) 2))
          let my := max 0 (min (g.height - 1)
            ((prev.y + nxt.y).fdiv 2 + o.randint (t + 4) (-2) 2))
          let r1 := match g.getCell mx my with
            | some mc =>
                if mc.isLand then r
                else { r with waypoints := r.waypoints.insertIdx idx mc }
            | none => r
          (evaluateRoute g weather r1, t + 5)
        else (evaluateRoute g weather r, t + 2)
      else
        if 3 < r.waypoints.length then
          let idx := (o.randint (t + 2) 1 ((r.waypoints.length : ℤ) - 2)).toNat
          (evaluateRoute g weather { r with waypoints := r.waypoints.eraseIdx idx },
            t + 3)
        else (evaluateRoute g weather r, t + 2)
    else (r, t + 1)
  else (r, t + 1)

/-- GeneticRouteOptimizer._mutate over the offspring list. -/
noncomputable def mutateAll (o : RandOracle) (g : NavigationGrid)
    (weather : Option WeatherSystem) (mutRate : ℝ) (offspring : List Route)
    (t : ℕ) : List Route × ℕ :=
  offspring.foldl
    (fun (acc : List Route × ℕ) r =>
      let m := mutateRoute o g weather mutRate r acc.2
      (acc.1 ++ [m.1], m.2))
    ([], t)

/-- The per-generation fitness assignment (the for-route loop opening each
generation of optimize). -/
noncomputable def evalPhase (w : ObjectiveWeights) (pop : List Route) :
    List Route :=
  pop.map (fun r => { r with fitness := calculateFitness r w })

open scoped Classical in
/-- The running best-seen tracker of optimize: best_route / best_fitness,
none standing for the initial float -inf, updated on strictly greater
fitness only (so ties keep the first-found). -/
noncomputable def foldBest (b : Option (Route × ℝ)) (pop : List Route) :
    Option (Route × ℝ) :=
  pop.foldl
    (fun b r =>
      match b with
      | none => some (r, r.fitness)
      | some (br, bf) => if bf < r.fitness then some (r, r.fitness) else some (br, bf))
    b

/-- State threaded between generations of optimize: current population, the
best-seen pair and the draw clock. -/
structure GenState where
  population : List Route
  best : Option (Route × ℝ)
  t : ℕ

open scoped Classical in
/-- One generation of optimize over route VALUES: evaluate fitness (updating
the best-seen), select, cross over, mutate with the adaptive rate of
generation gen, then keep the elite tenth and fill with offspring.  This
value-level view copies routes, so it is used only for the endpoint
invariant (claim C7), which is insensitive to Python's in-place aliasing;
generationStepH below is the reference-faithful version. -/
noncomputable def generationStep (o : RandOracle) (opt : GeneticRouteOptimizer)
    (w : ObjectiveWeights) (gen : ℕ) (st : GenState) : GenState :=
  let evald := evalPhase w st.population
  let best1 := foldBest st.best evald
  let sel := tournamentSelection o opt.populationSize evald st.t
  let cross := crossoverPairs o opt.grid opt.weather opt.crossoverRate sel.1 sel.2
  let mutRate := 0.1 * (1 - (gen : ℝ) / (opt.generations : ℝ)) + 0.01
  let mutated := mutateAll o opt.grid opt.weather mutRate cross.1 cross.2
  let sorted := evald.mergeSort (fun a b => decide (b.fitness ≤ a.fitness))
  let eliteSize := (⌊0.1 * (opt.populationSize : ℝ)⌋).toNat
  { population := sorted.take eliteSize ++
      mutated.1.take (opt.populationSize - eliteSize)
    best := best1
    t := mutated.2 }

/-- The generation iterator: genIter n is the optimizer state after n
generations (genIter 0 is the freshly initialized population). -/
noncomputable def genIter (o : RandOracle) (opt : GeneticRouteOptimizer)
    (w : ObjectiveWeights) (start goal : Cell) : ℕ → GenState
  | 0 =>
      let ip := initPopulation o opt start goal
      { population := ip.1, best := none, t := ip.2 }
  | n + 1 => generationStep o opt w n (genIter o opt w start goal n)

/-- GeneticRouteOptimizer.optimize: run all generations and return the
best-seen route (None when no generation ran or the population was empty). -/
noncomputable def optimize (o : RandOracle) (opt : GeneticRouteOptimizer)
    (start goal : Cell) (w : ObjectiveWeights) : Option Route :=
  ((genIter o opt w start goal opt.generations).best).map (fun p => p.1)

/-- Every route whose fitness optimize ever evaluates, in evaluation order:
the concatenation of the per-generation evaluation lists.
_calculate_fitness is invoked nowhere else. -/
noncomputable def evalTrace (o : RandOracle) (opt : GeneticRouteOptimizer)
    (w : ObjectiveWeights) (start goal : Cell) : List Route :=
  ((List.range opt.generations).map
    (fun n => evalPhase w (genIter o opt w start goal n).population)).flatten

/-! Auxiliary notions used by the statements and proofs below. -/

/-- Coordinate well-formedness: grids built by the constructor and mutated by
the terrain operations store at (x, y) a cell whose coordinate fields are
(x, y). -/
def NavigationGrid.WF (g : NavigationGrid) : Prop :=
  ∀ x y, (g.cells x y).x = x ∧ (g.cells x y).y = y

/-- Reachability along get_neighbors edges: a traversable path from a to b
exists on the grid. -/
def Reachable (g : NavigationGrid) (a b : Cell) : Prop :=
  Relation.ReflTransGen (fun u v => v ∈ g.getNeighbors u true) a b

/-- Two cells one get_neighbors step apart, in path order. -/
def stepAdj (a b : Cell) : Prop :=
  ∃ d ∈ directions true, b.key = (a.key.1 + d.1, a.key.2 + d.2)

/-- The frontier discipline of the four single-objective searches: entries
strictly sorted by the (priority, counter) pair, counters pairwise distinct
and never exceeding the push counter.  This is what makes the Python heap
tuple comparison total (it never reaches the unordered Cell component) and
ties FIFO by insertion order. -/
def frontierInv (s : SearchState) : Prop :=
  s.pq.Pairwise pqLt ∧
    s.pq.Pairwise (fun e f => e.2.1 ≠ f.2.1) ∧ ∀ e ∈ s.pq, e.2.1 ≤ s.counter

/-- Provenance invariant of the shared search loop: every frontier cell and
every recorded predecessor is the start cell or a get_neighbors output (in
particular not land), start is the only cell mapped to None, and every
came-from key is the key of a cell reachable from the start. -/
structure SearchInv (g : NavigationGrid) (start : Cell) (s : SearchState) :
    Prop where
  pq_src : ∀ e ∈ s.pq, e.2.2 = start ∨ ∃ d, e.2.2 ∈ g.getNeighbors d true
  pq_reach : ∀ e ∈ s.pq, Reachable g start e.2.2
  came_none : ∀ p, s.cameFrom p = some none → p = start.key
  came_src : ∀ p c, s.cameFrom p = some (some c) →
    c = start ∨ ∃ d, c ∈ g.getNeighbors d true
  came_reach : ∀ p v, s.cameFrom p = some v →
    ∃ c, c.key = p ∧ Reachable g start c

/-- Adjacency invariant of the came-from map (needs coordinate
well-formedness): every recorded predecessor lies one movement direction
away from its key. -/
def CameAdj (s : SearchState) : Prop :=
  ∀ p c, s.cameFrom p = some (some c) →
    ∃ d ∈ directions true, p = (c.x + d.1, c.y + d.2)

/-- Provenance invariant of one bidirectional side rooted at root (the start
for the forward side, the goal for the backward one). -/
structure BiSideInv (g : NavigationGrid) (root : Cell) (side : BiSide) :
    Prop where
  pq_src : ∀ e ∈ side.frontier, e.2 = root ∨ ∃ d, e.2 ∈ g.getNeighbors d true
  came_src : ∀ p c, side.came p = some (some c) →
    c = root ∨ ∃ d, c ∈ g.getNeighbors d true
  closed_src : ∀ p, side.closed p = true →
    p = root.key ∨ ∃ c d, c.key = p ∧ c ∈ g.getNeighbors d true
  came_key : ∀ p, side.came p ≠ none →
    p = root.key ∨ ∃ c d, c.key = p ∧ c ∈ g.getNeighbors d true

/-- Provenance invariant of the whole bidirectional state. -/
structure BiInv (g : NavigationGrid) (start goal : Cell) (s : BiState) :
    Prop where
  fwd : BiSideInv g start s.fwd
  bwd : BiSideInv g goal s.bwd
  meet : ∀ m, s.meeting = some m → m = start ∨ m = goal ∨
    ∃ d, m ∈ g.getNeighbors d true

/-- The octile potential toward a target, in grid units: the length of the
shortest 8-connected lattice walk, used to bound path lengths from below. -/
noncomputable def octilePot (target p : ℤ × ℤ) : ℝ :=
  ((max |p.1 - target.1| |p.2 - target.2| : ℤ) : ℝ) +
    (Real.sqrt 2 - 1) * ((min |p.1 - target.1| |p.2 - target.2| : ℤ) : ℝ)

/-- The sum of the geometric segment lengths over consecutive pairs of a
path: the recursive form of the fold inside get_path_length. -/
noncomputable def pathSum (g : NavigationGrid) : List Cell → ℝ
  | [] => 0
  | [_] => 0
  | a :: b :: rest => g.getDistance a b + pathSum g (b :: rest)

/-- A population chromosome that starts at the global start and ends at the
global goal. -/
def endpointsOk (start goal : Cell) (r : Route) : Prop :=
  ∃ mid : List Cell, r.waypoints = start :: (mid ++ [goal])

/-- A concrete deterministic oracle satisfying the random-module contract,
used by the witnesses. -/
def trivOracle : RandOracle :=
  { randint := fun _ a _ => a
    rand := fun _ => 0
    sample := fun _ l => l.take 5
    choice := fun _ => 0 }

/-! Reference-level (heap) model of GeneticRouteOptimizer.optimize.  The
value-level model above suffices for the endpoint invariant, but optimize
records best_route as an object REFERENCE, _crossover passes parent
references through when its coin fails, and _mutate rewrites
route.waypoints of the referenced object in place -- so the recorded best
can be degraded after it is recorded.  The model below makes the object
store explicit: Python variables hold indices into a heap of Route values,
and every in-place update writes through the index. -/

/-- The object store: Python Route objects, addressed by allocation index.
Reads of never-allocated indices are unreachable. -/
structure GAHeap where
  store : ℕ → Route
  next : ℕ

/-- Allocation of a fresh Route object (Route(...) in Python). -/
noncomputable def halloc (h : GAHeap) (r : Route) : ℕ × GAHeap :=
  (h.next,
    { store := fun j => if j = h.next then r else h.store j
      next := h.next + 1 })

/-- In-place update of the object at index i (attribute assignment or list
mutation through a reference in Python). -/
noncomputable def hset (h : GAHeap) (i : ℕ) (r : Route) : GAHeap :=
  { h with store := fun j => if j = i then r else h.store j }

/-- The randomness consumed by the heap model: as RandOracle, but sample
picks from the population of object references. -/
structure RandOracleH where
  randint : ℕ → ℤ → ℤ → ℤ
  rand : ℕ → ℝ
  sample : ℕ → List ℕ → List ℕ
  choice : ℕ → Fin 3

/-- Forget the sampler: the oracle view consumed by the per-object leaf
routines (which never call sample). -/
def RandOracleH.toV (o : RandOracleH) : RandOracle :=
  { randint := o.randint, rand := o.rand, sample := fun _ _ => [], choice := o.choice }

/-- _initialize_population, reference level: each individual is a fresh
allocation; the population is the list of its references. -/
noncomputable def initPopulationH (o : RandOracleH) (opt : GeneticRouteOptimizer)
    (start goal : Cell) : List ℕ × GAHeap × ℕ :=
  (List.range opt.populationSize).foldl
    (fun (acc : List ℕ × GAHeap × ℕ) _ =>
      let ind := initIndividual o.toV opt.grid opt.weather start goal acc.2.2
      let al := halloc acc.2.1 ind.1
      (acc.1 ++ [al.1], al.2, ind.2))
    ([], { store := fun _ => { waypoints := [] }, next := 0 }, 0)

/-- The per-generation evaluation loop of optimize, reference level: assign
route.fitness through the reference, then compare the just-assigned value
against best_fitness, recording best_route as a reference on strict
improvement (none stands for the initial None / float -inf pair). -/
noncomputable def evalPhaseH (w : ObjectiveWeights) (pop : List ℕ)
    (hb : GAHeap × Option (ℕ × ℝ)) : GAHeap × Option (ℕ × ℝ) :=
  pop.foldl
    (fun (acc : GAHeap × Option (ℕ × ℝ)) i =>
      let f := calculateFitness (acc.1.store i) w
      let h1 := hset acc.1 i { acc.1.store i with fitness := f }
      match acc.2 with
      | none => (h1, some (i, f))
      | some (bi, bf) => if bf < f then (h1, some (i, f)) else (h1, some (bi, bf)))
    hb

open scoped Classical in
/-- Python max(sample, key=fitness) over references: the first reference of
maximal current fitness; the empty case stands for the unreachable
ValueError. -/
noncomputable def maxByFitnessH (h : GAHeap) : List ℕ → ℕ
  | [] => 0
  | i :: rest =>
      rest.foldl
        (fun best cand =>
          if (h.store best).fitness < (h.store cand).fitness then cand else best) i

/-- _tournament_selection over references: winners are references into the
population (pass-through aliasing, no copy). -/
noncomputable def tournamentSelectionH (o : RandOracleH) (popSize : ℕ)
    (pop : List ℕ) (h : GAHeap) (t : ℕ) : List ℕ × ℕ :=
  (List.range popSize).foldl
    (fun (acc : List ℕ × ℕ) _ =>
      (acc.1 ++ [maxByFitnessH h (o.sample acc.2 pop)], acc.2 + 1))
    ([], t)

open scoped Classical in
/-- _crossover, reference level: on a coin below the rate (and parents
longer than 2), two fresh children are allocated and evaluated; otherwise
the PARENT REFERENCES themselves are appended to the offspring. -/
noncomputable def crossoverPairsH (o : RandOracleH) (g : NavigationGrid)
    (weather : Option WeatherSystem) (rate : ℝ) :
    List ℕ → ℕ → GAHeap → List ℕ × ℕ × GAHeap
  | [], t, h => ([], t, h)
  | [_], t, h => ([], t, h)
  | p1 :: p2 :: rest, t, h =>
      if o.rand t < rate then
        let minLen := min (h.store p1).waypoints.length (h.store p2).waypoints.length
        if 2 < minLen then
          let point := (o.randint (t + 1) 1 ((minLen : ℤ) - 1)).toNat
          let c1 := evaluateRoute g weather
            { waypoints := (h.store p1).waypoints.take point ++
                (h.store p2).waypoints.drop point }
          let c2 := evaluateRoute g weather
            { waypoints := (h.store p2).waypoints.take point ++
                (h.store p1).waypoints.drop point }
          let a1 := halloc h c1
          let a2 := halloc a1.2 c2
          let res := crossoverPairsH o g weather rate rest (t + 2) a2.2
          (a1.1 :: a2.1 :: res.1, res.2)
        else
          let res := crossoverPairsH o g weather rate rest (t + 1) h
          (p1 :: p2 :: res.1, res.2)
      else
        let res := crossoverPairsH o g weather rate rest (t + 1) h
        (p1 :: p2 :: res.1, res.2)

/-- _mutate on one route, reference level: the mutated value is written back
through the reference (waypoint assignment / insert / pop and the final
_evaluate_route all act on the shared object). -/
noncomputable def mutateRouteH (o : RandOracleH) (g : NavigationGrid)
    (weather : Option WeatherSystem) (mutRate : ℝ) (i : ℕ) (t : ℕ)
    (h : GAHeap) : ℕ × GAHeap :=
  let m := mutateRoute o.toV g weather mutRate (h.store i) t
  (m.2, hset h i m.1)

/-- _mutate over the offspring references. -/
noncomputable def mutateAllH (o : RandOracleH) (g : NavigationGrid)
    (weather : Option WeatherSystem) (mutRate : ℝ) (offspring : List ℕ)
    (t : ℕ) (h : GAHeap) : List ℕ × ℕ × GAHeap :=
  offspring.foldl
    (fun (acc : List ℕ × ℕ × GAHeap) i =>
      let m := mutateRouteH o g weather mutRate i acc.2.1 acc.2.2
      (acc.1 ++ [i], m.1, m.2))
    ([], t, h)

/-- State threaded between generations of optimize, reference level. -/
structure GenStateH where
  population : List ℕ
  best : Option (ℕ × ℝ)
  t : ℕ
  heap : GAHeap

open scoped Classical in
/-- One generation of optimize, reference level: evaluate and track the best
reference, select, cross over, mutate in place with the adaptive rate, sort
the population references by current fitness, then keep the elite tenth and
fill with offspring references. -/
noncomputable def generationStepH (o : RandOracleH) (opt : GeneticRouteOptimizer)
    (w : ObjectiveWeights) (gen : ℕ) (st : GenStateH) : GenStateH :=
  let ev := evalPhaseH w st.population (st.heap, st.best)
  let sel := tournamentSelectionH o opt.populationSize st.population ev.1 st.t
  let cross := crossoverPairsH o opt.grid opt.weather opt.crossoverRate
    sel.1 sel.2 ev.1
  let mutRate := 0.1 * (1 - (gen : ℝ) / (opt.generations : ℝ)) + 0.01
  let mu := mutateAllH o opt.grid opt.weather mutRate cross.1 cross.2.1 cross.2.2
  let sorted := st.population.mergeSort
    (fun a b => decide ((mu.2.2.store b).fitness ≤ (mu.2.2.store a).fitness))
  let eliteSize := (⌊0.1 * (opt.populationSize : ℝ)⌋).toNat
  { population := sorted.take eliteSize ++
      mu.1.take (opt.populationSize - eliteSize)
    best := ev.2
    t := mu.2.1
    heap := mu.2.2 }

/-- The generation iterator of the reference model. -/
noncomputable def genIterH (o : RandOracleH) (opt : GeneticRouteOptimizer)
    (w : ObjectiveWeights) (start goal : Cell) : ℕ → GenStateH
  | 0 =>
      let ip := initPopulationH o opt start goal
      { population := ip.1, best := none, t := ip.2.2, heap := ip.2.1 }
  | n + 1 => generationStepH o opt w n (genIterH o opt w start goal n)

/-- optimize, reference level: run all generations, then DEREFERENCE
best_route -- the returned value is the object's current state, including
every in-place mutation applied after it was recorded. -/
noncomputable def optimizeH (o : RandOracleH) (opt : GeneticRouteOptimizer)
    (start goal : Cell) (w : ObjectiveWeights) : Option Route :=
  let fin := genIterH o opt w start goal opt.generations
  fin.best.map (fun p => fin.heap.store p.1)

/-- The fitness value each evaluation of the run assigns, in evaluation
order.  Within one evaluation loop only fitness attributes change and
_calculate_fitness never reads them, so the value assigned to a route
equals _calculate_fitness of its state when the generation began. -/
noncomputable def evalTraceH (o : RandOracleH) (opt : GeneticRouteOptimizer)
    (w : ObjectiveWeights) (start goal : Cell) : List ℝ :=
  ((List.range opt.generations).map (fun n =>
    (genIterH o opt w start goal n).population.map
      (fun i => calculateFitness ((genIterH o opt w start goal n).heap.store i) w))).flatten

/-! Key-level graph notions for the optimality development (claim C2). -/

/-- One traversable king-move between coordinate keys: the target is one
movement direction away, in bounds, and not land. -/
def stepOK (g : NavigationGrid) (k k' : ℤ × ℤ) : Prop :=
  ∃ d ∈ directions true, k' = (k.1 + d.1, k.2 + d.2) ∧
    ∃ c', g.getCell k'.1 k'.2 = some c' ∧ c'.isLand = false

/-- Weighted length of a key path rooted at k0, under edge weights W. -/
noncomputable def kchainW (W : (ℤ × ℤ) → (ℤ × ℤ) → ℝ) :
    (ℤ × ℤ) → List (ℤ × ℤ) → ℝ
  | _, [] => 0
  | k0, k' :: l => W k0 k' + kchainW W k' l

/-- The final key of a key path rooted at k0. -/
def lastK : (ℤ × ℤ) → List (ℤ × ℤ) → ℤ × ℤ
  | k0, [] => k0
  | _, k :: l => lastK k l

/-- A grid whose every stored cell is water with base cost 1 and weather
cost 0: the obstacle-free setting of the C2 claim. -/
def ObstacleFree (g : NavigationGrid) : Prop :=
  ∀ x y, (g.cells x y).isLand = false ∧ (g.cells x y).baseCost = 1 ∧
    (g.cells x y).weatherCost = 0

/-- Geometric distance between two coordinate keys, in km. -/
noncomputable def keyDist (g : NavigationGrid) (k k' : ℤ × ℤ) : ℝ :=
  Real.sqrt (((|k.1 - k'.1| ^ 2 + |k.2 - k'.2| ^ 2 : ℤ) : ℝ)) * g.cellSizeKm

/-- Abstract key-level cost and heuristic data for one single-objective
search run: W and H describe the running-score increment and the heuristic
as functions of coordinate keys, with positive edge weights and a
consistent, nonnegative heuristic vanishing at the goal key. -/
structure KSetup (g : NavigationGrid) (goalK : ℤ × ℤ)
    (cost : Cell → Cell → ℝ) (heur : Cell → ℝ) where
  W : (ℤ × ℤ) → (ℤ × ℤ) → ℝ
  H : (ℤ × ℤ) → ℝ
  W_pos : ∀ k k', stepOK g k k' → 0 < W k k'
  H_nonneg : ∀ k, 0 ≤ H k
  H_cons : ∀ k k', stepOK g k k' → H k ≤ W k k' + H k'
  H_goal : H goalK = 0
  cost_eq : ∀ c v : Cell, v ∈ g.getNeighbors c true → cost c v = W c.key v.key
  heur_eq : ∀ c : Cell, heur c = H c.key

/-- The invariant bundle of the shared search loop that drives the
optimality and fuel-sufficiency proofs, relative to a ghost set P of
settled (already popped and relaxed) keys: frontier discipline, entry
soundness, realizability of every recorded score by an actual key path,
the live-entry-or-settled dichotomy for scored keys, optimality and full
propagation of settled keys, edge-consistency of the parent records, and
cardinality accounting tying the push counter to distinct relaxed edges. -/
structure GInv (g : NavigationGrid) (start goal : Cell)
    (cost : Cell → Cell → ℝ) (heur : Cell → ℝ)
    (ks : KSetup g goal.key cost heur)
    (s : SearchState) (P : Finset (ℤ × ℤ)) : Prop where
  fr : frontierInv s
  es : ∀ e ∈ s.pq, ∃ cu, s.costSoFar e.2.2.key = some cu ∧
    (cu + ks.H e.2.2.key ≤ e.1 ∨ e.2.2.key = start.key)
  real : ∀ k ck, s.costSoFar k = some ck →
    ∃ l, List.Chain (stepOK g) start.key l ∧ lastK start.key l = k ∧
      kchainW ks.W start.key l = ck
  start0 : ∃ c0, s.costSoFar start.key = some c0 ∧ c0 ≤ 0
  ek : ∀ k, s.costSoFar k ≠ none → k ∉ P →
    ∃ e ∈ s.pq, e.2.2.key = k ∧
      ∃ ck, s.costSoFar k = some ck ∧ e.1 ≤ ck + ks.H k
  ip1 : ∀ k ∈ P, ∃ ck, s.costSoFar k = some ck ∧
    ∀ l, List.Chain (stepOK g) start.key l → lastK start.key l = k →
      ck ≤ kchainW ks.W start.key l
  ip2 : ∀ k ∈ P, ∀ k', stepOK g k k' →
    ∃ ck ck', s.costSoFar k = some ck ∧ s.costSoFar k' = some ck' ∧
      ck' ≤ ck + ks.W k k'
  goalP : goal.key ∉ P
  came1 : ∀ k c, s.cameFrom k = some (some c) →
    stepOK g c.key k ∧ ∃ ck cc, s.costSoFar k = some ck ∧
      s.costSoFar c.key = some cc ∧ cc + ks.W c.key k ≤ ck
  cameN : ∀ k, s.cameFrom k = some none → k = start.key
  camedom : ∀ k, s.cameFrom k = none ↔ s.costSoFar k = none
  domcard : ∃ dom : Finset (ℤ × ℤ),
    (∀ k, s.costSoFar k ≠ none ↔ k ∈ dom) ∧ dom.card ≤ s.counter + 1
  rcount : ∃ R : Finset ((ℤ × ℤ) × (ℤ × ℤ)),
    R.card = s.counter ∧ ∀ pr ∈ R, stepOK g pr.1 pr.2 ∧ pr.1 ∈ P

/-- The invariant bundle holding part-way through relaxing the neighbors of
a freshly popped unsettled cell with key u and (fixed) score cu: like GInv,
but u's live-entry obligation is discharged (its entry was just popped), u
carries its own optimality certificate, and u's propagation obligation ip2u
and the relaxed-edge accounting cover exactly the processed neighbor keys. -/
structure MidInv (g : NavigationGrid) (start goal : Cell)
    (cost : Cell → Cell → ℝ) (heur : Cell → ℝ)
    (ks : KSetup g goal.key cost heur) (u : ℤ × ℤ) (cu : ℝ)
    (P : Finset (ℤ × ℤ)) (procKeys : List (ℤ × ℤ))
    (s : SearchState) : Prop where
  fr : frontierInv s
  es : ∀ e ∈ s.pq, ∃ c1, s.costSoFar e.2.2.key = some c1 ∧
    (c1 + ks.H e.2.2.key ≤ e.1 ∨ e.2.2.key = start.key)
  real : ∀ k ck, s.costSoFar k = some ck →
    ∃ l, List.Chain (stepOK g) start.key l ∧ lastK start.key l = k ∧
      kchainW ks.W start.key l = ck
  start0 : ∃ c0, s.costSoFar start.key = some c0 ∧ c0 ≤ 0
  ek : ∀ k, s.costSoFar k ≠ none → k ∉ P → k ≠ u →
    ∃ e ∈ s.pq, e.2.2.key = k ∧
      ∃ ck, s.costSoFar k = some ck ∧ e.1 ≤ ck + ks.H k
  ucost : s.costSoFar u = some cu
  uopt : ∀ l, List.Chain (stepOK g) start.key l → lastK start.key l = u →
    cu ≤ kchainW ks.W start.key l
  ip1 : ∀ k ∈ P, ∃ ck, s.costSoFar k = some ck ∧
    ∀ l, List.Chain (stepOK g) start.key l → lastK start.key l = k →
      ck ≤ kchainW ks.W start.key l
  ip2 : ∀ k ∈ P, ∀ k', stepOK g k k' →
    ∃ ck ck', s.costSoFar k = some ck ∧ s.costSoFar k' = some ck' ∧
      ck' ≤ ck + ks.W k k'
  ip2u : ∀ k' ∈ procKeys, ∃ ck', s.costSoFar k' = some ck' ∧
    ck' ≤ cu + ks.W u k'
  came1 : ∀ k c, s.cameFrom k = some (some c) →
    stepOK g c.key k ∧ ∃ ck cc, s.costSoFar k = some ck ∧
      s.costSoFar c.key = some cc ∧ cc + ks.W c.key k ≤ ck
  cameN : ∀ k, s.cameFrom k = some none → k = start.key
  camedom : ∀ k, s.cameFrom k = none ↔ s.costSoFar k = none
  domcard : ∃ dom : Finset (ℤ × ℤ),
    (∀ k, s.costSoFar k ≠ none ↔ k ∈ dom) ∧ dom.card ≤ s.counter + 1
  rcountM : ∃ R : Finset ((ℤ × ℤ) × (ℤ × ℤ)),
    R.card = s.counter ∧ ∀ pr ∈ R, stepOK g pr.1 pr.2 ∧
      (pr.1 ∈ P ∨ (pr.1 = u ∧ pr.2 ∈ procKeys))

/-- The state facts that survive to the end of a search run and drive the
path reconstruction: realizability, start score, and parent-edge soundness. -/
structure FinInv (g : NavigationGrid) (start goal : Cell)
    (cost : Cell → Cell → ℝ) (heur : Cell → ℝ)
    (ks : KSetup g goal.key cost heur) (s : SearchState) : Prop where
  real : ∀ k ck, s.costSoFar k = some ck →
    ∃ l, List.Chain (stepOK g) start.key l ∧ lastK start.key l = k ∧
      kchainW ks.W start.key l = ck
  start0 : ∃ c0, s.costSoFar start.key = some c0 ∧ c0 ≤ 0
  came1 : ∀ k c, s.cameFrom k = some (some c) →
    stepOK g c.key k ∧ ∃ ck cc, s.costSoFar k = some ck ∧
      s.costSoFar c.key = some cc ∧ cc + ks.W c.key k ≤ ck
  cameN : ∀ k, s.cameFrom k = some none → k = start.key
  camedom : ∀ k, s.cameFrom k = none ↔ s.costSoFar k = none
  domcard : ∃ dom : Finset (ℤ × ℤ),
    (∀ k, s.costSoFar k ≠ none ↔ k ∈ dom) ∧ dom.card ≤ s.counter + 1

/-- The eight king-move offsets, as a finite set. -/
def dirF : Finset (ℤ × ℤ) :=
  {(0, 1), (1, 0), (0, -1), (-1, 0), (1, 1), (1, -1), (-1, 1), (-1, -1)}

/-- The in-bounds coordinate keys of a grid, as a finite set. -/
def boundsK (g : NavigationGrid) : Finset (ℤ × ℤ) :=
  (Finset.Icc 0 (g.width - 1)) ×ˢ (Finset.Icc 0 (g.height - 1))

/-! Concrete scenario data for the counterexamples and witnesses. -/

/-- The all-water 10 x 10 grid with 10 km cells of the C4 scenario. -/
def grid10 : NavigationGrid := NavigationGrid.make 10 10 10

/-- A router on grid10 without a weather system. -/
def router10 : ShipRouter := { grid := grid10, weather := none }

/-- The cell (0, 6) of grid10. -/
def cellG06 : Cell := ⟨0, 6, false, 1, 0⟩

/-- The small optimizer configuration of the C6 failing input: 6 routes,
2 generations, on the all-water 10 x 10 grid without weather. -/
def bugOpt : GeneticRouteOptimizer :=
  { grid := grid10, weather := none, populationSize := 6, generations := 2 }

/-- The realizable random stream of the C6 failing input: every initial
route draws 5 waypoints with zero jitter (the straight line to the goal),
tournament samples keep list order, every crossover coin fails (0.9 at or
above the 0.8 rate, so parents pass through by reference), and exactly one
mutation coin hits (draw 75, the first offspring of generation 0): a
modify of interior waypoint 3 by offset (0, +3). -/
noncomputable def bugOracleH : RandOracleH :=
  { randint := fun t _ _ =>
      if t < 66 then (if t % 11 = 0 then 5 else 0)
      else if t = 77 then 3 else if t = 79 then 3 else 0
    rand := fun t => if t = 75 then 0 else 0.9
    sample := fun _ l => l.take 5
    choice := fun _ => 0 }


/-- A router on grid10 with the all-zero weather system. -/
def routerW : ShipRouter := { grid := grid10, weather := some WeatherSystem.zero }

/-- The cell (0, 0) of grid10 (and of grid33, where it is also water). -/
def cellA : Cell := ⟨0, 0, false, 1, 0⟩

/-- The cell (3, 4) of grid10. -/
def cellG34 : Cell := ⟨3, 4, false, 1, 0⟩

/-- The cell (5, 5) of grid10. -/
def cellC55 : Cell := ⟨5, 5, false, 1, 0⟩

/-- A 3 x 3 grid whose water cells are (0,0), (0,1), (1,0) and (2,2): the
goal corner (2,2) is walled off by land at (1,1), (2,1) and (1,2), so no
path connects (0,0) to (2,2). -/
def grid33 : NavigationGrid :=
  (((((NavigationGrid.make 3 3 10).setLand 1 1 true).setLand 2 1
    true).setLand 1 2 true).setLand 0 2 true).setLand 2 0 true

/-- The water cell (2, 2) of grid33. -/
def cellG22 : Cell := ⟨2, 2, false, 1, 0⟩

/-- A 3 x 1 grid with land at (1, 0): the water cells (0,0) and (2,0) are
disconnected and (0,0) has no neighbors at all. -/
def grid31 : NavigationGrid := (NavigationGrid.make 3 1 10).setLand 1 0 true

/-- The water cell (2, 0) of grid31. -/
def cellG20 : Cell := ⟨2, 0, false, 1, 0⟩

/-- A router on grid31 without a weather system. -/
def router31 : ShipRouter := { grid := grid31, weather := none }

/-- A router on grid31 with the all-zero weather system. -/
def router31W : ShipRouter := { grid := grid31, weather := some WeatherSystem.zero }

/-! ## Claim C5: the weather-cost floor -/

/-- Amended C5: the weather-cost query returns at least 0.1 for every
weather state, every non-land cell and every heading.  (For land cells the
code returns 0.0 before the floor is applied; see the counterexample.) -/
theorem claim_C5_weather_floor (w : WeatherSystem) (cell : Cell) (heading : ℝ)
    (h : cell.isLand = false) : 0.1 ≤ w.calculateWeatherCost cell heading := by
  unfold WeatherSystem.calculateWeatherCost
  rw [if_neg (by simp [h])]
  exact le_max_left _ _

/-- Witness for C5 at a concrete non-land cell. -/
theorem claim_C5_witness :
    (⟨0, 0, false, 1, 0⟩ : Cell).isLand = false ∧
      0.1 ≤ WeatherSystem.zero.calculateWeatherCost ⟨0, 0, false, 1, 0⟩ 0 :=
  ⟨rfl, claim_C5_weather_floor WeatherSystem.zero ⟨0, 0, false, 1, 0⟩ 0 rfl⟩

/-- C5 as stated is false: on a land cell the weather cost is 0.0, below the
claimed floor of 0.1. -/
theorem claim_C5_counterexample :
    WeatherSystem.zero.calculateWeatherCost ⟨0, 0, true, 1, 0⟩ 0 < 0.1 := by
  unfold WeatherSystem.calculateWeatherCost
  rw [if_pos rfl]
  norm_num

/-! ## Claim C10: terrain-shaping frame conditions -/

theorem mem_intRange {a b p : ℤ} : p ∈ intRange a b ↔ a ≤ p ∧ p < b := by
  unfold intRange
  constructor
  · intro h
    obtain ⟨i, hi, hp⟩ := List.mem_map.mp h
    rw [List.mem_range] at hi
    omega
  · intro h
    refine List.mem_map.mpr ⟨(p - a).toNat, ?_, ?_⟩
    · rw [List.mem_range]; omega
    · omega

theorem setLand_width (g : NavigationGrid) (x y : ℤ) (b : Bool) :
    (g.setLand x y b).width = g.width := by
  unfold NavigationGrid.setLand
  rcases g.getCell x y with _ | c <;> rfl

theorem setLand_height (g : NavigationGrid) (x y : ℤ) (b : Bool) :
    (g.setLand x y b).height = g.height := by
  unfold NavigationGrid.setLand
  rcases g.getCell x y with _ | c <;> rfl

theorem setLand_cellSize (g : NavigationGrid) (x y : ℤ) (b : Bool) :
    (g.setLand x y b).cellSizeKm = g.cellSizeKm := by
  unfold NavigationGrid.setLand
  rcases g.getCell x y with _ | c <;> rfl

theorem setLand_cells (g : NavigationGrid) (x y : ℤ) (b : Bool) (p q : ℤ) :
    (g.setLand x y b).cells p q =
      if p = x ∧ q = y ∧ 0 ≤ x ∧ x < g.width ∧ 0 ≤ y ∧ y < g.height
      then { g.cells x y with isLand := b } else g.cells p q := by
  unfold NavigationGrid.setLand NavigationGrid.getCell
  by_cases hb : 0 ≤ x ∧ x < g.width ∧ 0 ≤ y ∧ y < g.height
  · rw [if_pos hb]
    show (if p = x ∧ q = y then { g.cells x y with isLand := b }
      else g.cells p q) = _
    by_cases hpq : p = x ∧ q = y
    · rw [if_pos hpq, if_pos ⟨hpq.1, hpq.2, hb⟩]
    · rw [if_neg hpq, if_neg (fun h => hpq ⟨h.1, h.2.1⟩)]
  · rw [if_neg hb]
    show g.cells p q = _
    rw [if_neg (fun h => hb h.2.2)]

theorem innerStamp (xv : ℤ) (ys : List ℤ) (g0 : NavigationGrid) :
    (ys.foldl (fun g2 yv => g2.setLand xv yv true) g0).width = g0.width ∧
    (ys.foldl (fun g2 yv => g2.setLand xv yv true) g0).height = g0.height ∧
    (ys.foldl (fun g2 yv => g2.setLand xv yv true) g0).cellSizeKm = g0.cellSizeKm ∧
    (∀ p q, ¬(p = xv ∧ q ∈ ys) →
      (ys.foldl (fun g2 yv => g2.setLand xv yv true) g0).cells p q = g0.cells p q) ∧
    (∀ p q, p = xv → q ∈ ys → 0 ≤ p → p < g0.width → 0 ≤ q → q < g0.height →
      (ys.foldl (fun g2 yv => g2.setLand xv yv true) g0).cells p q =
        { g0.cells p q with isLand := true }) := by
  induction ys generalizing g0 with
  | nil => exact ⟨rfl, rfl, rfl, fun p q _ => rfl, fun p q _ hq => absurd hq (by simp)⟩
  | cons yv ys ih =>
      obtain ⟨hw, hh, hs, hmiss, hhit⟩ := ih (g0.setLand xv yv true)
      simp only [List.foldl_cons]
      refine ⟨by rw [hw, setLand_width], by rw [hh, setLand_height],
        by rw [hs, setLand_cellSize], ?_, ?_⟩
      · intro p q hmem
        rw [hmiss p q (fun h => hmem ⟨h.1, List.mem_cons_of_mem _ h.2⟩)]
        rw [setLand_cells, if_neg (fun h => hmem ⟨h.1, by rw [h.2.1]; exact List.mem_cons_self _ _⟩)]
      · intro p q hp hq h0 h1 h2 h3
        subst hp
        rcases List.mem_cons.mp hq with hq | hq
        · subst hq
          have hcell : (g0.setLand p q true).cells p q = { g0.cells p q with isLand := true } := by
            rw [setLand_cells, if_pos ⟨rfl, rfl, h0, h1, h2, h3⟩]
          by_cases hq2 : q ∈ ys
          · rw [hhit p q rfl hq2 h0 (by rw [setLand_width]; exact h1) h2
              (by rw [setLand_height]; exact h3), hcell]
          · rw [hmiss p q (fun h => hq2 h.2), hcell]
        · rw [hhit p q rfl hq h0 (by rw [setLand_width]; exact h1) h2
            (by rw [setLand_height]; exact h3)]
          rw [setLand_cells]
          by_cases hqy : q = yv
          · subst hqy
            rw [if_pos ⟨rfl, rfl, h0, h1, h2, h3⟩]
          · rw [if_neg (fun h => hqy h.2.1)]

theorem outerStamp (xs ys : List ℤ) (g0 : NavigationGrid) :
    (xs.foldl (fun g1 xv => ys.foldl (fun g2 yv => g2.setLand xv yv true) g1) g0).width = g0.width ∧
    (xs.foldl (fun g1 xv => ys.foldl (fun g2 yv => g2.setLand xv yv true) g1) g0).height = g0.height ∧
    (xs.foldl (fun g1 xv => ys.foldl (fun g2 yv => g2.setLand xv yv true) g1) g0).cellSizeKm = g0.cellSizeKm ∧
    (∀ p q, ¬(p ∈ xs ∧ q ∈ ys) →
      (xs.foldl (fun g1 xv => ys.foldl (fun g2 yv => g2.setLand xv yv true) g1) g0).cells p q = g0.cells p q) ∧
    (∀ p q, p ∈ xs → q ∈ ys → 0 ≤ p → p < g0.width → 0 ≤ q → q < g0.height →
      (xs.foldl (fun g1 xv => ys.foldl (fun g2 yv => g2.setLand xv yv true) g1) g0).cells p q =
        { g0.cells p q with isLand := true }) := by
  induction xs generalizing g0 with
  | nil => exact ⟨rfl, rfl, rfl, fun p q _ => rfl, fun p q hp => absurd hp (by simp)⟩
  | cons xv xs ih =>
      obtain ⟨iw, ihh, is, imiss, ihit⟩ := innerStamp xv ys g0
      obtain ⟨hw, hh, hs, hmiss, hhit⟩ := ih (ys.foldl (fun g2 yv => g2.setLand xv yv true) g0)
      simp only [List.foldl_cons]
      refine ⟨by rw [hw, iw], by rw [hh, ihh], by rw [hs, is], ?_, ?_⟩
      · intro p q hmem
        rw [hmiss p q (fun h => hmem ⟨List.mem_cons_of_mem _ h.1, h.2⟩)]
        exact imiss p q (fun h => hmem ⟨by rw [h.1]; exact List.mem_cons_self _ _, h.2⟩)
      · intro p q hp hq h0 h1 h2 h3
        rcases List.mem_cons.mp hp with hp | hp
        · subst hp
          have hcell := ihit p q rfl hq h0 h1 h2 h3
          by_cases hp2 : p ∈ xs
          · rw [hhit p q hp2 hq h0 (by rw [iw]; exact h1) h2 (by rw [ihh]; exact h3), hcell]
          · rw [hmiss p q (fun h => hp2 h.1), hcell]
        · rw [hhit p q hp hq h0 (by rw [iw]; exact h1) h2 (by rw [ihh]; exact h3)]
          by_cases hpxv : p = xv
          · rw [ihit p q hpxv hq h0 h1 h2 h3]
          · rw [imiss p q (fun h => hpxv h.1)]

theorem innerIsland (cx cy r xv : ℤ) (ys : List ℤ) (g0 : NavigationGrid) :
    ((ys.foldl (fun g2 yv => if (xv - cx) ^ 2 + (yv - cy) ^ 2 ≤ r ^ 2 then
        g2.setLand xv yv true else g2) g0).width = g0.width) ∧
    ((ys.foldl (fun g2 yv => if (xv - cx) ^ 2 + (yv - cy) ^ 2 ≤ r ^ 2 then
        g2.setLand xv yv true else g2) g0).height = g0.height) ∧
    ((ys.foldl (fun g2 yv => if (xv - cx) ^ 2 + (yv - cy) ^ 2 ≤ r ^ 2 then
        g2.setLand xv yv true else g2) g0).cellSizeKm = g0.cellSizeKm) ∧
    (∀ p q, ¬(p = xv ∧ q ∈ ys ∧ (p - cx) ^ 2 + (q - cy) ^ 2 ≤ r ^ 2) →
      (ys.foldl (fun g2 yv => if (xv - cx) ^ 2 + (yv - cy) ^ 2 ≤ r ^ 2 then
        g2.setLand xv yv true else g2) g0).cells p q = g0.cells p q) ∧
    (∀ p q, p = xv → q ∈ ys → (p - cx) ^ 2 + (q - cy) ^ 2 ≤ r ^ 2 →
      0 ≤ p → p < g0.width → 0 ≤ q → q < g0.height →
      (ys.foldl (fun g2 yv => if (xv - cx) ^ 2 + (yv - cy) ^ 2 ≤ r ^ 2 then
        g2.setLand xv yv true else g2) g0).cells p q =
        { g0.cells p q with isLand := true }) := by
  induction ys generalizing g0 with
  | nil => exact ⟨rfl, rfl, rfl, fun p q _ => rfl, fun p q _ hq => absurd hq (by simp)⟩
  | cons yv ys ih =>
      by_cases hcirc : (xv - cx) ^ 2 + (yv - cy) ^ 2 ≤ r ^ 2
      · obtain ⟨hw, hh, hs, hmiss, hhit⟩ := ih (g0.setLand xv yv true)
        simp only [List.foldl_cons, if_pos hcirc]
        refine ⟨by rw [hw, setLand_width], by rw [hh, setLand_height],
          by rw [hs, setLand_cellSize], ?_, ?_⟩
        · intro p q hmem
          rw [hmiss p q (fun h => hmem ⟨h.1, List.mem_cons_of_mem _ h.2.1, h.2.2⟩)]
          rw [setLand_cells]
          rw [if_neg (fun h => hmem ⟨h.1, by rw [h.2.1]; exact List.mem_cons_self _ _,
            by rw [h.1, h.2.1]; exact hcirc⟩)]
        · intro p q hp hq hc h0 h1 h2 h3
          subst hp
          rcases List.mem_cons.mp hq with hq | hq
          · subst hq
            have hcell : (g0.setLand p q true).cells p q =
                { g0.cells p q with isLand := true } := by
              rw [setLand_cells, if_pos ⟨rfl, rfl, h0, h1, h2, h3⟩]
            by_cases hq2 : q ∈ ys
            · rw [hhit p q rfl hq2 hc h0 (by rw [setLand_width]; exact h1) h2
                (by rw [setLand_height]; exact h3), hcell]
            · rw [hmiss p q (fun h => hq2 h.2.1), hcell]
          · rw [hhit p q rfl hq hc h0 (by rw [setLand_width]; exact h1) h2
              (by rw [setLand_height]; exact h3)]
            rw [setLand_cells]
            by_cases hqy : q = yv
            · subst hqy
              rw [if_pos ⟨rfl, rfl, h0, h1, h2, h3⟩]
            · rw [if_neg (fun h => hqy h.2.1)]
      · obtain ⟨hw, hh, hs, hmiss, hhit⟩ := ih g0
        simp only [List.foldl_cons, if_neg hcirc]
        refine ⟨hw, hh, hs, ?_, ?_⟩
        · intro p q hmem
          exact hmiss p q (fun h => hmem ⟨h.1, List.mem_cons_of_mem _ h.2.1, h.2.2⟩)
        · intro p q hp hq hc h0 h1 h2 h3
          rcases List.mem_cons.mp hq with hq | hq
          · exact absurd hc (by rw [hp, hq]; exact hcirc)
          · exact hhit p q hp hq hc h0 h1 h2 h3

theorem outerIsland (cx cy r : ℤ) (xs ys : List ℤ) (g0 : NavigationGrid) :
    ((xs.foldl (fun g1 xv => ys.foldl (fun g2 yv =>
        if (xv - cx) ^ 2 + (yv - cy) ^ 2 ≤ r ^ 2 then g2.setLand xv yv true else g2) g1)
        g0).width = g0.width) ∧
    ((xs.foldl (fun g1 xv => ys.foldl (fun g2 yv =>
        if (xv - cx) ^ 2 + (yv - cy) ^ 2 ≤ r ^ 2 then g2.setLand xv yv true else g2) g1)
        g0).height = g0.height) ∧
    ((xs.foldl (fun g1 xv => ys.foldl (fun g2 yv =>
        if (xv - cx) ^ 2 + (yv - cy) ^ 2 ≤ r ^ 2 then g2.setLand xv yv true else g2) g1)
        g0).cellSizeKm = g0.cellSizeKm) ∧
    (∀ p q, ¬(p ∈ xs ∧ q ∈ ys ∧ (p - cx) ^ 2 + (q - cy) ^ 2 ≤ r ^ 2) →
      (xs.foldl (fun g1 xv => ys.foldl (fun g2 yv =>
        if (xv - cx) ^ 2 + (yv - cy) ^ 2 ≤ r ^ 2 then g2.setLand xv yv true else g2) g1)
        g0).cells p q = g0.cells p q) ∧
    (∀ p q, p ∈ xs → q ∈ ys → (p - cx) ^ 2 + (q - cy) ^ 2 ≤ r ^ 2 →
      0 ≤ p → p < g0.width → 0 ≤ q → q < g0.height →
      (xs.foldl (fun g1 xv => ys.foldl (fun g2 yv =>
        if (xv - cx) ^ 2 + (yv - cy) ^ 2 ≤ r ^ 2 then g2.setLand xv yv true else g2) g1)
        g0).cells p q = { g0.cells p q with isLand := true }) := by
  induction xs generalizing g0 with
  | nil => exact ⟨rfl, rfl, rfl, fun p q _ => rfl, fun p q hp => absurd hp (by simp)⟩
  | cons xv xs ih =>
      obtain ⟨iw, ihh, is, imiss, ihit⟩ := innerIsland cx cy r xv ys g0
      obtain ⟨hw, hh, hs, hmiss, hhit⟩ := ih (ys.foldl (fun g2 yv =>
        if (xv - cx) ^ 2 + (yv - cy) ^ 2 ≤ r ^ 2 then g2.setLand xv yv true else g2) g0)
      simp only [List.foldl_cons]
      refine ⟨by rw [hw, iw], by rw [hh, ihh], by rw [hs, is], ?_, ?_⟩
      · intro p q hmem
        rw [hmiss p q (fun h => hmem ⟨List.mem_cons_of_mem _ h.1, h.2⟩)]
        exact imiss p q (fun h =>
          hmem ⟨by rw [h.1]; exact List.mem_cons_self _ _, h.2.1, h.2.2⟩)
      · intro p q hp hq hc h0 h1 h2 h3
        rcases List.mem_cons.mp hp with hp | hp
        · subst hp
          have hcell := ihit p q rfl hq hc h0 h1 h2 h3
          by_cases hp2 : p ∈ xs
          · rw [hhit p q hp2 hq hc h0 (by rw [iw]; exact h1) h2 (by rw [ihh]; exact h3),
              hcell]
          · rw [hmiss p q (fun h => hp2 h.1), hcell]
        · rw [hhit p q hp hq hc h0 (by rw [iw]; exact h1) h2 (by rw [ihh]; exact h3)]
          by_cases hpxv : p = xv
          · rw [ihit p q hpxv hq hc h0 h1 h2 h3]
          · rw [imiss p q (fun h => hpxv h.1)]


/-- C10: the three terrain-shaping operations never raise (they are total
functions of the state), change only the is_land flag, only of cells inside
both the grid bounds and the targeted cell, clipped rectangle, or clipped
circle, leave every other cell untouched, and preserve the grid width,
height and cell size.  The record-update form of each right-hand side shows
that the coordinate and cost fields of even the targeted cells are kept. -/
theorem claim_C10_terrain_frame (g : NavigationGrid) :
    (∀ x y b,
      (g.setLand x y b).width = g.width ∧
      (g.setLand x y b).height = g.height ∧
      (g.setLand x y b).cellSizeKm = g.cellSizeKm ∧
      ∀ p q, (g.setLand x y b).cells p q =
        if p = x ∧ q = y ∧ 0 ≤ x ∧ x < g.width ∧ 0 ≤ y ∧ y < g.height
        then { g.cells x y with isLand := b } else g.cells p q) ∧
    (∀ xStart yStart xEnd yEnd,
      (g.setLandRegion xStart yStart xEnd yEnd).width = g.width ∧
      (g.setLandRegion xStart yStart xEnd yEnd).height = g.height ∧
      (g.setLandRegion xStart yStart xEnd yEnd).cellSizeKm = g.cellSizeKm ∧
      (∀ p q, ¬(max 0 xStart ≤ p ∧ p < min g.width (xEnd + 1) ∧
          max 0 yStart ≤ q ∧ q < min g.height (yEnd + 1)) →
        (g.setLandRegion xStart yStart xEnd yEnd).cells p q = g.cells p q) ∧
      (∀ p q, max 0 xStart ≤ p → p < min g.width (xEnd + 1) →
          max 0 yStart ≤ q → q < min g.height (yEnd + 1) →
        (g.setLandRegion xStart yStart xEnd yEnd).cells p q =
          { g.cells p q with isLand := true })) ∧
    (∀ cx cy r,
      (g.addIsland cx cy r).width = g.width ∧
      (g.addIsland cx cy r).height = g.height ∧
      (g.addIsland cx cy r).cellSizeKm = g.cellSizeKm ∧
      (∀ p q, ¬(max 0 (cx - r) ≤ p ∧ p < min g.width (cx + r + 1) ∧
          max 0 (cy - r) ≤ q ∧ q < min g.height (cy + r + 1) ∧
          (p - cx) ^ 2 + (q - cy) ^ 2 ≤ r ^ 2) →
        (g.addIsland cx cy r).cells p q = g.cells p q) ∧
      (∀ p q, max 0 (cx - r) ≤ p → p < min g.width (cx + r + 1) →
          max 0 (cy - r) ≤ q → q < min g.height (cy + r + 1) →
          (p - cx) ^ 2 + (q - cy) ^ 2 ≤ r ^ 2 →
        (g.addIsland cx cy r).cells p q = { g.cells p q with isLand := true })) := by
  refine ⟨fun x y b => ⟨setLand_width g x y b, setLand_height g x y b,
    setLand_cellSize g x y b, setLand_cells g x y b⟩, ?_, ?_⟩
  · intro xStart yStart xEnd yEnd
    unfold NavigationGrid.setLandRegion
    obtain ⟨hw, hh, hs, hmiss, hhit⟩ := outerStamp
      (intRange (max 0 xStart) (min g.width (xEnd + 1)))
      (intRange (max 0 yStart) (min g.height (yEnd + 1))) g
    refine ⟨hw, hh, hs, ?_, ?_⟩
    · intro p q hcond
      exact hmiss p q (fun h =>
        hcond ⟨(mem_intRange.mp h.1).1, (mem_intRange.mp h.1).2,
          (mem_intRange.mp h.2).1, (mem_intRange.mp h.2).2⟩)
    · intro p q h1 h2 h3 h4
      exact hhit p q (mem_intRange.mpr ⟨h1, h2⟩) (mem_intRange.mpr ⟨h3, h4⟩)
        (le_trans (le_max_left 0 xStart) h1) (lt_of_lt_of_le h2 (min_le_left _ _))
        (le_trans (le_max_left 0 yStart) h3) (lt_of_lt_of_le h4 (min_le_left _ _))
  · intro cx cy r
    unfold NavigationGrid.addIsland
    obtain ⟨hw, hh, hs, hmiss, hhit⟩ := outerIsland cx cy r
      (intRange (max 0 (cx - r)) (min g.width (cx + r + 1)))
      (intRange (max 0 (cy - r)) (min g.height (cy + r + 1))) g
    refine ⟨hw, hh, hs, ?_, ?_⟩
    · intro p q hcond
      exact hmiss p q (fun h =>
        hcond ⟨(mem_intRange.mp h.1).1, (mem_intRange.mp h.1).2,
          (mem_intRange.mp h.2.1).1, (mem_intRange.mp h.2.1).2, h.2.2⟩)
    · intro p q h1 h2 h3 h4 h5
      exact hhit p q (mem_intRange.mpr ⟨h1, h2⟩) (mem_intRange.mpr ⟨h3, h4⟩) h5
        (le_trans (le_max_left 0 (cx - r)) h1) (lt_of_lt_of_le h2 (min_le_left _ _))
        (le_trans (le_max_left 0 (cy - r)) h3) (lt_of_lt_of_le h4 (min_le_left _ _))

/-! ## Provenance invariants of the shared single-objective search loop -/

theorem mem_pqInsert {e x : PQEntry} {l : List PQEntry} :
    x ∈ pqInsert e l ↔ x = e ∨ x ∈ l := by
  induction l with
  | nil => simp [pqInsert]
  | cons f rest ih =>
      unfold pqInsert
      split_ifs with h
      · simp [List.mem_cons]
      · simp only [List.mem_cons, ih]
        tauto

theorem mem_getNeighbors {g : NavigationGrid} {c nb : Cell} {b : Bool} :
    nb ∈ g.getNeighbors c b ↔
      ∃ d ∈ directions b, g.getCell (c.x + d.1) (c.y + d.2) = some nb ∧
        nb.isLand = false := by
  unfold NavigationGrid.getNeighbors
  rw [List.mem_filterMap]
  constructor
  · rintro ⟨d, hd, hf⟩
    split at hf
    next cc heq =>
      split_ifs at hf with hl
      have hcc : cc = nb := by injection hf
      subst hcc
      exact ⟨d, hd, heq, by simpa using hl⟩
    next heq => exact absurd hf (by simp)
  · rintro ⟨d, hd, hgc, hl⟩
    refine ⟨d, hd, ?_⟩
    rw [hgc]
    show (if nb.isLand = true then none else some nb) = some nb
    rw [if_neg (by simp [hl])]

theorem getNeighbors_not_land {g : NavigationGrid} {c nb : Cell} {b : Bool}
    (h : nb ∈ g.getNeighbors c b) : nb.isLand = false :=
  (mem_getNeighbors.mp h).choose_spec.2.2

theorem searchInv_init (g : NavigationGrid) (start : Cell) :
    SearchInv g start (initState start) := by
  refine ⟨?_, ?_, ?_, ?_, ?_⟩
  · intro e he
    simp only [initState, List.mem_singleton] at he
    subst he
    exact Or.inl rfl
  · intro e he
    simp only [initState, List.mem_singleton] at he
    subst he
    exact Relation.ReflTransGen.refl
  · intro p hp
    simp only [initState] at hp
    by_cases h : p = start.key
    · exact h
    · rw [if_neg h] at hp
      exact absurd hp (by simp)
  · intro p c hc
    simp only [initState] at hc
    by_cases h : p = start.key
    · rw [if_pos h] at hc
      exact absurd hc (by simp)
    · rw [if_neg h] at hc
      exact absurd hc (by simp)
  · intro p v hv
    simp only [initState] at hv
    by_cases h : p = start.key
    · exact ⟨start, h.symm, Relation.ReflTransGen.refl⟩
    · rw [if_neg h] at hv
      exact absurd hv (by simp)

theorem searchInv_relaxOne {g : NavigationGrid} {start current : Cell}
    {cost : Cell → Cell → ℝ} {heur : Cell → ℝ} {s : SearchState} {nb : Cell}
    (hs : SearchInv g start s)
    (hcur : current = start ∨ ∃ d, current ∈ g.getNeighbors d true)
    (hreach : Reachable g start current)
    (hnb : nb ∈ g.getNeighbors current true) :
    SearchInv g start (relaxOne cost heur current s nb) := by
  unfold relaxOne
  dsimp only
  split_ifs with h
  · refine ⟨?_, ?_, ?_, ?_, ?_⟩
    · intro e he
      rcases mem_pqInsert.mp he with he | he
      · subst he
        exact Or.inr ⟨current, hnb⟩
      · exact hs.pq_src e he
    · intro e he
      rcases mem_pqInsert.mp he with he | he
      · subst he
        exact Relation.ReflTransGen.tail hreach hnb
      · exact hs.pq_reach e he
    · intro p hp
      simp only [dictSet] at hp
      split_ifs at hp with hk
      · exact absurd hp (by simp)
      · exact hs.came_none p hp
    · intro p c hc
      simp only [dictSet] at hc
      split_ifs at hc with hk
      · have hcc : c = current := by
          have h1 : some current = some c := by injection hc
          have h2 : current = c := by injection h1
          exact h2.symm
        subst hcc
        exact hcur
      · exact hs.came_src p c hc
    · intro p v hv
      simp only [dictSet] at hv
      split_ifs at hv with hk
      · exact ⟨nb, by rw [hk], Relation.ReflTransGen.tail hreach hnb⟩
      · exact hs.came_reach p v hv
  · exact hs

theorem searchInv_relaxFold {g : NavigationGrid} {start current : Cell}
    {cost : Cell → Cell → ℝ} {heur : Cell → ℝ}
    (hcur : current = start ∨ ∃ d, current ∈ g.getNeighbors d true)
    (hreach : Reachable g start current) :
    ∀ (l : List Cell) (s : SearchState),
      (∀ nb ∈ l, nb ∈ g.getNeighbors current true) → SearchInv g start s →
      SearchInv g start (l.foldl (relaxOne cost heur current) s) := by
  intro l
  induction l with
  | nil => intro s _ hs; exact hs
  | cons nb rest ih =>
      intro s hmem hs
      simp only [List.foldl_cons]
      exact ih _ (fun x hx => hmem x (List.mem_cons_of_mem _ hx))
        (searchInv_relaxOne hs hcur hreach (hmem nb (List.mem_cons_self _ _)))

theorem searchInv_relaxNeighbors {g : NavigationGrid} {start current : Cell}
    {cost : Cell → Cell → ℝ} {heur : Cell → ℝ} {s : SearchState}
    (hs : SearchInv g start s)
    (hcur : current = start ∨ ∃ d, current ∈ g.getNeighbors d true)
    (hreach : Reachable g start current) :
    SearchInv g start (relaxNeighbors g cost heur current s) :=
  searchInv_relaxFold hcur hreach _ s (fun _ hx => hx) hs

theorem searchInv_popped {g : NavigationGrid} {start : Cell} {s : SearchState}
    {e : PQEntry} {rest : List PQEntry} (hs : SearchInv g start s)
    (hpq : s.pq = e :: rest) (n : ℕ) :
    SearchInv g start { s with pq := rest, nodesExplored := n } := by
  refine ⟨?_, ?_, hs.came_none, hs.came_src, hs.came_reach⟩
  · intro f hf
    exact hs.pq_src f (by rw [hpq]; exact List.mem_cons_of_mem _ hf)
  · intro f hf
    exact hs.pq_reach f (by rw [hpq]; exact List.mem_cons_of_mem _ hf)

theorem searchInv_loop (g : NavigationGrid) (start goal : Cell)
    (cost : Cell → Cell → ℝ) (heur : Cell → ℝ) (fuel : ℕ) (s : SearchState)
    (hs : SearchInv g start s) :
    SearchInv g start (searchLoop g cost heur goal fuel s) := by
  induction fuel generalizing s with
  | zero => exact hs
  | succ n ih =>
      unfold searchLoop searchStep
      rcases hpq : s.pq with _ | ⟨⟨prio, cnt, current⟩, rest⟩
      · exact hs
      · have hcur : current = start ∨ ∃ d, current ∈ g.getNeighbors d true :=
          hs.pq_src (prio, cnt, current) (by rw [hpq]; exact List.mem_cons_self _ _)
        have hreach : Reachable g start current :=
          hs.pq_reach (prio, cnt, current) (by rw [hpq]; exact List.mem_cons_self _ _)
        have hpop := searchInv_popped hs hpq (s.nodesExplored + 1)
        dsimp only
        split_ifs with hgoal
        · exact hpop
        · exact ih _ (searchInv_relaxNeighbors hpop hcur hreach)

/-! ## Reconstruction lemmas -/

theorem chaseParents_mem {came : ℤ × ℤ → Option (Option Cell)} :
    ∀ {fuel : ℕ} {c : Cell} {l : List Cell},
      chaseParents came fuel c = some l →
      ∀ x ∈ l, x = c ∨ ∃ p, came p = some (some x) := by
  intro fuel
  induction fuel with
  | zero => intro c l h; exact absurd h (by simp [chaseParents])
  | succ n ih =>
      intro c l h x hx
      unfold chaseParents at h
      split at h
      next heq => exact absurd h (by simp)
      next heq =>
        have hl : l = [c] := by
          injection h with h1
          exact h1.symm
        subst hl
        simp only [List.mem_singleton] at hx
        exact Or.inl hx
      next p heq =>
        rcases hch : chaseParents came n p with _ | l2 <;> rw [hch] at h
        · exact absurd h (by simp)
        · simp only [Option.map_some'] at h
          have hl : l = c :: l2 := by
            injection h with h1
            exact h1.symm
          subst hl
          rcases List.mem_cons.mp hx with hx | hx
          · exact Or.inl hx
          · rcases ih hch x hx with hx2 | hx2
            · subst hx2
              exact Or.inr ⟨c.key, heq⟩
            · exact Or.inr hx2

theorem reconstructPath_mem {came : ℤ × ℤ → Option (Option Cell)} {fuel : ℕ}
    {goal : Cell} {x : Cell} (hx : x ∈ reconstructPath came fuel goal) :
    x = goal ∨ ∃ p, came p = some (some x) := by
  unfold reconstructPath at hx
  rcases hch : chaseParents came fuel goal with _ | l
  · rw [hch] at hx
    exact absurd hx (by simp)
  · rw [hch] at hx
    exact chaseParents_mem hch x (List.mem_reverse.mp hx)

theorem createResult_path (r : ShipRouter) (p : List Cell) (n : ℕ) (a : String) :
    (r.createResult p n a).path = p := by
  unfold ShipRouter.createResult
  split_ifs with h
  · rw [h]
  · rfl

theorem runVariant_no_land (r : ShipRouter) (cost : Cell → Cell → ℝ)
    (heur : Cell → ℝ) (start goal : Cell) (alg : String)
    (hs : start.isLand = false) (hg : goal.isLand = false) :
    ∀ c ∈ (runVariant r cost heur start goal alg).path, c.isLand = false := by
  intro c hc
  unfold runVariant at hc
  rw [createResult_path] at hc
  rcases reconstructPath_mem hc with hc2 | ⟨p, hp⟩
  · rw [hc2]
    exact hg
  · have hinv := searchInv_loop r.grid start goal cost heur (searchFuel r.grid)
      (initState start) (searchInv_init r.grid start)
    rcases hinv.came_src p c hp with hc2 | ⟨d, hc2⟩
    · rw [hc2]
      exact hs
    · exact getNeighbors_not_land hc2

/-! ## Provenance invariants of the bidirectional search -/

theorem mem_biInsert {e : BiEntry} :
    ∀ {l l2 : List BiEntry}, biInsert e l = .ok l2 → ∀ x ∈ l2, x = e ∨ x ∈ l := by
  intro l
  induction l with
  | nil =>
      intro l2 h x hx
      have hl : l2 = [e] := by
        simp only [biInsert] at h
        injection h with h1
        exact h1.symm
      subst hl
      simp only [List.mem_singleton] at hx
      exact Or.inl hx
  | cons f rest ih =>
      intro l2 h x hx
      unfold biInsert at h
      split_ifs at h with h1 h2
      · have hl : l2 = e :: f :: rest := by
          injection h with hh
          exact hh.symm
        subst hl
        rcases List.mem_cons.mp hx with hx | hx
        · exact Or.inl hx
        · exact Or.inr hx
      · rcases hbi : biInsert e rest with _ | l3 <;> rw [hbi] at h
        · exact absurd h (by simp [Except.map])
        · simp only [Except.map] at h
          have hl : l2 = f :: l3 := by
            injection h with hh
            exact hh.symm
          subst hl
          rcases List.mem_cons.mp hx with hx | hx
          · exact Or.inr (by rw [hx]; exact List.mem_cons_self _ _)
          · rcases ih hbi x hx with hx2 | hx2
            · exact Or.inl hx2
            · exact Or.inr (List.mem_cons_of_mem _ hx2)

theorem biRelaxStep_inv {g : NavigationGrid} {root target current : Cell}
    {side side2 : BiSide} {nb : Cell}
    (hcur : current = root ∨ ∃ d, current ∈ g.getNeighbors d true)
    (hnb : nb ∈ g.getNeighbors current true)
    (h : biRelaxStep g target current side nb = .ok side2)
    (hinv : BiSideInv g root side) : BiSideInv g root side2 := by
  unfold biRelaxStep at h
  dsimp only at h
  split_ifs at h with hskip hproc
  · have hss : side = side2 := by injection h
    rw [← hss]
    exact hinv
  · rcases hbi : biInsert
        ((side.gScore current.key).getD 0 + g.getMovementCost current nb +
          g.getDistance nb target, nb) side.frontier with _ | fr <;>
      rw [hbi] at h
    · exact absurd h (by simp [Except.bind])
    · simp only [Except.bind, bind, pure_bind] at h
      have hside2 : side2 =
          { frontier := fr
            came := dictSet side.came nb.key (some current)
            gScore := dictSet side.gScore nb.key
              ((side.gScore current.key).getD 0 + g.getMovementCost current nb)
            closed := side.closed } := by
        injection h with hh
        exact hh.symm
      subst hside2
      refine ⟨?_, ?_, hinv.closed_src, ?_⟩
      · intro e he
        rcases mem_biInsert hbi e he with he2 | he2
        · rw [he2]
          exact Or.inr ⟨current, hnb⟩
        · exact hinv.pq_src e he2
      · intro p c hc
        simp only [dictSet] at hc
        split_ifs at hc with hk
        · have hcc : c = current := by
            have h1 : some current = some c := by injection hc
            have h2 : current = c := by injection h1
            exact h2.symm
          subst hcc
          exact hcur
        · exact hinv.came_src p c hc
      · intro p hp
        simp only [dictSet] at hp
        split_ifs at hp with hk
        · exact Or.inr ⟨nb, current, by rw [hk], hnb⟩
        · exact hinv.came_key p hp
  · have hss : side = side2 := by injection h
    rw [← hss]
    exact hinv

theorem bindOk_split {ε α β : Type} {x : Except ε α} {f : α → Except ε β}
    {b : β} (h : x >>= f = .ok b) : ∃ a, x = .ok a ∧ f a = .ok b := by
  rcases x with e | a
  · exact Except.noConfusion h
  · exact ⟨a, rfl, h⟩

theorem biRelax_fold_inv {g : NavigationGrid} {root target current : Cell}
    (hcur : current = root ∨ ∃ d, current ∈ g.getNeighbors d true) :
    ∀ (l : List Cell) (side side2 : BiSide),
      (∀ nb ∈ l, nb ∈ g.getNeighbors current true) →
      l.foldlM (biRelaxStep g target current) side = .ok side2 →
      BiSideInv g root side → BiSideInv g root side2 := by
  intro l
  induction l with
  | nil =>
      intro side side2 _ h hinv
      have hss : side = side2 := by
        simp only [List.foldlM] at h
        injection h
      rw [← hss]
      exact hinv
  | cons nb rest ih =>
      intro side side2 hmem h hinv
      rw [List.foldlM_cons] at h
      obtain ⟨mid, hst, h2⟩ := bindOk_split h
      exact ih mid side2 (fun x hx => hmem x (List.mem_cons_of_mem _ hx)) h2
        (biRelaxStep_inv hcur (hmem nb (List.mem_cons_self _ _)) hst hinv)

theorem biRelax_inv {g : NavigationGrid} {root target current : Cell}
    {side side2 : BiSide}
    (hcur : current = root ∨ ∃ d, current ∈ g.getNeighbors d true)
    (h : biRelax g target current side = .ok side2)
    (hinv : BiSideInv g root side) : BiSideInv g root side2 :=
  biRelax_fold_inv hcur _ side side2 (fun _ hx => hx) h hinv

theorem biSideInv_pop {g : NavigationGrid} {root : Cell} {side : BiSide}
    {e : BiEntry} {rest : List BiEntry} (hfr : side.frontier = e :: rest)
    (hinv : BiSideInv g root side) :
    BiSideInv g root { side with frontier := rest } := by
  refine ⟨?_, hinv.came_src, hinv.closed_src, hinv.came_key⟩
  intro f hf
  exact hinv.pq_src f (by rw [hfr]; exact List.mem_cons_of_mem _ hf)

theorem biSideInv_close {g : NavigationGrid} {root current : Cell}
    {side : BiSide}
    (hcur : current = root ∨ ∃ d, current ∈ g.getNeighbors d true)
    (hinv : BiSideInv g root side) :
    BiSideInv g root { side with
      closed := fun p => if p = current.key then true else side.closed p } := by
  refine ⟨hinv.pq_src, hinv.came_src, ?_, hinv.came_key⟩
  intro p hp
  dsimp only at hp
  split_ifs at hp with hk
  · rcases hcur with hc | ⟨d, hc⟩
    · exact Or.inl (by rw [hk, hc])
    · exact Or.inr ⟨current, d, hk.symm, hc⟩
  · exact hinv.closed_src p hp

theorem biForwardPhase_inv {g : NavigationGrid} {start goal : Cell}
    {s : BiState} {out : BiStep} (h : biForwardPhase g goal s = .ok out)
    (hinv : BiInv g start goal s) :
    ∀ s1, (out = .broke s1 ∨ out = .cont s1) → BiInv g start goal s1 := by
  intro s1 hout
  unfold biForwardPhase at h
  rcases hfr : s.fwd.frontier with _ | ⟨⟨prio, current⟩, rest⟩ <;> rw [hfr] at h
  · injection h with hh
    subst hh
    rcases hout with hout | hout
    · exact BiStep.noConfusion hout
    · injection hout with hh2
      rw [← hh2]
      exact hinv
  · have hcur : current = start ∨ ∃ d, current ∈ g.getNeighbors d true :=
      hinv.fwd.pq_src (prio, current) (by rw [hfr]; exact List.mem_cons_self _ _)
    have hpop : BiInv g start goal
        { s with fwd := { s.fwd with frontier := rest } } :=
      ⟨biSideInv_pop hfr hinv.fwd, hinv.bwd, hinv.meet⟩
    dsimp only at h
    split_ifs at h with hmet himp hclosed
    · injection h with hh
      subst hh
      rcases hout with hout | hout
      · injection hout with hh2
        rw [← hh2]
        refine ⟨hpop.fwd, hpop.bwd, ?_⟩
        intro m hm
        have hmc : m = current := by
          injection hm with h1
          exact h1.symm
        subst hmc
        rcases hcur with hc | hc
        · exact Or.inl hc
        · exact Or.inr (Or.inr hc)
      · exact BiStep.noConfusion hout
    · injection h with hh
      subst hh
      rcases hout with hout | hout
      · injection hout with hh2
        rw [← hh2]
        exact hpop
      · exact BiStep.noConfusion hout
    · injection h with hh
      subst hh
      rcases hout with hout | hout
      · exact BiStep.noConfusion hout
      · injection hout with hh2
        rw [← hh2]
        exact hpop
    · obtain ⟨sd, hrel, hpure⟩ := bindOk_split h
      injection hpure with hh
      subst hh
      rcases hout with hout | hout
      · exact BiStep.noConfusion hout
      · injection hout with hh2
        rw [← hh2]
        refine ⟨?_, hpop.bwd, hpop.meet⟩
        exact biRelax_inv hcur hrel (biSideInv_close hcur hpop.fwd)

theorem biBackwardPhase_inv {g : NavigationGrid} {start goal : Cell}
    {s : BiState} {out : BiStep} (h : biBackwardPhase g start s = .ok out)
    (hinv : BiInv g start goal s) :
    ∀ s1, (out = .broke s1 ∨ out = .cont s1) → BiInv g start goal s1 := by
  intro s1 hout
  unfold biBackwardPhase at h
  rcases hfr : s.bwd.frontier with _ | ⟨⟨prio, current⟩, rest⟩ <;> rw [hfr] at h
  · injection h with hh
    subst hh
    rcases hout with hout | hout
    · exact BiStep.noConfusion hout
    · injection hout with hh2
      rw [← hh2]
      exact hinv
  · have hcur : current = goal ∨ ∃ d, current ∈ g.getNeighbors d true :=
      hinv.bwd.pq_src (prio, current) (by rw [hfr]; exact List.mem_cons_self _ _)
    have hpop : BiInv g start goal
        { s with bwd := { s.bwd with frontier := rest } } :=
      ⟨hinv.fwd, biSideInv_pop hfr hinv.bwd, hinv.meet⟩
    dsimp only at h
    split_ifs at h with hmet himp hclosed
    · injection h with hh
      subst hh
      rcases hout with hout | hout
      · injection hout with hh2
        rw [← hh2]
        refine ⟨hpop.fwd, hpop.bwd, ?_⟩
        intro m hm
        have hmc : m = current := by
          injection hm with h1
          exact h1.symm
        subst hmc
        rcases hcur with hc | hc
        · exact Or.inr (Or.inl hc)
        · exact Or.inr (Or.inr hc)
      · exact BiStep.noConfusion hout
    · injection h with hh
      subst hh
      rcases hout with hout | hout
      · injection hout with hh2
        rw [← hh2]
        exact hpop
      · exact BiStep.noConfusion hout
    · injection h with hh
      subst hh
      rcases hout with hout | hout
      · exact BiStep.noConfusion hout
      · injection hout with hh2
        rw [← hh2]
        exact hpop
    · obtain ⟨sd, hrel, hpure⟩ := bindOk_split h
      injection hpure with hh
      subst hh
      rcases hout with hout | hout
      · exact BiStep.noConfusion hout
      · injection hout with hh2
        rw [← hh2]
        refine ⟨hpop.fwd, ?_, hpop.meet⟩
        exact biRelax_inv hcur hrel (biSideInv_close hcur hpop.bwd)

theorem biLoop_inv {g : NavigationGrid} {start goal : Cell} :
    ∀ {fuel : ℕ} {s s2 : BiState}, biLoop g start goal fuel s = .ok s2 →
      BiInv g start goal s → BiInv g start goal s2 := by
  intro fuel
  induction fuel with
  | zero =>
      intro s s2 h hinv
      have hss : s = s2 := by
        simp only [biLoop] at h
        injection h
      rw [← hss]
      exact hinv
  | succ n ih =>
      intro s s2 h hinv
      unfold biLoop at h
      split_ifs at h with hemp
      · have hss : s = s2 := by injection h
        rw [← hss]
        exact hinv
      · obtain ⟨x, hfwd, h2⟩ := bindOk_split h
        rcases x with s1 | s1
        · have hs2 : s2 = s1 := by injection h2 with hh; exact hh.symm
          rw [hs2]
          exact biForwardPhase_inv hfwd hinv s1 (Or.inl rfl)
        · have hinv1 := biForwardPhase_inv hfwd hinv s1 (Or.inr rfl)
          obtain ⟨y, hbwd, h3⟩ := bindOk_split h2
          rcases y with s9 | s9
          · have hs2 : s2 = s9 := by injection h3 with hh; exact hh.symm
            rw [hs2]
            exact biBackwardPhase_inv hbwd hinv1 s9 (Or.inl rfl)
          · exact ih h3 (biBackwardPhase_inv hbwd hinv1 s9 (Or.inr rfl))

theorem biInit_inv (g : NavigationGrid) (start goal : Cell) :
    BiInv g start goal (biInit start goal) := by
  refine BiInv.mk (BiSideInv.mk ?_ ?_ ?_ ?_) (BiSideInv.mk ?_ ?_ ?_ ?_) ?_
  · intro e he
    simp only [biInit, List.mem_singleton] at he
    subst he
    exact Or.inl rfl
  · intro p c hc
    simp only [biInit] at hc
    split_ifs at hc with hk
    all_goals exact absurd hc (by simp)
  · intro p hp
    simp only [biInit] at hp
    exact absurd hp (by simp)
  · intro p hp
    simp only [biInit] at hp
    split_ifs at hp with hk
    · exact Or.inl hk
    · exact absurd hp (by simp)
  · intro e he
    simp only [biInit, List.mem_singleton] at he
    subst he
    exact Or.inl rfl
  · intro p c hc
    simp only [biInit] at hc
    split_ifs at hc with hk
    all_goals exact absurd hc (by simp)
  · intro p hp
    simp only [biInit] at hp
    exact absurd hp (by simp)
  · intro p hp
    simp only [biInit] at hp
    split_ifs at hp with hk
    · exact Or.inl hk
    · exact absurd hp (by simp)
  · intro m hm
    simp only [biInit] at hm
    exact absurd hm (by simp)

theorem chase_getD_mem {came : ℤ × ℤ → Option (Option Cell)} {fuel : ℕ}
    {c x : Cell} (hx : x ∈ (chaseParents came fuel c).getD []) :
    x = c ∨ ∃ p, came p = some (some x) := by
  rcases hch : chaseParents came fuel c with _ | l <;> rw [hch] at hx
  · exact absurd hx (by simp)
  · exact chaseParents_mem hch x hx

/-- C1: no returned path of any of the five point-to-point variants contains
a non-traversable cell; for the bidirectional search this holds whenever the
search returns a result at all. -/
theorem claim_C1_obstacle_avoidance (r : ShipRouter) (start goal : Cell)
    (hs : start.isLand = false) (hg : goal.isLand = false) :
    (∀ c ∈ (r.dijkstra start goal).path, c.isLand = false) ∧
    (∀ c ∈ (r.aStar start goal).path, c.isLand = false) ∧
    (∀ c ∈ (r.weatherAwareAStar start goal).path, c.isLand = false) ∧
    (∀ c ∈ (r.fuelOptimized start goal).path, c.isLand = false) ∧
    (∀ res, bidirectionalSearch r.grid r.weather start goal = .ok (some res) →
      ∀ c ∈ res.path, c.isLand = false) := by
  refine ⟨?_, ?_, ?_, ?_, ?_⟩
  · unfold ShipRouter.dijkstra
    exact runVariant_no_land r _ _ start goal _ hs hg
  · unfold ShipRouter.aStar
    exact runVariant_no_land r _ _ start goal _ hs hg
  · unfold ShipRouter.weatherAwareAStar ShipRouter.aStar
    cases r.weather with
    | none => exact runVariant_no_land r _ _ start goal _ hs hg
    | some w => exact runVariant_no_land r _ _ start goal _ hs hg
  · unfold ShipRouter.fuelOptimized ShipRouter.aStar
    cases r.weather with
    | none => exact runVariant_no_land r _ _ start goal _ hs hg
    | some w => exact runVariant_no_land r _ _ start goal _ hs hg
  · intro res hres c hc
    unfold bidirectionalSearch at hres
    obtain ⟨s, hloop, h2⟩ := bindOk_split hres
    have hinv := biLoop_inv hloop (biInit_inv r.grid start goal)
    rcases hm : s.meeting with _ | meeting <;> rw [hm] at h2
    · injection h2 with hh
      exact Option.noConfusion hh
    · dsimp only at h2
      injection h2 with hh
      injection hh with hh2
      rw [← hh2] at hc
      dsimp only at hc
      have hmeet : meeting.isLand = false := by
        rcases hinv.meet meeting hm with hm2 | hm2 | ⟨d, hm2⟩
        · rw [hm2]; exact hs
        · rw [hm2]; exact hg
        · exact getNeighbors_not_land hm2
      rcases List.mem_append.mp hc with hc2 | hc2
      · rcases chase_getD_mem (List.mem_reverse.mp hc2) with hc3 | ⟨p, hp⟩
        · rw [hc3]; exact hmeet
        · rcases hinv.fwd.came_src p c hp with hc3 | ⟨d, hc3⟩
          · rw [hc3]; exact hs
          · exact getNeighbors_not_land hc3
      · rcases hbm : s.bwd.came meeting.key with _ | v <;> rw [hbm] at hc2
        · exact absurd hc2 (by simp)
        · rcases v with _ | nxt
          · exact absurd hc2 (by simp)
          · rcases chase_getD_mem hc2 with hc3 | ⟨p, hp⟩
            · rcases hinv.bwd.came_src meeting.key nxt hbm with hn | ⟨d, hn⟩
              · rw [hc3, hn]; exact hg
              · rw [hc3]; exact getNeighbors_not_land hn
            · rcases hinv.bwd.came_src p c hp with hc4 | ⟨d, hc4⟩
              · rw [hc4]; exact hg
              · exact getNeighbors_not_land hc4

/-- Witness for C1 on the all-water grid with and without weather. -/
theorem claim_C1_witness :
    cellA.isLand = false ∧ cellG34.isLand = false ∧
      ∀ c ∈ (router10.dijkstra cellA cellG34).path, c.isLand = false :=
  ⟨rfl, rfl, (claim_C1_obstacle_avoidance router10 cellA cellG34 rfl rfl).1⟩

/-! ## Empty-path and start-equals-goal behavior -/

theorem except_ok_bind {ε α β : Type} (a : α) (f : α → Except ε β) :
    (Except.ok a : Except ε α) >>= f = f a := rfl

theorem except_error_bind {ε α β : Type} (e : ε) (f : α → Except ε β) :
    (Except.error e : Except ε α) >>= f = Except.error e := rfl

theorem except_pure {ε α : Type} (a : α) :
    (pure a : Except ε α) = Except.ok a := rfl

theorem chase_missing {came : ℤ × ℤ → Option (Option Cell)} {c : Cell}
    (h : came c.key = none) (fuel : ℕ) : chaseParents came fuel c = none := by
  cases fuel with
  | zero => rfl
  | succ n =>
      unfold chaseParents
      rw [h]

theorem reconstructPath_missing {came : ℤ × ℤ → Option (Option Cell)}
    {goal : Cell} (h : came goal.key = none) (fuel : ℕ) :
    reconstructPath came fuel goal = [] := by
  unfold reconstructPath
  rw [chase_missing h]

theorem createResult_empty (r : ShipRouter) (n : ℕ) (a : String) :
    r.createResult [] n a =
      { path := [], distanceKm := 0, cost := 0, fuelTons := 0, timeHours := 0
        nodesExplored := n, computationTimeMs := 0, algorithm := a } := by
  unfold ShipRouter.createResult
  rw [if_pos rfl]

theorem createResult_single (r : ShipRouter) (c : Cell) (n : ℕ) (a : String) :
    (r.createResult [c] n a).path = [c] ∧
    (r.createResult [c] n a).distanceKm = 0 ∧
    (r.createResult [c] n a).cost = 0 ∧
    (r.createResult [c] n a).fuelTons = 0 ∧
    (r.createResult [c] n a).timeHours = 0 := by
  unfold ShipRouter.createResult
  rw [if_neg (by simp)]
  have hlen : NavigationGrid.getPathLength r.grid [c] = 0 := by
    unfold NavigationGrid.getPathLength
    rw [if_pos (by simp)]
  have hcost : NavigationGrid.getPathCost r.grid [c] = 0 := by
    unfold NavigationGrid.getPathCost
    rw [if_pos (by simp)]
  refine ⟨rfl, hlen, hcost, ?_, ?_⟩
  · cases hw : r.weather with
    | none =>
        rw [hlen]
        norm_num
    | some w => simp
  · rw [hlen]
    norm_num

theorem searchLoop_selfloop (g : NavigationGrid) (cost : Cell → Cell → ℝ)
    (heur : Cell → ℝ) (c : Cell) (n : ℕ) :
    searchLoop g cost heur c (n + 1) (initState c) =
      { initState c with pq := [], nodesExplored := 1 } := by
  unfold searchLoop searchStep
  dsimp only [initState]
  rw [if_pos ⟨rfl, rfl⟩]

theorem chase_rootnone {came : ℤ × ℤ → Option (Option Cell)} {c : Cell}
    (h : came c.key = some none) (n : ℕ) :
    chaseParents came (n + 1) c = some [c] := by
  unfold chaseParents
  rw [h]

theorem reconstructPath_rootnone {came : ℤ × ℤ → Option (Option Cell)}
    {goal : Cell} (h : came goal.key = some none) (n : ℕ) :
    reconstructPath came (n + 1) goal = [goal] := by
  unfold reconstructPath
  rw [chase_rootnone h]
  rfl

theorem runVariant_selfloop (r : ShipRouter) (cost : Cell → Cell → ℝ)
    (heur : Cell → ℝ) (c : Cell) (alg : String) :
    (runVariant r cost heur c c alg).path = [c] ∧
    (runVariant r cost heur c c alg).distanceKm = 0 ∧
    (runVariant r cost heur c c alg).cost = 0 ∧
    (runVariant r cost heur c c alg).fuelTons = 0 ∧
    (runVariant r cost heur c c alg).timeHours = 0 := by
  unfold runVariant
  rw [show searchFuel r.grid =
    (8 * r.grid.width.toNat * r.grid.height.toNat + 1) + 1 from rfl]
  rw [searchLoop_selfloop]
  dsimp only
  have hcame : (initState c).cameFrom c.key = some none := by
    unfold initState
    dsimp only
    rw [if_pos rfl]
  have hpath : reconstructPath (initState c).cameFrom
      ((initState c).counter + 2) c = [c] := by
    show reconstructPath (initState c).cameFrom (1 + 1) c = [c]
    exact reconstructPath_rootnone hcame 1
  rw [hpath]
  exact createResult_single r c 1 alg

theorem searchLoop_isolated (g : NavigationGrid) (cost : Cell → Cell → ℝ)
    (heur : Cell → ℝ) (start goal : Cell)
    (hnb : g.getNeighbors start true = [])
    (hgoal : ¬(start.x = goal.x ∧ start.y = goal.y)) (n : ℕ) :
    searchLoop g cost heur goal (n + 2) (initState start) =
      { initState start with pq := [], nodesExplored := 1 } := by
  unfold searchLoop searchStep
  dsimp only [initState]
  rw [if_neg hgoal]
  unfold relaxNeighbors
  rw [hnb]
  rw [List.foldl_nil]
  unfold searchLoop searchStep
  rfl

theorem runVariant_isolated (r : ShipRouter) (cost : Cell → Cell → ℝ)
    (heur : Cell → ℝ) (start goal : Cell) (alg : String)
    (hnb : r.grid.getNeighbors start true = [])
    (hkey : goal.key ≠ start.key) :
    (runVariant r cost heur start goal alg).path = [] ∧
    (runVariant r cost heur start goal alg).distanceKm = 0 ∧
    (runVariant r cost heur start goal alg).cost = 0 ∧
    (runVariant r cost heur start goal alg).fuelTons = 0 ∧
    (runVariant r cost heur start goal alg).timeHours = 0 := by
  have hgoal : ¬(start.x = goal.x ∧ start.y = goal.y) := by
    intro hxy
    exact hkey (by unfold Cell.key; rw [hxy.1, hxy.2])
  unfold runVariant
  rw [show searchFuel r.grid =
    (8 * r.grid.width.toNat * r.grid.height.toNat) + 2 from rfl]
  rw [searchLoop_isolated r.grid cost heur start goal hnb hgoal]
  dsimp only
  rw [reconstructPath_missing (by
    show (initState start).cameFrom goal.key = none
    unfold initState
    dsimp only
    rw [if_neg hkey])]
  rw [createResult_empty]
  exact ⟨rfl, rfl, rfl, rfl, rfl⟩

/-- C8: with start = goal = c every single-objective variant returns the
single-cell path [c] with zero distance, cost, fuel and time, on every
router and cell.  The bidirectional search instead raises: expanding the
start pushes its orthogonal neighbors with equal f_scores 20.0, and the
CPython heapq tuple comparison falls through to the unordered Cell operands
(TypeError) -- shown here on the all-water 10 x 10 grid at (5, 5), where the
claimed single-cell result is never produced. -/
theorem claim_C8_start_equals_goal :
    (∀ (r : ShipRouter) (c : Cell),
      ((r.dijkstra c c).path = [c] ∧ (r.dijkstra c c).distanceKm = 0 ∧
        (r.dijkstra c c).cost = 0 ∧ (r.dijkstra c c).fuelTons = 0 ∧
        (r.dijkstra c c).timeHours = 0) ∧
      ((r.aStar c c).path = [c] ∧ (r.aStar c c).distanceKm = 0 ∧
        (r.aStar c c).cost = 0 ∧ (r.aStar c c).fuelTons = 0 ∧
        (r.aStar c c).timeHours = 0) ∧
      ((r.weatherAwareAStar c c).path = [c] ∧
        (r.weatherAwareAStar c c).distanceKm = 0 ∧
        (r.weatherAwareAStar c c).cost = 0 ∧
        (r.weatherAwareAStar c c).fuelTons = 0 ∧
        (r.weatherAwareAStar c c).timeHours = 0) ∧
      ((r.fuelOptimized c c).path = [c] ∧
        (r.fuelOptimized c c).distanceKm = 0 ∧
        (r.fuelOptimized c c).cost = 0 ∧
        (r.fuelOptimized c c).fuelTons = 0 ∧
        (r.fuelOptimized c c).timeHours = 0)) ∧
    bidirectionalSearch grid10 none cellC55 cellC55 = .error () := by
  constructor
  · intro r c
    refine ⟨?_, ?_, ?_, ?_⟩
    · unfold ShipRouter.dijkstra
      exact runVariant_selfloop r _ _ c _
    · unfold ShipRouter.aStar
      exact runVariant_selfloop r _ _ c _
    · unfold ShipRouter.weatherAwareAStar ShipRouter.aStar
      cases r.weather with
      | none => exact runVariant_selfloop r _ _ c _
      | some w => exact runVariant_selfloop r _ _ c _
    · unfold ShipRouter.fuelOptimized ShipRouter.aStar
      cases r.weather with
      | none => exact runVariant_selfloop r _ _ c _
      | some w => exact runVariant_selfloop r _ _ c _
  · unfold bidirectionalSearch
    rw [show searchFuel grid10 = 801 + 1 from rfl]
    unfold biLoop biForwardPhase
    norm_num [biInit, biRelax, biRelaxStep, List.foldlM_cons, biInsert,
      NavigationGrid.getMovementCost, NavigationGrid.getDistance,
      Cell.totalCost, dictSet, Cell.key, grid10, NavigationGrid.make, cellC55,
      Real.sqrt_one, Prod.mk.injEq, -Prod.mk_zero_zero,
      NavigationGrid.getNeighbors, directions, NavigationGrid.getCell,
      List.filterMap_cons, List.filterMap_nil, Option.getD,
      except_ok_bind, except_error_bind, except_pure]

/-- C3: on a grid where the start cell (0,0) is cut off from the traversable
goal (2,0), the four single-objective variants return an empty path with
zero metrics and raise nothing.  The bidirectional search, claimed to return
None when no meeting point exists, instead raises on the disconnected grid33
scenario: the first forward expansion pushes (0,1) and (1,0) with the equal
f_score 10 + 10 * sqrt 5, and the heap tuple comparison reaches the
unordered Cell operands (TypeError). -/
theorem claim_C3_no_path :
    ((router31.dijkstra cellA cellG20).path = [] ∧
      (router31.dijkstra cellA cellG20).distanceKm = 0 ∧
      (router31.dijkstra cellA cellG20).cost = 0 ∧
      (router31.dijkstra cellA cellG20).fuelTons = 0 ∧
      (router31.dijkstra cellA cellG20).timeHours = 0) ∧
    ((router31.aStar cellA cellG20).path = [] ∧
      (router31.aStar cellA cellG20).distanceKm = 0 ∧
      (router31.aStar cellA cellG20).cost = 0 ∧
      (router31.aStar cellA cellG20).fuelTons = 0 ∧
      (router31.aStar cellA cellG20).timeHours = 0) ∧
    ((router31W.weatherAwareAStar cellA cellG20).path = [] ∧
      (router31W.weatherAwareAStar cellA cellG20).distanceKm = 0 ∧
      (router31W.weatherAwareAStar cellA cellG20).cost = 0 ∧
      (router31W.weatherAwareAStar cellA cellG20).fuelTons = 0 ∧
      (router31W.weatherAwareAStar cellA cellG20).timeHours = 0) ∧
    ((router31W.fuelOptimized cellA cellG20).path = [] ∧
      (router31W.fuelOptimized cellA cellG20).distanceKm = 0 ∧
      (router31W.fuelOptimized cellA cellG20).cost = 0 ∧
      (router31W.fuelOptimized cellA cellG20).fuelTons = 0 ∧
      (router31W.fuelOptimized cellA cellG20).timeHours = 0) ∧
    bidirectionalSearch grid33 none cellA cellG22 = .error () := by
  have hnb : router31.grid.getNeighbors cellA true = [] := rfl
  have hkey : cellG20.key ≠ cellA.key := by
    unfold Cell.key cellG20 cellA
    simp
  refine ⟨?_, ?_, ?_, ?_, ?_⟩
  · unfold ShipRouter.dijkstra
    exact runVariant_isolated router31 _ _ cellA cellG20 _ hnb hkey
  · unfold ShipRouter.aStar
    exact runVariant_isolated router31 _ _ cellA cellG20 _ hnb hkey
  · unfold ShipRouter.weatherAwareAStar
    exact runVariant_isolated router31W _ _ cellA cellG20 _ hnb hkey
  · unfold ShipRouter.fuelOptimized
    exact runVariant_isolated router31W _ _ cellA cellG20 _ hnb hkey
  · unfold bidirectionalSearch
    rw [show searchFuel grid33 = 73 + 1 from rfl]
    unfold biLoop biForwardPhase
    norm_num [biInit, biRelax, biRelaxStep, List.foldlM_cons, biInsert,
      NavigationGrid.getMovementCost, NavigationGrid.getDistance,
      Cell.totalCost, dictSet, Cell.key, grid33, NavigationGrid.make,
      NavigationGrid.setLand, cellA, cellG22, Real.sqrt_one, Prod.mk.injEq,
      -Prod.mk_zero_zero, NavigationGrid.getNeighbors, directions,
      NavigationGrid.getCell, List.filterMap_cons, List.filterMap_nil,
      Option.getD, except_ok_bind, except_error_bind, except_pure]

/-- Witness for C10: on the all-water 10 x 10 grid, stamping the rectangle
(1,1)-(2,2) marks (1,1) as land and leaves (0,0) untouched. -/
theorem claim_C10_witness :
    (¬((max 0 1 : ℤ) ≤ 0 ∧ (0 : ℤ) < min grid10.width 3 ∧
        (max 0 1 : ℤ) ≤ 0 ∧ (0 : ℤ) < min grid10.height 3)) ∧
    (grid10.setLandRegion 1 1 2 2).cells 0 0 = grid10.cells 0 0 ∧
    (grid10.setLandRegion 1 1 2 2).cells 1 1 =
      { grid10.cells 1 1 with isLand := true } :=
  ⟨by decide,
    ((claim_C10_terrain_frame grid10).2.1 1 1 2 2).2.2.2.1 0 0 (by decide),
    ((claim_C10_terrain_frame grid10).2.1 1 1 2 2).2.2.2.2 1 1
      (by decide) (by decide) (by decide) (by decide)⟩


/-! ## Octile lower bound on reconstructed paths (claim C4) -/

theorem sqrt_two_bounds : 1 ≤ Real.sqrt 2 ∧ Real.sqrt 2 ≤ 2 := by
  have hsq := Real.sq_sqrt (by norm_num : (0 : ℝ) ≤ 2)
  have hnn := Real.sqrt_nonneg 2
  constructor
  · nlinarith
  · nlinarith

theorem octAux_mono (A B A' B' : ℤ) (h1 : A' ≤ A) (h2 : B' ≤ B) :
    ((max A' B' : ℤ) : ℝ) + (Real.sqrt 2 - 1) * ((min A' B' : ℤ) : ℝ) ≤
      ((max A B : ℤ) : ℝ) + (Real.sqrt 2 - 1) * ((min A B : ℤ) : ℝ) := by
  have h2' : (0 : ℝ) ≤ Real.sqrt 2 - 1 := by
    have := sqrt_two_bounds.1
    linarith
  have hmax : ((max A' B' : ℤ) : ℝ) ≤ ((max A B : ℤ) : ℝ) := by
    exact_mod_cast max_le_max h1 h2
  have hmin : ((min A' B' : ℤ) : ℝ) ≤ ((min A B : ℤ) : ℝ) := by
    exact_mod_cast min_le_min h1 h2
  have := mul_le_mul_of_nonneg_left hmin h2'
  linarith

theorem octAux_orth (A B B' : ℤ) (h : B' ≤ B + 1) :
    ((max A B' : ℤ) : ℝ) + (Real.sqrt 2 - 1) * ((min A B' : ℤ) : ℝ) ≤
      ((max A B : ℤ) : ℝ) + (Real.sqrt 2 - 1) * ((min A B : ℤ) : ℝ) + 1 := by
  rcases le_or_lt B' B with hb | hb
  · have := octAux_mono A B A B' le_rfl hb
    linarith
  · have hB1 : B' = B + 1 := by omega
    subst hB1
    rcases le_or_lt A B with hab | hab
    · rw [max_eq_right (by omega : A ≤ B + 1), max_eq_right hab,
        min_eq_left (by omega : A ≤ B + 1), min_eq_left hab]
      push_cast
      linarith
    · rw [max_eq_left (by omega : B + 1 ≤ A), max_eq_left (by omega : B ≤ A),
        min_eq_right (by omega : B + 1 ≤ A), min_eq_right (by omega : B ≤ A)]
      push_cast
      have hs2 := sqrt_two_bounds.2
      have hexp : (Real.sqrt 2 - 1) * ((B : ℝ) + 1) =
          (Real.sqrt 2 - 1) * (B : ℝ) + (Real.sqrt 2 - 1) := by ring
      linarith

theorem octAux_orthL (A B A' : ℤ) (h : A' ≤ A + 1) :
    ((max A' B : ℤ) : ℝ) + (Real.sqrt 2 - 1) * ((min A' B : ℤ) : ℝ) ≤
      ((max A B : ℤ) : ℝ) + (Real.sqrt 2 - 1) * ((min A B : ℤ) : ℝ) + 1 := by
  rw [max_comm A' B, min_comm A' B, max_comm A B, min_comm A B]
  exact octAux_orth B A A' h

theorem octAux_diag (A B A' B' : ℤ) (h1 : A' ≤ A + 1) (h2 : B' ≤ B + 1) :
    ((max A' B' : ℤ) : ℝ) + (Real.sqrt 2 - 1) * ((min A' B' : ℤ) : ℝ) ≤
      ((max A B : ℤ) : ℝ) + (Real.sqrt 2 - 1) * ((min A B : ℤ) : ℝ) +
        Real.sqrt 2 := by
  have hmono := octAux_mono (A + 1) (B + 1) A' B' h1 h2
  rw [max_add_add_right, min_add_add_right] at hmono
  rw [Int.cast_add, Int.cast_add, Int.cast_one] at hmono
  have hexp : ((max A B : ℤ) : ℝ) + 1 +
      (Real.sqrt 2 - 1) * (((min A B : ℤ) : ℝ) + 1) =
      ((max A B : ℤ) : ℝ) + (Real.sqrt 2 - 1) * ((min A B : ℤ) : ℝ) +
        Real.sqrt 2 := by ring
  linarith

theorem octilePot_step (t q : ℤ × ℤ) (dx dy : ℤ)
    (hd : (dx, dy) ∈ directions true) :
    octilePot t (q.1 + dx, q.2 + dy) ≤
      octilePot t q + Real.sqrt (((|dx| ^ 2 + |dy| ^ 2 : ℤ) : ℝ)) := by
  have habsx : |q.1 + dx - t.1| ≤ |q.1 - t.1| + |dx| := by
    calc |q.1 + dx - t.1| = |(q.1 - t.1) + dx| := by ring_nf
      _ ≤ |q.1 - t.1| + |dx| := abs_add _ _
  have habsy : |q.2 + dy - t.2| ≤ |q.2 - t.2| + |dy| := by
    calc |q.2 + dy - t.2| = |(q.2 - t.2) + dy| := by ring_nf
      _ ≤ |q.2 - t.2| + |dy| := abs_add _ _
  unfold octilePot
  dsimp only
  have hd8 : (dx = 0 ∧ dy = 1) ∨ (dx = 1 ∧ dy = 0) ∨ (dx = 0 ∧ dy = -1) ∨
      (dx = -1 ∧ dy = 0) ∨ (dx = 1 ∧ dy = 1) ∨ (dx = 1 ∧ dy = -1) ∨
      (dx = -1 ∧ dy = 1) ∨ (dx = -1 ∧ dy = -1) := by
    simp only [directions, List.mem_append, List.mem_cons, List.not_mem_nil,
      or_false, if_true, Prod.mk.injEq] at hd
    tauto
  clear hd
  rcases hd8 with hc | hc | hc | hc | hc | hc | hc | hc <;>
    rcases hc with ⟨hcx, hcy⟩ <;> subst hcx <;> subst hcy
  · rw [show ((|(0 : ℤ)| ^ 2 + |(1 : ℤ)| ^ 2 : ℤ) : ℝ) = 1 by norm_num,
      Real.sqrt_one, show q.1 + 0 - t.1 = q.1 - t.1 by ring]
    exact octAux_orth _ _ _ (by simpa using habsy)
  · rw [show ((|(1 : ℤ)| ^ 2 + |(0 : ℤ)| ^ 2 : ℤ) : ℝ) = 1 by norm_num,
      Real.sqrt_one, show q.2 + 0 - t.2 = q.2 - t.2 by ring]
    exact octAux_orthL _ _ _ (by simpa using habsx)
  · rw [show ((|(0 : ℤ)| ^ 2 + |(-1 : ℤ)| ^ 2 : ℤ) : ℝ) = 1 by norm_num,
      Real.sqrt_one, show q.1 + 0 - t.1 = q.1 - t.1 by ring]
    exact octAux_orth _ _ _ (by simpa using habsy)
  · rw [show ((|(-1 : ℤ)| ^ 2 + |(0 : ℤ)| ^ 2 : ℤ) : ℝ) = 1 by norm_num,
      Real.sqrt_one, show q.2 + 0 - t.2 = q.2 - t.2 by ring]
    exact octAux_orthL _ _ _ (by simpa using habsx)
  · rw [show ((|(1 : ℤ)| ^ 2 + |(1 : ℤ)| ^ 2 : ℤ) : ℝ) = 2 by norm_num]
    exact octAux_diag _ _ _ _ (by simpa using habsx) (by simpa using habsy)
  · rw [show ((|(1 : ℤ)| ^ 2 + |(-1 : ℤ)| ^ 2 : ℤ) : ℝ) = 2 by norm_num]
    exact octAux_diag _ _ _ _ (by simpa using habsx) (by simpa using habsy)
  · rw [show ((|(-1 : ℤ)| ^ 2 + |(1 : ℤ)| ^ 2 : ℤ) : ℝ) = 2 by norm_num]
    exact octAux_diag _ _ _ _ (by simpa using habsx) (by simpa using habsy)
  · rw [show ((|(-1 : ℤ)| ^ 2 + |(-1 : ℤ)| ^ 2 : ℤ) : ℝ) = 2 by norm_num]
    exact octAux_diag _ _ _ _ (by simpa using habsx) (by simpa using habsy)

theorem octilePot_self (t : ℤ × ℤ) : octilePot t t = 0 := by
  unfold octilePot
  simp

theorem getNeighbors_key {g : NavigationGrid} (hg : g.WF) {c nb : Cell}
    {b : Bool} (h : nb ∈ g.getNeighbors c b) :
    ∃ d ∈ directions b, nb.key = (c.x + d.1, c.y + d.2) := by
  rcases mem_getNeighbors.mp h with ⟨d, hd, hgc, _⟩
  refine ⟨d, hd, ?_⟩
  unfold NavigationGrid.getCell at hgc
  split_ifs at hgc with hb
  · have hcell : g.cells (c.x + d.1) (c.y + d.2) = nb := by injection hgc
    have hwf := hg (c.x + d.1) (c.y + d.2)
    rw [hcell] at hwf
    simp [Cell.key, hwf.1, hwf.2]

theorem cameAdj_init (start : Cell) : CameAdj (initState start) := by
  intro p c hc
  simp only [initState] at hc
  split_ifs at hc with h
  exact absurd hc (by simp)

theorem cameAdj_relaxOne {g : NavigationGrid} (hg : g.WF)
    {cost : Cell → Cell → ℝ} {heur : Cell → ℝ} {current : Cell}
    {s : SearchState} {nb : Cell}
    (hs : CameAdj s) (hnb : nb ∈ g.getNeighbors current true) :
    CameAdj (relaxOne cost heur current s nb) := by
  unfold relaxOne
  dsimp only
  split_ifs with h
  · intro p c hc
    simp only [dictSet] at hc
    split_ifs at hc with hk
    · have hcc : c = current := by
        have h1 : some current = some c := by injection hc
        have h2 : current = c := by injection h1
        exact h2.symm
      subst hcc
      rcases getNeighbors_key hg hnb with ⟨d, hd, hkey⟩
      exact ⟨d, hd, by rw [hk]; exact hkey⟩
    · exact hs p c hc
  · exact hs

theorem cameAdj_relaxFold {g : NavigationGrid} (hg : g.WF)
    {cost : Cell → Cell → ℝ} {heur : Cell → ℝ} {current : Cell} :
    ∀ (l : List Cell) (s : SearchState),
      (∀ nb ∈ l, nb ∈ g.getNeighbors current true) → CameAdj s →
      CameAdj (l.foldl (relaxOne cost heur current) s) := by
  intro l
  induction l with
  | nil => intro s _ hs; exact hs
  | cons nb rest ih =>
      intro s hmem hs
      simp only [List.foldl_cons]
      exact ih _ (fun x hx => hmem x (List.mem_cons_of_mem _ hx))
        (cameAdj_relaxOne hg hs (hmem nb (List.mem_cons_self _ _)))

theorem cameAdj_loop {g : NavigationGrid} (hg : g.WF) (goal : Cell)
    (cost : Cell → Cell → ℝ) (heur : Cell → ℝ) (fuel : ℕ) (s : SearchState)
    (hs : CameAdj s) : CameAdj (searchLoop g cost heur goal fuel s) := by
  induction fuel generalizing s with
  | zero => exact hs
  | succ n ih =>
      unfold searchLoop searchStep
      rcases hpq : s.pq with _ | ⟨⟨prio, cnt, current⟩, rest⟩
      · exact hs
      · dsimp only
        split_ifs with hgoal
        · intro p c hc
          exact hs p c hc
        · refine ih _ ?_
          unfold relaxNeighbors
          refine cameAdj_relaxFold hg _ _ (fun x hx => hx) ?_
          intro p c hc
          exact hs p c hc

theorem chase_head {came : ℤ × ℤ → Option (Option Cell)} :
    ∀ {fuel : ℕ} {c : Cell} {l : List Cell},
      chaseParents came fuel c = some l → ∃ tl, l = c :: tl := by
  intro fuel c l h
  cases fuel with
  | zero => exact absurd h (by simp [chaseParents])
  | succ n =>
      unfold chaseParents at h
      split at h
      · exact absurd h (by simp)
      · refine ⟨[], ?_⟩
        have h1 : some [c] = some l := h
        have h2 : [c] = l := by injection h1
        exact h2.symm
      · rcases Option.map_eq_some'.mp h with ⟨l', _, hl⟩
        exact ⟨l', hl.symm⟩

theorem chase_pathSum_bound {g : NavigationGrid}
    {came : ℤ × ℤ → Option (Option Cell)} {sk : ℤ × ℤ}
    (hsize : 0 ≤ g.cellSizeKm)
    (hadj : ∀ p c, came p = some (some c) →
      ∃ d ∈ directions true, p = (c.x + d.1, c.y + d.2))
    (hnone : ∀ p, came p = some none → p = sk) :
    ∀ {fuel : ℕ} {c : Cell} {l : List Cell},
      chaseParents came fuel c = some l →
      g.cellSizeKm * octilePot sk c.key ≤ pathSum g l := by
  intro fuel
  induction fuel with
  | zero => intro c l h; exact absurd h (by simp [chaseParents])
  | succ n ih =>
      intro c l h
      unfold chaseParents at h
      split at h
      · exact absurd h (by simp)
      · next hcnone =>
          have h1 : some [c] = some l := h
          have h2 : [c] = l := by injection h1
          subst h2
          have hck : c.key = sk := hnone _ hcnone
          rw [hck, octilePot_self, mul_zero]
          exact le_refl 0
      · next p hcp =>
          rcases Option.map_eq_some'.mp h with ⟨l', hl', hl⟩
          rcases chase_head hl' with ⟨tl, htl⟩
          subst htl
          have hlval : l = c :: p :: tl := hl.symm
          subst hlval
          rcases hadj _ _ hcp with ⟨d, hd, hkey⟩
          have hcx : c.x = p.x + d.1 := by
            have := congrArg Prod.fst hkey
            simpa [Cell.key] using this
          have hcy : c.y = p.y + d.2 := by
            have := congrArg Prod.snd hkey
            simpa [Cell.key] using this
          have hstep := octilePot_step sk p.key d.1 d.2 (by simpa using hd)
          have hkey' : ((p.key.1 + d.1, p.key.2 + d.2) : ℤ × ℤ) = c.key := by
            simp [Cell.key, hcx, hcy]
          rw [hkey'] at hstep
          have hdist : g.getDistance c p =
              Real.sqrt (((|d.1| ^ 2 + |d.2| ^ 2 : ℤ) : ℝ)) * g.cellSizeKm := by
            unfold NavigationGrid.getDistance
            rw [show c.x - p.x = d.1 by omega, show c.y - p.y = d.2 by omega]
          have hih := ih hl'
          have hsq : 0 ≤ Real.sqrt (((|d.1| ^ 2 + |d.2| ^ 2 : ℤ) : ℝ)) :=
            Real.sqrt_nonneg _
          have hmul := mul_le_mul_of_nonneg_left hstep hsize
          show g.cellSizeKm * octilePot sk c.key ≤
            g.getDistance c p + pathSum g (p :: tl)
          rw [hdist]
          nlinarith

theorem foldl_dist_shift (g : NavigationGrid) :
    ∀ (l : List (Cell × Cell)) (c : ℝ),
      l.foldl (fun acc pr => acc + g.getDistance pr.1 pr.2) c =
        c + l.foldl (fun acc pr => acc + g.getDistance pr.1 pr.2) 0 := by
  intro l
  induction l with
  | nil => intro c; simp
  | cons a tl ih =>
      intro c
      simp only [List.foldl_cons]
      rw [ih, ih (0 + g.getDistance a.1 a.2)]
      ring

theorem foldPairs_eq_pathSum (g : NavigationGrid) :
    ∀ p : List Cell,
      (p.zip p.tail).foldl (fun acc pr => acc + g.getDistance pr.1 pr.2) 0 =
        pathSum g p
  | [] => by simp [pathSum]
  | [a] => by simp [pathSum]
  | a :: b :: tl => by
      have ih := foldPairs_eq_pathSum g (b :: tl)
      simp only [List.tail_cons, List.zip_cons_cons, List.foldl_cons]
      simp only [List.tail_cons] at ih
      rw [foldl_dist_shift, zero_add, ih]
      rfl

theorem getPathLength_eq_pathSum (g : NavigationGrid) (p : List Cell) :
    g.getPathLength p = pathSum g p := by
  unfold NavigationGrid.getPathLength
  split_ifs with h
  · match p, h with
    | [], _ => rfl
    | [a], _ => rfl
  · exact foldPairs_eq_pathSum g p

theorem getDistance_symm (g : NavigationGrid) (a b : Cell) :
    g.getDistance a b = g.getDistance b a := by
  unfold NavigationGrid.getDistance
  rw [abs_sub_comm a.x b.x, abs_sub_comm a.y b.y]

theorem pathSum_snoc_two (g : NavigationGrid) :
    ∀ (l : List Cell) (a b : Cell),
      pathSum g (l ++ [a, b]) = pathSum g (l ++ [a]) + g.getDistance a b
  | [], a, b => by simp [pathSum]
  | [c], a, b => by
      show g.getDistance c a + pathSum g [a, b] =
        g.getDistance c a + pathSum g [a] + g.getDistance a b
      simp [pathSum]
  | c :: d :: m, a, b => by
      have ih := pathSum_snoc_two g (d :: m) a b
      show g.getDistance c d + pathSum g ((d :: m) ++ [a, b]) =
        g.getDistance c d + pathSum g ((d :: m) ++ [a]) + g.getDistance a b
      rw [ih]
      ring

theorem pathSum_reverse (g : NavigationGrid) :
    ∀ l : List Cell, pathSum g l.reverse = pathSum g l
  | [] => rfl
  | [a] => rfl
  | a :: b :: m => by
      have ih := pathSum_reverse g (b :: m)
      have h1 : (a :: b :: m).reverse = m.reverse ++ [b, a] := by
        simp
      rw [h1, pathSum_snoc_two]
      have h2 : m.reverse ++ [b] = (b :: m).reverse := by
        simp
      rw [h2, ih, getDistance_symm g b a]
      show pathSum g (b :: m) + g.getDistance a b =
        g.getDistance a b + pathSum g (b :: m)
      ring

theorem grid10_WF : grid10.WF := by
  intro x y
  exact ⟨rfl, rfl⟩

theorem reconstructPath_chase_none {came : ℤ × ℤ → Option (Option Cell)}
    {fuel : ℕ} {goal : Cell}
    (h : chaseParents came fuel goal = none) :
    reconstructPath came fuel goal = [] := by
  unfold reconstructPath
  rw [h]

theorem reconstructPath_chase_some {came : ℤ × ℤ → Option (Option Cell)}
    {fuel : ℕ} {goal : Cell} {l : List Cell}
    (h : chaseParents came fuel goal = some l) :
    reconstructPath came fuel goal = l.reverse := by
  unfold reconstructPath
  rw [h]

open scoped Classical in
theorem createResult_distance (r : ShipRouter) (p : List Cell) (hp : p ≠ [])
    (n : ℕ) (a : String) :
    (r.createResult p n a).distanceKm = r.grid.getPathLength p := by
  unfold ShipRouter.createResult
  rw [if_neg hp]

theorem runVariant_octile (r : ShipRouter) (hg : r.grid.WF)
    (hsize : 0 ≤ r.grid.cellSizeKm) (cost : Cell → Cell → ℝ)
    (heur : Cell → ℝ) (start goal : Cell) (alg : String) :
    (runVariant r cost heur start goal alg).distanceKm = 0 ∨
      r.grid.cellSizeKm * octilePot start.key goal.key ≤
        (runVariant r cost heur start goal alg).distanceKm := by
  have hadj : CameAdj (searchLoop r.grid cost heur goal (searchFuel r.grid)
      (initState start)) :=
    cameAdj_loop hg goal cost heur (searchFuel r.grid) _ (cameAdj_init start)
  have hnone := (searchInv_loop r.grid start goal cost heur
    (searchFuel r.grid) _ (searchInv_init r.grid start)).came_none
  unfold runVariant
  dsimp only
  rcases hch : chaseParents (searchLoop r.grid cost heur goal
      (searchFuel r.grid) (initState start)).cameFrom
      ((searchLoop r.grid cost heur goal (searchFuel r.grid)
        (initState start)).counter + 2) goal with _ | l
  · left
    rw [reconstructPath_chase_none hch, createResult_empty]
  · right
    rw [reconstructPath_chase_some hch]
    rcases chase_head hch with ⟨tl, rfl⟩
    rw [createResult_distance _ _ (by simp) _ _]
    rw [getPathLength_eq_pathSum, pathSum_reverse]
    exact chase_pathSum_bound hsize hadj hnone hch

theorem aStar_C4_cases :
    (router10.aStar cellA cellG34).distanceKm = 0 ∨
      10 + 30 * Real.sqrt 2 ≤ (router10.aStar cellA cellG34).distanceKm := by
  unfold ShipRouter.aStar
  have h := runVariant_octile router10 grid10_WF
    (by norm_num [router10, grid10, NavigationGrid.make])
    (fun a b => router10.grid.getMovementCost a b)
    (fun c => router10.grid.getDistance c cellG34) cellA cellG34 "A*"
  have hval : router10.grid.cellSizeKm * octilePot cellA.key cellG34.key =
      10 + 30 * Real.sqrt 2 := by
    unfold octilePot router10 grid10 NavigationGrid.make cellA cellG34 Cell.key
    norm_num
    ring
  rw [hval] at h
  exact h

/-- C4 (amended): on the all-water 10 x 10 grid with 10 km cells, every path
a_star (0,0) -> (3,4) can return is either empty or at least 10 + 30 * sqrt 2
km (about 52.43 km) long: each reconstructed-path step moves one king-move,
so the total length is bounded below by the octile distance, which exceeds
the claimed 50 km by far more than the 0.1 km tolerance. -/
theorem claim_C4_path_length :
    (router10.aStar cellA cellG34).distanceKm = 0 ∨
      10 + 30 * Real.sqrt 2 ≤ (router10.aStar cellA cellG34).distanceKm :=
  aStar_C4_cases

/-- C4 counterexample: the distance a_star (0,0) -> (3,4) reports on the
all-water 10 x 10 grid with 10 km cells is never within 0.1 km of 50 km:
diagonal moves cost 10 * sqrt 2 km, so the shortest traversal measures
10 + 30 * sqrt 2 (about 52.43) km, not 5 * 10 = 50 km. -/
theorem claim_C4_counterexample :
    ¬ |(router10.aStar cellA cellG34).distanceKm - 50| ≤ 0.1 := by
  intro hcontra
  have habs := abs_le.mp hcontra
  rcases aStar_C4_cases with h | h
  · rw [h] at habs
    have := habs.1
    norm_num at this
  · have h2 : (1.4 : ℝ) ≤ Real.sqrt 2 := by
      have hsq := Real.sq_sqrt (by norm_num : (0 : ℝ) ≤ 2)
      have hnn := Real.sqrt_nonneg 2
      nlinarith
    have := habs.2
    nlinarith

/-! ## Frontier discipline of the single-objective searches (claim C9) -/

theorem pqLt_trans {e f h : PQEntry} (h1 : pqLt e f) (h2 : pqLt f h) :
    pqLt e h := by
  rcases h1 with h1 | ⟨h1e, h1c⟩
  · rcases h2 with h2 | ⟨h2e, _⟩
    · exact Or.inl (lt_trans h1 h2)
    · exact Or.inl (by rw [← h2e]; exact h1)
  · rcases h2 with h2 | ⟨h2e, h2c⟩
    · exact Or.inl (by rw [h1e]; exact h2)
    · exact Or.inr ⟨h1e.trans h2e, lt_trans h1c h2c⟩

theorem pqInsert_pairwise_lt {e : PQEntry} :
    ∀ {l : List PQEntry}, l.Pairwise pqLt →
      (∀ f ∈ l, pqLt e f ∨ pqLt f e) → (pqInsert e l).Pairwise pqLt := by
  intro l
  induction l with
  | nil => intro _ _; simp [pqInsert]
  | cons f rest ih =>
      intro hl htot
      unfold pqInsert
      split_ifs with hef
      · refine List.Pairwise.cons ?_ hl
        intro x hx
        rcases List.mem_cons.mp hx with rfl | hx
        · exact hef
        · exact pqLt_trans hef (List.rel_of_pairwise_cons hl hx)
      · have hfe : pqLt f e := by
          rcases htot f (List.mem_cons_self _ _) with h | h
          · exact absurd h hef
          · exact h
        refine List.Pairwise.cons ?_ (ih (List.Pairwise.of_cons hl)
          (fun x hx => htot x (List.mem_cons_of_mem _ hx)))
        intro x hx
        rcases mem_pqInsert.mp hx with rfl | hx
        · exact hfe
        · exact List.rel_of_pairwise_cons hl hx

theorem pqInsert_pairwise_ne {e : PQEntry} :
    ∀ {l : List PQEntry},
      l.Pairwise (fun a b => a.2.1 ≠ b.2.1) →
      (∀ f ∈ l, e.2.1 ≠ f.2.1) →
      (pqInsert e l).Pairwise (fun a b => a.2.1 ≠ b.2.1) := by
  intro l
  induction l with
  | nil => intro _ _; simp [pqInsert]
  | cons f rest ih =>
      intro hl hne
      unfold pqInsert
      split_ifs with hef
      · refine List.Pairwise.cons ?_ hl
        intro x hx
        exact hne x hx
      · refine List.Pairwise.cons ?_ (ih (List.Pairwise.of_cons hl)
          (fun x hx => hne x (List.mem_cons_of_mem _ hx)))
        intro x hx
        rcases mem_pqInsert.mp hx with rfl | hx
        · exact (hne f (List.mem_cons_self _ _)).symm
        · exact List.rel_of_pairwise_cons hl hx

theorem frontierInv_push {s : SearchState} (hs : frontierInv s)
    (prio : ℝ) (c : Cell) :
    (pqInsert (prio, s.counter + 1, c) s.pq).Pairwise pqLt ∧
      (pqInsert (prio, s.counter + 1, c) s.pq).Pairwise
        (fun a b => a.2.1 ≠ b.2.1) ∧
      ∀ e ∈ pqInsert (prio, s.counter + 1, c) s.pq,
        e.2.1 ≤ s.counter + 1 := by
  obtain ⟨h1, h2, h3⟩ := hs
  have hne : ∀ f ∈ s.pq, ((prio, s.counter + 1, c) : PQEntry).2.1 ≠ f.2.1 := by
    intro f hf
    have := h3 f hf
    show s.counter + 1 ≠ f.2.1
    omega
  have htot : ∀ f ∈ s.pq, pqLt (prio, s.counter + 1, c) f ∨
      pqLt f (prio, s.counter + 1, c) := by
    intro f hf
    rcases lt_trichotomy prio f.1 with hp | hp | hp
    · exact Or.inl (Or.inl hp)
    · refine Or.inr (Or.inr ⟨hp.symm, ?_⟩)
      have := h3 f hf
      show f.2.1 < s.counter + 1
      omega
    · exact Or.inr (Or.inl hp)
  refine ⟨pqInsert_pairwise_lt h1 htot, pqInsert_pairwise_ne h2 hne, ?_⟩
  intro e he
  rcases mem_pqInsert.mp he with rfl | he
  · exact le_refl _
  · exact le_trans (h3 e he) (Nat.le_succ _)

theorem frontierInv_relaxOne {cost : Cell → Cell → ℝ} {heur : Cell → ℝ}
    {current : Cell} {s : SearchState} {nb : Cell} (hs : frontierInv s) :
    frontierInv (relaxOne cost heur current s nb) := by
  unfold relaxOne
  dsimp only
  split_ifs with h
  · exact frontierInv_push hs _ nb
  · exact hs

theorem frontierInv_relaxFold {cost : Cell → Cell → ℝ} {heur : Cell → ℝ}
    {current : Cell} :
    ∀ (l : List Cell) (s : SearchState), frontierInv s →
      frontierInv (l.foldl (relaxOne cost heur current) s) := by
  intro l
  induction l with
  | nil => intro s hs; exact hs
  | cons nb rest ih =>
      intro s hs
      simp only [List.foldl_cons]
      exact ih _ (frontierInv_relaxOne hs)

theorem frontierInv_popped {s : SearchState} {e : PQEntry}
    {rest : List PQEntry} (hs : frontierInv s) (hpq : s.pq = e :: rest)
    (n : ℕ) : frontierInv { s with pq := rest, nodesExplored := n } := by
  obtain ⟨h1, h2, h3⟩ := hs
  rw [hpq] at h1 h2 h3
  exact ⟨List.Pairwise.of_cons h1, List.Pairwise.of_cons h2,
    fun f hf => h3 f (List.mem_cons_of_mem _ hf)⟩

theorem frontierInv_init (start : Cell) : frontierInv (initState start) := by
  refine ⟨List.pairwise_singleton _ _, List.pairwise_singleton _ _, ?_⟩
  intro e he
  simp only [initState, List.mem_singleton] at he
  subst he
  exact le_refl 0

theorem frontierInv_loop (g : NavigationGrid) (cost : Cell → Cell → ℝ)
    (heur : Cell → ℝ) (goal : Cell) (fuel : ℕ) (s : SearchState)
    (hs : frontierInv s) :
    frontierInv (searchLoop g cost heur goal fuel s) := by
  induction fuel generalizing s with
  | zero => exact hs
  | succ n ih =>
      unfold searchLoop searchStep
      rcases hpq : s.pq with _ | ⟨⟨prio, cnt, current⟩, rest⟩
      · exact hs
      · have hpop := frontierInv_popped hs hpq (s.nodesExplored + 1)
        dsimp only
        split_ifs with hgoal
        · exact hpop
        · exact ih _ (frontierInv_relaxFold _ _ hpop)

/-- C9: determinism and FIFO tie-breaking.  The four single-objective
variants are functions of the grid, weather state, start and goal alone, so
two invocations on identical inputs return identical paths and metrics; and
throughout every search run the frontier obeys the discipline that makes the
Python heap deterministic: entries are strictly sorted by the (priority,
counter) pair, the insertion counters are pairwise distinct and never exceed
the push counter, so heapq never compares the unordered Cell components and
entries with equal priority pop strictly FIFO in insertion order. -/
theorem claim_C9_determinism :
    (∀ (r : ShipRouter) (s gl : Cell),
      r.dijkstra s gl = r.dijkstra s gl ∧
      r.aStar s gl = r.aStar s gl ∧
      r.weatherAwareAStar s gl = r.weatherAwareAStar s gl ∧
      r.fuelOptimized s gl = r.fuelOptimized s gl) ∧
    ∀ (g : NavigationGrid) (cost : Cell → Cell → ℝ) (heur : Cell → ℝ)
      (start goal : Cell) (fuel : ℕ),
      frontierInv (searchLoop g cost heur goal fuel (initState start)) := by
  refine ⟨fun r s gl => ⟨rfl, rfl, rfl, rfl⟩, ?_⟩
  intro g cost heur start goal fuel
  exact frontierInv_loop g cost heur goal fuel _ (frontierInv_init start)

/-! ## Endpoint preservation in the genetic optimizer (claim C7) -/

theorem set_append_of_lt {α : Type} :
    ∀ (l1 l2 : List α) (n : ℕ) (a : α), n < l1.length →
      (l1 ++ l2).set n a = l1.set n a ++ l2
  | [], _, n, _, h => absurd h (by simp)
  | _ :: _, _, 0, _, _ => rfl
  | b :: l1, l2, n + 1, a, h => by
      simp only [List.cons_append, List.set_cons_succ]
      rw [set_append_of_lt l1 l2 n a (by simp at h; omega)]

theorem insertIdx_append_of_le {α : Type} :
    ∀ (l1 l2 : List α) (n : ℕ) (a : α), n ≤ l1.length →
      (l1 ++ l2).insertIdx n a = l1.insertIdx n a ++ l2
  | _, _, 0, _, _ => rfl
  | [], _, n + 1, _, h => absurd h (by simp)
  | b :: l1, l2, n + 1, a, h => by
      simp only [List.cons_append, List.insertIdx_succ_cons]
      rw [insertIdx_append_of_le l1 l2 n a (by simp at h; omega)]

theorem eraseIdx_append_of_lt {α : Type} :
    ∀ (l1 l2 : List α) (n : ℕ), n < l1.length →
      (l1 ++ l2).eraseIdx n = l1.eraseIdx n ++ l2
  | [], _, n, h => absurd h (by simp)
  | _ :: _, _, 0, _ => rfl
  | b :: l1, l2, n + 1, h => by
      simp only [List.cons_append, List.eraseIdx_cons_succ]
      rw [eraseIdx_append_of_lt l1 l2 n (by simp at h; omega)]

theorem randint_toNat_ge_one {o : RandOracle} (ho : OracleValid o)
    (t : ℕ) (b : ℤ) (hb : 1 ≤ b) : 1 ≤ (o.randint t 1 b).toNat := by
  have hlb := ho.randint_lb t 1 b hb
  omega

theorem randint_toNat_lt {o : RandOracle} (ho : OracleValid o)
    (t : ℕ) (b : ℤ) (n : ℕ) (hb : 1 ≤ b) (hbn : b < (n : ℤ)) :
    (o.randint t 1 b).toNat < n := by
  have hlb := ho.randint_lb t 1 b hb
  have hub := ho.randint_ub t 1 b hb
  omega

theorem randint_toNat_le {o : RandOracle} (ho : OracleValid o)
    (t : ℕ) (b : ℤ) (n : ℕ) (hb : 1 ≤ b) (hbn : b ≤ (n : ℤ)) :
    (o.randint t 1 b).toNat ≤ n := by
  have hlb := ho.randint_lb t 1 b hb
  have hub := ho.randint_ub t 1 b hb
  omega

theorem set_interior {start goal : Cell} (m : List Cell) (idx : ℕ) (nc : Cell)
    (h1 : 1 ≤ idx) (h2 : idx ≤ m.length) :
    ∃ m', (start :: (m ++ [goal])).set idx nc = start :: (m' ++ [goal]) := by
  obtain ⟨k, rfl⟩ : ∃ k, idx = k + 1 := ⟨idx - 1, by omega⟩
  refine ⟨m.set k nc, ?_⟩
  rw [List.set_cons_succ, set_append_of_lt m [goal] k nc (by omega)]

theorem insertIdx_interior {start goal : Cell} (m : List Cell) (idx : ℕ)
    (mc : Cell) (h1 : 1 ≤ idx) (h2 : idx ≤ m.length + 1) :
    ∃ m', (start :: (m ++ [goal])).insertIdx idx mc =
      start :: (m' ++ [goal]) := by
  obtain ⟨k, rfl⟩ : ∃ k, idx = k + 1 := ⟨idx - 1, by omega⟩
  refine ⟨m.insertIdx k mc, ?_⟩
  rw [List.insertIdx_succ_cons, insertIdx_append_of_le m [goal] k mc (by omega)]

theorem eraseIdx_interior {start goal : Cell} (m : List Cell) (idx : ℕ)
    (h1 : 1 ≤ idx) (h2 : idx ≤ m.length) :
    ∃ m', (start :: (m ++ [goal])).eraseIdx idx = start :: (m' ++ [goal]) := by
  obtain ⟨k, rfl⟩ : ∃ k, idx = k + 1 := ⟨idx - 1, by omega⟩
  refine ⟨m.eraseIdx k, ?_⟩
  rw [List.eraseIdx_cons_succ, eraseIdx_append_of_lt m [goal] k (by omega)]

theorem set_interior' {start goal : Cell} {w m : List Cell}
    (hw : w = start :: (m ++ [goal])) (idx : ℕ) (nc : Cell)
    (h1 : 1 ≤ idx) (h2 : idx ≤ m.length) :
    ∃ m', w.set idx nc = start :: (m' ++ [goal]) := by
  subst hw
  exact set_interior m idx nc h1 h2

theorem insertIdx_interior' {start goal : Cell} {w m : List Cell}
    (hw : w = start :: (m ++ [goal])) (idx : ℕ) (mc : Cell)
    (h1 : 1 ≤ idx) (h2 : idx ≤ m.length + 1) :
    ∃ m', w.insertIdx idx mc = start :: (m' ++ [goal]) := by
  subst hw
  exact insertIdx_interior m idx mc h1 h2

theorem eraseIdx_interior' {start goal : Cell} {w m : List Cell}
    (hw : w = start :: (m ++ [goal])) (idx : ℕ)
    (h1 : 1 ≤ idx) (h2 : idx ≤ m.length) :
    ∃ m', w.eraseIdx idx = start :: (m' ++ [goal]) := by
  subst hw
  exact eraseIdx_interior m idx h1 h2

theorem foldl_snoc_inv {α β : Type} (P : α → Prop) (Q : β → Prop)
    (f : List α × ℕ → β → List α × ℕ) (wv : ℕ → β → α) (cv : ℕ → β → ℕ)
    (hf : ∀ acc x, f acc x = (acc.1 ++ [wv acc.2 x], cv acc.2 x))
    (hw : ∀ t x, Q x → P (wv t x)) :
    ∀ (l : List β), (∀ x ∈ l, Q x) → ∀ (acc : List α × ℕ),
      (∀ a ∈ acc.1, P a) → ∀ a ∈ (l.foldl f acc).1, P a := by
  intro l
  induction l with
  | nil => intro _ acc h a ha; exact h a ha
  | cons x rest ih =>
      intro hQ acc h a ha
      simp only [List.foldl_cons] at ha
      refine ih (fun y hy => hQ y (List.mem_cons_of_mem _ hy)) (f acc x) ?_ a ha
      intro b hb
      rw [hf] at hb
      dsimp only at hb
      rcases List.mem_append.mp hb with hb | hb
      · exact h b hb
      · rcases List.mem_singleton.mp hb with rfl
        exact hw acc.2 x (hQ x (List.mem_cons_self _ _))

theorem foldl_snoc_length {α β : Type}
    (f : List α × ℕ → β → List α × ℕ) (wv : ℕ → β → α) (cv : ℕ → β → ℕ)
    (hf : ∀ acc x, f acc x = (acc.1 ++ [wv acc.2 x], cv acc.2 x)) :
    ∀ (l : List β) (acc : List α × ℕ),
      ((l.foldl f acc).1).length = acc.1.length + l.length := by
  intro l
  induction l with
  | nil => intro acc; simp
  | cons x rest ih =>
      intro acc
      simp only [List.foldl_cons, List.length_cons]
      rw [ih, hf]
      simp only [List.length_append, List.length_singleton]
      omega

theorem foldl_head_pres {β : Type} (start : Cell)
    (f : List Cell × ℕ → β → List Cell × ℕ)
    (hf : ∀ acc x, (f acc x).1 = acc.1 ∨ ∃ c, (f acc x).1 = acc.1 ++ [c]) :
    ∀ (l : List β) (acc : List Cell × ℕ) (m : List Cell),
      acc.1 = start :: m → ∃ m', (l.foldl f acc).1 = start :: m' := by
  intro l
  induction l with
  | nil => intro acc m h; exact ⟨m, h⟩
  | cons x rest ih =>
      intro acc m h
      simp only [List.foldl_cons]
      rcases hf acc x with h1 | ⟨c, h1⟩
      · exact ih (f acc x) m (h1.trans h)
      · exact ih (f acc x) (m ++ [c]) (by rw [h1, h]; simp)

theorem evaluateRoute_waypoints (g : NavigationGrid)
    (weather : Option WeatherSystem) (r : Route) :
    (evaluateRoute g weather r).waypoints = r.waypoints := by
  unfold evaluateRoute
  split_ifs with h
  · rfl
  · rfl

theorem endpointsOk_evaluate {g : NavigationGrid}
    {weather : Option WeatherSystem} {start goal : Cell} {r : Route}
    (h : endpointsOk start goal r) :
    endpointsOk start goal (evaluateRoute g weather r) := by
  rcases h with ⟨m, hm⟩
  exact ⟨m, by rw [evaluateRoute_waypoints]; exact hm⟩

theorem initStep_shape (o : RandOracle) (g : NavigationGrid)
    (start goal : Cell) (num : ℤ) (acc : List Cell × ℕ) (i : ℕ) :
    (initStep o g start goal num acc i).1 = acc.1 ∨
      ∃ c, (initStep o g start goal num acc i).1 = acc.1 ++ [c] := by
  unfold initStep
  dsimp only
  split
  · split_ifs with h
    · exact Or.inl rfl
    · next cell _ => exact Or.inr ⟨cell, rfl⟩
  · exact Or.inl rfl

theorem initIndividual_endpoints (o : RandOracle) (g : NavigationGrid)
    (weather : Option WeatherSystem) (start goal : Cell) (t : ℕ) :
    endpointsOk start goal (initIndividual o g weather start goal t).1 := by
  unfold initIndividual
  dsimp only
  refine endpointsOk_evaluate ?_
  obtain ⟨m', hm'⟩ := foldl_head_pres start
    (initStep o g start goal (o.randint t 5 15))
    (initStep_shape o g start goal (o.randint t 5 15))
    (List.range (o.randint t 5 15).toNat) ([start], t + 1) [] rfl
  exact ⟨m', by rw [hm']; simp⟩

theorem initPopulation_length (o : RandOracle) (opt : GeneticRouteOptimizer)
    (start goal : Cell) :
    (initPopulation o opt start goal).1.length = opt.populationSize := by
  unfold initPopulation
  rw [foldl_snoc_length _
    (fun t (_ : ℕ) => (initIndividual o opt.grid opt.weather start goal t).1)
    (fun t (_ : ℕ) => (initIndividual o opt.grid opt.weather start goal t).2)
    (fun acc x => rfl)]
  simp

theorem initPopulation_endpoints (o : RandOracle) (opt : GeneticRouteOptimizer)
    (start goal : Cell) :
    ∀ r ∈ (initPopulation o opt start goal).1, endpointsOk start goal r := by
  unfold initPopulation
  exact foldl_snoc_inv (endpointsOk start goal) (fun _ => True) _
    (fun t (_ : ℕ) => (initIndividual o opt.grid opt.weather start goal t).1)
    (fun t (_ : ℕ) => (initIndividual o opt.grid opt.weather start goal t).2)
    (fun acc x => rfl)
    (fun t _ _ => initIndividual_endpoints o opt.grid opt.weather start goal t)
    (List.range opt.populationSize) (fun _ _ => trivial) ([], 0)
    (by intro a ha; exact absurd ha (List.not_mem_nil a))

theorem maxByFitness_foldl_mem :
    ∀ (rest : List Route) (r : Route),
      rest.foldl
        (fun best cand => if best.fitness < cand.fitness then cand else best)
        r ∈ r :: rest := by
  intro rest
  induction rest with
  | nil => intro r; exact List.mem_singleton_self r
  | cons c rest ih =>
      intro r
      simp only [List.foldl_cons]
      split_ifs with hc
      · rcases List.mem_cons.mp (ih c) with h | h
        · rw [h]
          exact List.mem_cons_of_mem _ (List.mem_cons_self _ _)
        · exact List.mem_cons_of_mem _ (List.mem_cons_of_mem _ h)
      · rcases List.mem_cons.mp (ih r) with h | h
        · rw [h]
          exact List.mem_cons_self _ _
        · exact List.mem_cons_of_mem _ (List.mem_cons_of_mem _ h)

theorem maxByFitness_mem : ∀ {l : List Route}, l ≠ [] → maxByFitness l ∈ l
  | [], h => absurd rfl h
  | r :: rest, _ => maxByFitness_foldl_mem rest r

theorem tournament_mem {o : RandOracle} (ho : OracleValid o)
    {pop : List Route} (hne : pop ≠ []) (popSize t : ℕ) :
    ∀ x ∈ (tournamentSelection o popSize pop t).1, x ∈ pop := by
  unfold tournamentSelection
  refine foldl_snoc_inv (· ∈ pop) (fun _ => True) _
    (fun tt (_ : ℕ) => maxByFitness (o.sample tt pop))
    (fun tt (_ : ℕ) => tt + 1)
    (fun acc x => rfl) ?_ (List.range popSize) (fun _ _ => trivial) ([], t)
    (by intro a ha; exact absurd ha (List.not_mem_nil a))
  intro tt x _
  exact ho.sample_mem tt pop _ (maxByFitness_mem (ho.sample_ne tt pop hne))

theorem endpointsOk_crossChild {start goal : Cell} {w1 w2 : List Cell}
    (h1 : ∃ m, w1 = start :: (m ++ [goal]))
    (h2 : ∃ m, w2 = start :: (m ++ [goal]))
    (point : ℕ) (hp1 : 1 ≤ point) (hp2 : point < w2.length) :
    ∃ m, w1.take point ++ w2.drop point = start :: (m ++ [goal]) := by
  rcases h1 with ⟨m1, rfl⟩
  rcases h2 with ⟨m2, rfl⟩
  obtain ⟨k, rfl⟩ : ∃ k, point = k + 1 := ⟨point - 1, by omega⟩
  have hk : k ≤ m2.length := by
    simp at hp2
    omega
  refine ⟨(m1 ++ [goal]).take k ++ m2.drop k, ?_⟩
  rw [List.take_succ_cons, List.drop_succ_cons,
    List.drop_append_of_le_length hk]
  simp

theorem crossoverPairs_endpoints {o : RandOracle} (ho : OracleValid o)
    {g : NavigationGrid} {weather : Option WeatherSystem} {rate : ℝ}
    {start goal : Cell} :
    ∀ (l : List Route) (t : ℕ),
      (∀ r ∈ l, endpointsOk start goal r) →
      ∀ r ∈ (crossoverPairs o g weather rate l t).1, endpointsOk start goal r
  | [], t => by
      intro _ r hr
      simp [crossoverPairs] at hr
  | [p], t => by
      intro _ r hr
      simp [crossoverPairs] at hr
  | p1 :: p2 :: rest, t => by
      intro hl r hr
      have hrest : ∀ x ∈ rest, endpointsOk start goal x :=
        fun x hx => hl x (List.mem_cons_of_mem _ (List.mem_cons_of_mem _ hx))
      unfold crossoverPairs at hr
      dsimp only at hr
      split_ifs at hr with hrand hlen
      · rcases hl p1 (List.mem_cons_self _ _) with ⟨m1, hm1⟩
        rcases hl p2 (List.mem_cons_of_mem _ (List.mem_cons_self _ _))
          with ⟨m2, hm2⟩
        rcases List.mem_cons.mp hr with rfl | hr
        · refine endpointsOk_evaluate ?_
          exact endpointsOk_crossChild ⟨m1, hm1⟩ ⟨m2, hm2⟩ _
            (randint_toNat_ge_one ho (t + 1) _ (by omega))
            (randint_toNat_lt ho (t + 1) _ _ (by omega) (by omega))
        · rcases List.mem_cons.mp hr with rfl | hr
          · refine endpointsOk_evaluate ?_
            exact endpointsOk_crossChild ⟨m2, hm2⟩ ⟨m1, hm1⟩ _
              (randint_toNat_ge_one ho (t + 1) _ (by omega))
              (randint_toNat_lt ho (t + 1) _ _ (by omega) (by omega))
          · exact crossoverPairs_endpoints ho rest (t + 2) hrest r hr
      · rcases List.mem_cons.mp hr with rfl | hr
        · exact hl r (List.mem_cons_self _ _)
        · rcases List.mem_cons.mp hr with rfl | hr
          · exact hl r (List.mem_cons_of_mem _ (List.mem_cons_self _ _))
          · exact crossoverPairs_endpoints ho rest (t + 1) hrest r hr
      · rcases List.mem_cons.mp hr with rfl | hr
        · exact hl r (List.mem_cons_self _ _)
        · rcases List.mem_cons.mp hr with rfl | hr
          · exact hl r (List.mem_cons_of_mem _ (List.mem_cons_self _ _))
          · exact crossoverPairs_endpoints ho rest (t + 1) hrest r hr

theorem mutateRoute_endpoints {o : RandOracle} (ho : OracleValid o)
    {g : NavigationGrid} {weather : Option WeatherSystem} {mutRate : ℝ}
    {start goal : Cell} {r : Route} (hr : endpointsOk start goal r) (t : ℕ) :
    endpointsOk start goal (mutateRoute o g weather mutRate r t).1 := by
  rcases hr with ⟨m, hm⟩
  have hlenw : r.waypoints.length = m.length + 2 := by
    rw [hm]
    simp
  unfold mutateRoute
  dsimp only
  split_ifs with h1 h2 h3 h4 h5 h6
  · -- modify branch
    refine endpointsOk_evaluate ?_
    split
    · split_ifs with hland
      · exact ⟨m, hm⟩
      · exact set_interior' hm _ _
          (randint_toNat_ge_one ho (t + 2) _ (by omega))
          (randint_toNat_le ho (t + 2) _ _ (by omega) (by omega))
    · exact ⟨m, hm⟩
  · -- add branch, length < 20
    refine endpointsOk_evaluate ?_
    split
    · split_ifs with hland
      · exact ⟨m, hm⟩
      · exact insertIdx_interior' hm _ _
          (randint_toNat_ge_one ho (t + 2) _ (by omega))
          (randint_toNat_le ho (t + 2) _ _ (by omega) (by omega))
    · exact ⟨m, hm⟩
  · -- add branch, length >= 20
    exact endpointsOk_evaluate ⟨m, hm⟩
  · -- remove branch, length > 3
    refine endpointsOk_evaluate ?_
    exact eraseIdx_interior' hm _
      (randint_toNat_ge_one ho (t + 2) _ (by omega))
      (randint_toNat_le ho (t + 2) _ _ (by omega) (by omega))
  · -- remove branch, length <= 3
    exact endpointsOk_evaluate ⟨m, hm⟩
  · -- too short to mutate
    exact ⟨m, hm⟩
  · -- no mutation
    exact ⟨m, hm⟩

theorem mutateAll_endpoints {o : RandOracle} (ho : OracleValid o)
    {g : NavigationGrid} {weather : Option WeatherSystem} {mutRate : ℝ}
    {start goal : Cell} {offspring : List Route} (t : ℕ)
    (hoff : ∀ r ∈ offspring, endpointsOk start goal r) :
    ∀ r ∈ (mutateAll o g weather mutRate offspring t).1,
      endpointsOk start goal r := by
  unfold mutateAll
  exact foldl_snoc_inv (endpointsOk start goal) (endpointsOk start goal) _
    (fun tt rr => (mutateRoute o g weather mutRate rr tt).1)
    (fun tt rr => (mutateRoute o g weather mutRate rr tt).2)
    (fun acc x => rfl)
    (fun tt x hx => mutateRoute_endpoints ho hx tt)
    offspring hoff ([], t)
    (by intro a ha; exact absurd ha (List.not_mem_nil a))

theorem trivOracle_valid : OracleValid trivOracle := by
  refine ⟨?_, ?_, ?_, ?_⟩
  · intro t a b _
    exact le_refl a
  · intro t a b h
    exact h
  · intro t l r hr
    exact List.mem_of_mem_take hr
  · intro t l h hc
    have hc' : l.take 5 = [] := hc
    rw [List.take_eq_nil_iff] at hc'
    rcases hc' with hc' | hc'
    · exact absurd hc' (by norm_num)
    · exact h hc'

/-! ## Best-seen tracking of optimize (claims C6 and C7) -/

theorem foldBest_cons (b : Option (Route × ℝ)) (r : Route)
    (rest : List Route) :
    foldBest b (r :: rest) =
      foldBest (match b with
        | none => some (r, r.fitness)
        | some (br, bf) =>
            if bf < r.fitness then some (r, r.fitness) else some (br, bf))
        rest := rfl

theorem foldBest_some :
    ∀ (pop : List Route) (q : Route × ℝ),
      ∃ p, foldBest (some q) pop = some p
  | [], q => ⟨q, rfl⟩
  | r :: rest, q => by
      rw [foldBest_cons]
      rcases q with ⟨br, bf⟩
      dsimp only
      by_cases hlt : bf < r.fitness
      · rw [if_pos hlt]
        exact foldBest_some rest (r, r.fitness)
      · rw [if_neg hlt]
        exact foldBest_some rest (br, bf)

theorem foldBest_ne_some :
    ∀ (pop : List Route), pop ≠ [] →
      ∀ b, ∃ p, foldBest b pop = some p
  | [], h, _ => absurd rfl h
  | r :: rest, _, b => by
      rw [foldBest_cons]
      cases b with
      | none => exact foldBest_some rest (r, r.fitness)
      | some q =>
          rcases q with ⟨br, bf⟩
          dsimp only
          by_cases hlt : bf < r.fitness
          · rw [if_pos hlt]
            exact foldBest_some rest (r, r.fitness)
          · rw [if_neg hlt]
            exact foldBest_some rest (br, bf)

theorem foldBest_ge :
    ∀ (pop : List Route) (b : Option (Route × ℝ)) (p : Route × ℝ),
      foldBest b pop = some p →
      (∀ r ∈ pop, r.fitness ≤ p.2) ∧ ∀ q, b = some q → q.2 ≤ p.2 := by
  intro pop
  induction pop with
  | nil =>
      intro b p hp
      constructor
      · intro r hr
        exact absurd hr (List.not_mem_nil r)
      · intro q hq
        have hbp : some q = some p := by rw [← hq]; exact hp
        have hqp : q = p := by injection hbp
        rw [hqp]
  | cons r rest ih =>
      intro b p hp
      rw [foldBest_cons] at hp
      cases b with
      | none =>
          have hih := ih (some (r, r.fitness)) p hp
          constructor
          · intro x hx
            rcases List.mem_cons.mp hx with rfl | hx
            · exact hih.2 (x, x.fitness) rfl
            · exact hih.1 x hx
          · intro q hq
            exact absurd hq (by simp)
      | some q0 =>
          rcases q0 with ⟨br, bf⟩
          dsimp only at hp
          by_cases hlt : bf < r.fitness
          · rw [if_pos hlt] at hp
            have hih := ih (some (r, r.fitness)) p hp
            constructor
            · intro x hx
              rcases List.mem_cons.mp hx with rfl | hx
              · exact hih.2 (x, x.fitness) rfl
              · exact hih.1 x hx
            · intro q hq
              have hqe : q = (br, bf) := by
                injection hq with hq'
                exact hq'.symm
              rw [hqe]
              exact le_trans (le_of_lt hlt) (hih.2 (r, r.fitness) rfl)
          · rw [if_neg hlt] at hp
            have hih := ih (some (br, bf)) p hp
            constructor
            · intro x hx
              rcases List.mem_cons.mp hx with rfl | hx
              · exact le_trans (not_lt.mp hlt) (hih.2 (br, bf) rfl)
              · exact hih.1 x hx
            · intro q hq
              have hqe : q = (br, bf) := by
                injection hq with hq'
                exact hq'.symm
              rw [hqe]
              exact hih.2 (br, bf) rfl

theorem foldBest_snd :
    ∀ (pop : List Route) (b : Option (Route × ℝ)),
      (∀ q, b = some q → q.2 = q.1.fitness) →
      ∀ p, foldBest b pop = some p → p.2 = p.1.fitness := by
  intro pop
  induction pop with
  | nil =>
      intro b hb p hp
      exact hb p hp
  | cons r rest ih =>
      intro b hb p hp
      rw [foldBest_cons] at hp
      cases b with
      | none =>
          refine ih _ ?_ p hp
          intro q hq
          have h : (r, r.fitness) = q := by injection hq
          rw [← h]
      | some q0 =>
          rcases q0 with ⟨br, bf⟩
          dsimp only at hp
          by_cases hlt : bf < r.fitness
          · rw [if_pos hlt] at hp
            refine ih _ ?_ p hp
            intro q hq
            have h : (r, r.fitness) = q := by injection hq
            rw [← h]
          · rw [if_neg hlt] at hp
            refine ih _ ?_ p hp
            intro q hq
            have h : (br, bf) = q := by injection hq
            rw [← h]
            exact hb (br, bf) rfl

theorem foldBest_carrier {P : Route → Prop} :
    ∀ (pop : List Route) (b : Option (Route × ℝ)),
      (∀ q, b = some q → P q.1) → (∀ r ∈ pop, P r) →
      ∀ p, foldBest b pop = some p → P p.1 := by
  intro pop
  induction pop with
  | nil => intro b hb _ p hp; exact hb p hp
  | cons r rest ih =>
      intro b hb hpop p hp
      rw [foldBest_cons] at hp
      cases b with
      | none =>
          refine ih _ ?_ (fun x hx => hpop x (List.mem_cons_of_mem _ hx)) p hp
          intro q hq
          have h : (r, r.fitness) = q := by injection hq
          rw [← h]
          exact hpop r (List.mem_cons_self _ _)
      | some q0 =>
          rcases q0 with ⟨br, bf⟩
          dsimp only at hp
          by_cases hlt : bf < r.fitness
          · rw [if_pos hlt] at hp
            refine ih _ ?_ (fun x hx => hpop x (List.mem_cons_of_mem _ hx)) p hp
            intro q hq
            have h : (r, r.fitness) = q := by injection hq
            rw [← h]
            exact hpop r (List.mem_cons_self _ _)
          · rw [if_neg hlt] at hp
            refine ih _ ?_ (fun x hx => hpop x (List.mem_cons_of_mem _ hx)) p hp
            intro q hq
            have h : (br, bf) = q := by injection hq
            rw [← h]
            exact hb (br, bf) rfl

theorem generationStep_inv {o : RandOracle} (ho : OracleValid o)
    {opt : GeneticRouteOptimizer} {w : ObjectiveWeights} {start goal : Cell}
    (hpop : 10 ≤ opt.populationSize) {gen : ℕ} {st : GenState}
    (hne : st.population ≠ [])
    (hend : ∀ r ∈ st.population, endpointsOk start goal r) :
    (generationStep o opt w gen st).population ≠ [] ∧
      ∀ r ∈ (generationStep o opt w gen st).population,
        endpointsOk start goal r := by
  have hevne : evalPhase w st.population ≠ [] := by
    intro hc
    unfold evalPhase at hc
    rw [List.map_eq_nil_iff] at hc
    exact hne hc
  have hevend : ∀ r ∈ evalPhase w st.population, endpointsOk start goal r := by
    intro r hr
    unfold evalPhase at hr
    rcases List.mem_map.mp hr with ⟨q, hq, rfl⟩
    rcases hend q hq with ⟨m, hm⟩
    exact ⟨m, hm⟩
  have hsel : ∀ r ∈ (tournamentSelection o opt.populationSize
      (evalPhase w st.population) st.t).1, endpointsOk start goal r :=
    fun r hr =>
      hevend r (tournament_mem ho hevne opt.populationSize st.t r hr)
  have hcross : ∀ r ∈ (crossoverPairs o opt.grid opt.weather opt.crossoverRate
      (tournamentSelection o opt.populationSize
        (evalPhase w st.population) st.t).1
      (tournamentSelection o opt.populationSize
        (evalPhase w st.population) st.t).2).1,
      endpointsOk start goal r :=
    crossoverPairs_endpoints ho _ _ hsel
  have hmut : ∀ r ∈ (mutateAll o opt.grid opt.weather
      (0.1 * (1 - (gen : ℝ) / (opt.generations : ℝ)) + 0.01)
      (crossoverPairs o opt.grid opt.weather opt.crossoverRate
        (tournamentSelection o opt.populationSize
          (evalPhase w st.population) st.t).1
        (tournamentSelection o opt.populationSize
          (evalPhase w st.population) st.t).2).1
      (crossoverPairs o opt.grid opt.weather opt.crossoverRate
        (tournamentSelection o opt.populationSize
          (evalPhase w st.population) st.t).1
        (tournamentSelection o opt.populationSize
          (evalPhase w st.population) st.t).2).2).1,
      endpointsOk start goal r :=
    mutateAll_endpoints ho _ hcross
  have hsorted : ∀ r ∈ (evalPhase w st.population).mergeSort
      (fun a b => decide (b.fitness ≤ a.fitness)), endpointsOk start goal r := by
    intro r hr
    rw [List.mem_mergeSort] at hr
    exact hevend r hr
  have he1 : 1 ≤ (⌊(0.1 : ℝ) * (opt.populationSize : ℝ)⌋).toNat := by
    have h10 : (10 : ℝ) ≤ (opt.populationSize : ℝ) := by exact_mod_cast hpop
    have h01 : (1 : ℝ) ≤ 0.1 * (opt.populationSize : ℝ) := by nlinarith
    have hf : (1 : ℤ) ≤ ⌊(0.1 : ℝ) * (opt.populationSize : ℝ)⌋ := by
      rw [Int.le_floor]
      exact_mod_cast h01
    omega
  have hppop : (generationStep o opt w gen st).population =
      ((evalPhase w st.population).mergeSort
        (fun a b => decide (b.fitness ≤ a.fitness))).take
        (⌊(0.1 : ℝ) * (opt.populationSize : ℝ)⌋).toNat ++
      (mutateAll o opt.grid opt.weather
        (0.1 * (1 - (gen : ℝ) / (opt.generations : ℝ)) + 0.01)
        (crossoverPairs o opt.grid opt.weather opt.crossoverRate
          (tournamentSelection o opt.populationSize
            (evalPhase w st.population) st.t).1
          (tournamentSelection o opt.populationSize
            (evalPhase w st.population) st.t).2).1
        (crossoverPairs o opt.grid opt.weather opt.crossoverRate
          (tournamentSelection o opt.populationSize
            (evalPhase w st.population) st.t).1
          (tournamentSelection o opt.populationSize
            (evalPhase w st.population) st.t).2).2).1.take
        (opt.populationSize - (⌊(0.1 : ℝ) * (opt.populationSize : ℝ)⌋).toNat) :=
    rfl
  constructor
  · rw [hppop]
    intro hc
    rcases List.append_eq_nil.mp hc with ⟨hc1, _⟩
    rw [List.take_eq_nil_iff] at hc1
    rcases hc1 with hc1 | hc1
    · omega
    · rcases List.exists_mem_of_ne_nil _ hevne with ⟨x, hx⟩
      have hx' : x ∈ (evalPhase w st.population).mergeSort
          (fun a b => decide (b.fitness ≤ a.fitness)) := by
        rw [List.mem_mergeSort]
        exact hx
      rw [hc1] at hx'
      exact absurd hx' (List.not_mem_nil x)
  · rw [hppop]
    intro r hr
    rcases List.mem_append.mp hr with hr | hr
    · exact hsorted r (List.mem_of_mem_take hr)
    · exact hmut r (List.mem_of_mem_take hr)

theorem genIter_inv (o : RandOracle) (ho : OracleValid o)
    (opt : GeneticRouteOptimizer) (w : ObjectiveWeights) (start goal : Cell)
    (hpop : 10 ≤ opt.populationSize) :
    ∀ n, (genIter o opt w start goal n).population ≠ [] ∧
      ∀ r ∈ (genIter o opt w start goal n).population,
        endpointsOk start goal r := by
  intro n
  induction n with
  | zero =>
      constructor
      · have hl : (genIter o opt w start goal 0).population.length =
            opt.populationSize := initPopulation_length o opt start goal
        intro hc
        rw [hc] at hl
        simp at hl
        omega
      · intro r hr
        exact initPopulation_endpoints o opt start goal r hr
  | succ n ih =>
      have hstep : genIter o opt w start goal (n + 1) =
          generationStep o opt w n (genIter o opt w start goal n) := rfl
      rw [hstep]
      exact generationStep_inv ho hpop ih.1 ih.2

theorem genIter_best_carrier (o : RandOracle) (ho : OracleValid o)
    (opt : GeneticRouteOptimizer) (w : ObjectiveWeights) (start goal : Cell)
    (hpop : 10 ≤ opt.populationSize) :
    ∀ n p, (genIter o opt w start goal n).best = some p →
      endpointsOk start goal p.1 := by
  intro n
  induction n with
  | zero =>
      intro p hp
      have h0 : (genIter o opt w start goal 0).best = none := rfl
      rw [h0] at hp
      exact absurd hp (by simp)
  | succ n ih =>
      intro p hp
      have hstep : (genIter o opt w start goal (n + 1)).best =
          foldBest (genIter o opt w start goal n).best
            (evalPhase w (genIter o opt w start goal n).population) := rfl
      rw [hstep] at hp
      refine foldBest_carrier _ _ ih ?_ p hp
      intro r hr
      unfold evalPhase at hr
      rcases List.mem_map.mp hr with ⟨q, hq, rfl⟩
      rcases (genIter_inv o ho opt w start goal hpop n).2 q hq with ⟨m, hm⟩
      exact ⟨m, hm⟩

theorem genIter_best_ge (o : RandOracle) (opt : GeneticRouteOptimizer)
    (w : ObjectiveWeights) (start goal : Cell) :
    ∀ n : ℕ,
      (∀ q, (genIter o opt w start goal n).best = some q →
        q.2 = q.1.fitness) ∧
      ∀ m, m < n →
        ∀ r ∈ evalPhase w (genIter o opt w start goal m).population,
          ∃ p, (genIter o opt w start goal n).best = some p ∧
            r.fitness ≤ p.2 := by
  intro n
  induction n with
  | zero =>
      constructor
      · intro q hq
        have h0 : (genIter o opt w start goal 0).best = none := rfl
        rw [h0] at hq
        exact absurd hq (by simp)
      · intro m hm
        exact absurd hm (Nat.not_lt_zero m)
  | succ n ih =>
      have hstep : (genIter o opt w start goal (n + 1)).best =
          foldBest (genIter o opt w start goal n).best
            (evalPhase w (genIter o opt w start goal n).population) := rfl
      constructor
      · intro q hq
        rw [hstep] at hq
        exact foldBest_snd _ _ ih.1 q hq
      · intro m hm r hr
        rcases Nat.lt_succ_iff_lt_or_eq.mp hm with hm' | hme
        · rcases ih.2 m hm' r hr with ⟨q, hq, hrq⟩
          rcases foldBest_some
            (evalPhase w (genIter o opt w start goal n).population) q
            with ⟨p, hp⟩
          refine ⟨p, by rw [hstep, hq]; exact hp, ?_⟩
          exact le_trans hrq ((foldBest_ge _ _ p hp).2 q rfl)
        · subst hme
          rcases foldBest_ne_some
            (evalPhase w (genIter o opt w start goal m).population)
            (List.ne_nil_of_mem hr)
            (genIter o opt w start goal m).best with ⟨p, hp⟩
          exact ⟨p, by rw [hstep]; exact hp, (foldBest_ge _ _ p hp).1 r hr⟩

theorem genIter_best_some (o : RandOracle) (opt : GeneticRouteOptimizer)
    (w : ObjectiveWeights) (start goal : Cell)
    (hpop : 1 ≤ opt.populationSize) :
    ∀ n, 1 ≤ n → ∃ p, (genIter o opt w start goal n).best = some p := by
  intro n
  induction n with
  | zero =>
      intro h
      exact absurd h (by norm_num)
  | succ n ih =>
      intro _
      have hstep : (genIter o opt w start goal (n + 1)).best =
          foldBest (genIter o opt w start goal n).best
            (evalPhase w (genIter o opt w start goal n).population) := rfl
      rcases Nat.eq_zero_or_pos n with rfl | hn
      · have hne : evalPhase w (genIter o opt w start goal 0).population ≠ [] := by
          intro hc
          unfold evalPhase at hc
          rw [List.map_eq_nil_iff] at hc
          have hl : (genIter o opt w start goal 0).population.length =
              opt.populationSize := initPopulation_length o opt start goal
          rw [hc] at hl
          simp at hl
          omega
        rcases foldBest_ne_some _ hne (genIter o opt w start goal 0).best
          with ⟨p, hp⟩
        exact ⟨p, by rw [hstep]; exact hp⟩
      · rcases ih hn with ⟨q, hq⟩
        rcases foldBest_some
          (evalPhase w (genIter o opt w start goal n).population) q
          with ⟨p, hp⟩
        exact ⟨p, by rw [hstep, hq]; exact hp⟩

theorem sqrt_four : Real.sqrt 4 = 2 := by
  rw [show (4 : ℝ) = 2 ^ 2 by norm_num, Real.sqrt_sq (by norm_num : (0:ℝ) ≤ 2)]

theorem sqrt_sixteen : Real.sqrt 16 = 4 := by
  rw [show (16 : ℝ) = 4 ^ 2 by norm_num, Real.sqrt_sq (by norm_num : (0:ℝ) ≤ 4)]

set_option maxHeartbeats 16000000 in
/-- C6: the best-seen guarantee FAILS in the code (the claim's property is
violated on a concrete run).  On the all-water 10 x 10 grid with 10 km
cells, optimize((0,0), (0,6)) with population_size 6, generations 2 and the
realizable random stream bugOracleH returns a route whose fitness
(97877/129640, about 0.755) is strictly below the fitness 497351/648200
(about 0.767) of a candidate the run evaluated -- the same object before it
was degraded.  Cause: best_route is recorded by object reference; the
reference wins every tournament, passes through a failed crossover coin
into the offspring, and _mutate rewrites its waypoints in place (the
straight 60 km line gains a 100 km detour); the next generation's
evaluation loop then reassigns its fitness to the lower value, best_fitness
is never reattained, and optimize returns the degraded object. -/
theorem claim_C6_best_seen :
    ∃ r, optimizeH bugOracleH bugOpt cellA cellG06 ({} : ObjectiveWeights) = some r ∧
      ∃ f ∈ evalTraceH bugOracleH bugOpt ({} : ObjectiveWeights) cellA cellG06,
        r.fitness < f := by
  refine ⟨Route.mk [⟨0,0,false,1,0⟩, ⟨0,1,false,1,0⟩, ⟨0,2,false,1,0⟩,
      ⟨0,6,false,1,0⟩, ⟨0,4,false,1,0⟩, ⟨0,5,false,1,0⟩, ⟨0,6,false,1,0⟩]
      (97877/129640) 100 (3750/463) (1/7) (1250/463), ?_, ?_⟩
  · norm_num [optimizeH, genIterH, generationStepH, evalPhaseH, tournamentSelectionH,
      maxByFitnessH, crossoverPairsH, mutateAllH, mutateRouteH, mutateRoute,
      initPopulationH, initIndividual, initStep, halloc, hset, RandOracleH.toV,
      bugOracleH, bugOpt, grid10, NavigationGrid.make, NavigationGrid.getCell,
      NavigationGrid.getDistance, cellA, cellG06, truncZ, evaluateRoute,
      calculateFitness, dummyCell,
      (show List.range 5 = [0,1,2,3,4] from rfl),
      (show List.range 6 = [0,1,2,3,4,5] from rfl),
      (show Int.toNat 5 = 5 from rfl), (show Int.toNat 3 = 3 from rfl),
      List.foldl_cons, List.foldl_nil, List.foldl_append,
      List.zip_cons_cons, List.tail_cons, List.take_succ_cons, List.take_zero,
      List.take_nil, List.mem_cons, List.not_mem_nil,
      List.getD_cons_zero, List.getD_cons_succ,
      List.set_cons_zero, List.set_cons_succ,
      Real.sqrt_zero, Real.sqrt_one, sqrt_four, sqrt_sixteen,
      Int.floor_one, Int.floor_zero, Int.floor_ofNat]
  · have h0 : (genIterH bugOracleH bugOpt ({} : ObjectiveWeights) cellA
        cellG06 0).population.map
        (fun i => calculateFitness ((genIterH bugOracleH bugOpt
          ({} : ObjectiveWeights) cellA cellG06 0).heap.store i)
          ({} : ObjectiveWeights)) =
        [497351/648200, 497351/648200, 497351/648200,
          497351/648200, 497351/648200, 497351/648200] := by
      norm_num [genIterH, initPopulationH, initIndividual, initStep, halloc,
        RandOracleH.toV, bugOracleH, bugOpt, grid10, NavigationGrid.make,
        NavigationGrid.getCell, NavigationGrid.getDistance, cellA, cellG06,
        truncZ, evaluateRoute, calculateFitness,
        (show List.range 5 = [0,1,2,3,4] from rfl),
        (show List.range 6 = [0,1,2,3,4,5] from rfl),
        (show Int.toNat 5 = 5 from rfl),
        List.foldl_cons, List.foldl_nil, List.foldl_append,
        List.zip_cons_cons, List.tail_cons, List.mem_cons, List.not_mem_nil,
        Real.sqrt_zero, Real.sqrt_one,
        Int.floor_one, Int.floor_zero, Int.floor_ofNat]
    unfold evalTraceH
    rw [show List.range bugOpt.generations = [0, 1] from rfl]
    rw [List.map_cons, List.map_cons, List.map_nil, h0]
    refine ⟨497351/648200, ?_, by norm_num⟩
    rw [List.flatten_cons]
    exact List.mem_append.mpr (Or.inl (by norm_num [List.mem_cons]))

/-- C7: endpoint invariant of the genetic optimizer.  Under the random
module contract and with the population large enough for a non-empty elite
(population_size at least 10), every route in the population of every
generation -- after initialization, selection, crossover and mutation --
begins at the global start and ends at the global goal, and so does the
returned best route. -/
theorem claim_C7_endpoints (o : RandOracle) (ho : OracleValid o)
    (opt : GeneticRouteOptimizer) (w : ObjectiveWeights) (start goal : Cell)
    (hpop : 10 ≤ opt.populationSize) :
    (∀ n, ∀ r ∈ (genIter o opt w start goal n).population,
      endpointsOk start goal r) ∧
    ∀ best, optimize o opt start goal w = some best →
      endpointsOk start goal best := by
  constructor
  · intro n
    exact (genIter_inv o ho opt w start goal hpop n).2
  · intro best hb
    unfold optimize at hb
    rcases Option.map_eq_some'.mp hb with ⟨p, hp, hpb⟩
    have hend := genIter_best_carrier o ho opt w start goal hpop
      opt.generations p hp
    rw [← hpb]
    exact hend

theorem claim_C7_witness :
    OracleValid trivOracle ∧
    10 ≤ ({ grid := grid10, weather := none } :
        GeneticRouteOptimizer).populationSize ∧
    ((∀ n, ∀ r ∈ (genIter trivOracle { grid := grid10, weather := none } {}
        cellA cellG34 n).population, endpointsOk cellA cellG34 r) ∧
      ∀ best, optimize trivOracle { grid := grid10, weather := none }
          cellA cellG34 {} = some best → endpointsOk cellA cellG34 best) :=
  ⟨trivOracle_valid, by norm_num,
    claim_C7_endpoints trivOracle trivOracle_valid
      { grid := grid10, weather := none } {} cellA cellG34 (by norm_num)⟩

/-! ## Key-path infrastructure for the optimality development (claim C2) -/

theorem kchainW_nonneg {g : NavigationGrid} {W : (ℤ × ℤ) → (ℤ × ℤ) → ℝ}
    (hW : ∀ k k', stepOK g k k' → 0 ≤ W k k') :
    ∀ (l : List (ℤ × ℤ)) (k0 : ℤ × ℤ), List.Chain (stepOK g) k0 l →
      0 ≤ kchainW W k0 l := by
  intro l
  induction l with
  | nil => intro k0 _; exact le_refl 0
  | cons k' rest ih =>
      intro k0 hch
      rcases List.chain_cons.mp hch with ⟨hstep, hch'⟩
      have h1 := hW k0 k' hstep
      have h2 := ih k' hch'
      show 0 ≤ W k0 k' + kchainW W k' rest
      linarith

theorem lastK_nil (k0 : ℤ × ℤ) : lastK k0 [] = k0 := rfl

theorem lastK_snoc :
    ∀ (l : List (ℤ × ℤ)) (k0 k : ℤ × ℤ), lastK k0 (l ++ [k]) = k
  | [], _, _ => rfl
  | a :: rest, k0, k => lastK_snoc rest a k

theorem kchainW_snoc (W : (ℤ × ℤ) → (ℤ × ℤ) → ℝ) :
    ∀ (l : List (ℤ × ℤ)) (k0 k : ℤ × ℤ),
      kchainW W k0 (l ++ [k]) = kchainW W k0 l + W (lastK k0 l) k := by
  intro l
  induction l with
  | nil =>
      intro k0 k
      show W k0 k + 0 = 0 + W k0 k
      ring
  | cons a rest ih =>
      intro k0 k
      show W k0 a + kchainW W a (rest ++ [k]) = _
      rw [ih a k]
      show W k0 a + (kchainW W a rest + W (lastK a rest) k) =
        W k0 a + kchainW W a rest + W (lastK a rest) k
      ring

theorem chain_snoc {R : (ℤ × ℤ) → (ℤ × ℤ) → Prop} :
    ∀ (l : List (ℤ × ℤ)) (k0 k : ℤ × ℤ),
      List.Chain R k0 l → R (lastK k0 l) k → List.Chain R k0 (l ++ [k]) := by
  intro l
  induction l with
  | nil =>
      intro k0 k _ hR
      exact List.chain_cons.mpr ⟨hR, List.Chain.nil⟩
  | cons a rest ih =>
      intro k0 k hch hR
      rcases List.chain_cons.mp hch with ⟨h1, h2⟩
      exact List.chain_cons.mpr ⟨h1, ih a k h2 hR⟩

theorem htel {g : NavigationGrid} {goalK : ℤ × ℤ}
    {cost : Cell → Cell → ℝ} {heur : Cell → ℝ}
    (ks : KSetup g goalK cost heur) :
    ∀ (l : List (ℤ × ℤ)) (k0 : ℤ × ℤ), List.Chain (stepOK g) k0 l →
      ks.H k0 ≤ kchainW ks.W k0 l + ks.H (lastK k0 l) := by
  intro l
  induction l with
  | nil =>
      intro k0 _
      show ks.H k0 ≤ 0 + ks.H k0
      linarith
  | cons k' rest ih =>
      intro k0 hch
      rcases List.chain_cons.mp hch with ⟨hstep, hch'⟩
      have h1 := ks.H_cons k0 k' hstep
      have h2 := ih k' hch'
      show ks.H k0 ≤ ks.W k0 k' + kchainW ks.W k' rest + ks.H (lastK k' rest)
      linarith

theorem pq_head_min {s : SearchState} (hf : frontierInv s)
    {e : PQEntry} {rest : List PQEntry} (hpq : s.pq = e :: rest) :
    ∀ f ∈ s.pq, e.1 ≤ f.1 := by
  intro f hf'
  rw [hpq] at hf'
  rcases List.mem_cons.mp hf' with rfl | hf'
  · exact le_refl _
  · have hsorted := hf.1
    rw [hpq] at hsorted
    have := List.rel_of_pairwise_cons hsorted hf'
    rcases this with h | ⟨h, _⟩
    · exact le_of_lt h
    · exact le_of_eq h

theorem pqInsert_length (e : PQEntry) :
    ∀ l : List PQEntry, (pqInsert e l).length = l.length + 1 := by
  intro l
  induction l with
  | nil => rfl
  | cons f rest ih =>
      unfold pqInsert
      split_ifs with h
      · rfl
      · show (f :: pqInsert e rest).length = (f :: rest).length + 1
        simp only [List.length_cons, ih]

theorem ginv_init {g : NavigationGrid} {start goal : Cell}
    {cost : Cell → Cell → ℝ} {heur : Cell → ℝ}
    (ks : KSetup g goal.key cost heur) (hsg : goal.key ∉ (∅ : Finset (ℤ × ℤ))) :
    GInv g start goal cost heur ks (initState start) ∅ := by
  refine ⟨frontierInv_init start, ?_, ?_, ?_, ?_, ?_, ?_, hsg, ?_, ?_, ?_, ?_, ?_⟩
  · intro e he
    simp only [initState, List.mem_singleton] at he
    subst he
    exact ⟨0, by simp [initState], Or.inr rfl⟩
  · intro k ck hck
    simp only [initState] at hck
    split_ifs at hck with hk
    · have h0 : (0 : ℝ) = ck := by injection hck
      exact ⟨[], List.Chain.nil, by rw [lastK_nil, hk], by rw [← h0]; rfl⟩
  · exact ⟨0, by simp [initState], le_refl 0⟩
  · intro k hk _
    simp only [initState] at hk
    by_cases hks : k = start.key
    · refine ⟨(0, 0, start), List.mem_singleton_self _, hks.symm, 0, ?_, ?_⟩
      · simp [initState, hks]
      · have := ks.H_nonneg k
        simpa using this
    · rw [if_neg hks] at hk
      exact absurd rfl hk
  · intro k hk
    exact absurd hk (Finset.not_mem_empty k)
  · intro k hk
    exact absurd hk (Finset.not_mem_empty k)
  · intro k c hc
    simp only [initState] at hc
    split_ifs at hc with hk
    exact absurd hc (by simp)
  · intro k hk
    simp only [initState] at hk
    split_ifs at hk with h
    exact h
  · intro k
    simp only [initState]
    split_ifs with h
    · constructor
      · intro hc
        exact absurd hc (by simp)
      · intro hc
        exact absurd hc (by simp)
    · constructor
      · intro _
        rfl
      · intro _
        rfl
  · refine ⟨{start.key}, ?_, by simp⟩
    intro k
    simp only [initState]
    split_ifs with h
    · simp [h]
    · simp [h]
  · exact ⟨∅, by simp [initState], fun pr hpr => absurd hpr (Finset.not_mem_empty pr)⟩

theorem getCell_coords {g : NavigationGrid} (hw : g.WF) {x y : ℤ} {v : Cell}
    (h : g.getCell x y = some v) : v.x = x ∧ v.y = y := by
  unfold NavigationGrid.getCell at h
  split_ifs at h with hb
  have hcell : g.cells x y = v := by injection h
  have hwf := hw x y
  rw [hcell] at hwf
  exact hwf

theorem neighbors_stepOK {g : NavigationGrid} (hw : g.WF) {c v : Cell}
    (h : v ∈ g.getNeighbors c true) : stepOK g c.key v.key := by
  rcases mem_getNeighbors.mp h with ⟨d, hd, hgc, hland⟩
  rcases getCell_coords hw hgc with ⟨hx, hy⟩
  have hkey : v.key = (c.x + d.1, c.y + d.2) := by
    show (v.x, v.y) = _
    rw [hx, hy]
  refine ⟨d, hd, hkey, v, ?_, hland⟩
  rw [hkey]
  exact hgc

theorem stepOK_neighbors {g : NavigationGrid} (hw : g.WF) {c : Cell}
    {k' : ℤ × ℤ} (h : stepOK g c.key k') :
    ∃ v ∈ g.getNeighbors c true, v.key = k' := by
  rcases h with ⟨d, hd, hkey, c', hgc, hland⟩
  subst hkey
  refine ⟨c', ?_, ?_⟩
  · exact mem_getNeighbors.mpr ⟨d, hd, hgc, hland⟩
  · rcases getCell_coords hw hgc with ⟨hx, hy⟩
    show (c'.x, c'.y) = _
    rw [hx, hy]

theorem getNeighbors_keys_pairwise {g : NavigationGrid} (hw : g.WF)
    (c : Cell) :
    (g.getNeighbors c true).Pairwise (fun u v => u.key ≠ v.key) := by
  have hdir : (directions true).Pairwise (fun d d' : ℤ × ℤ => d ≠ d') := by
    decide
  unfold NavigationGrid.getNeighbors
  refine List.Pairwise.filterMap _ ?_ hdir
  intro d d' hne u hu v hv
  rw [Option.mem_def] at hu hv
  have hu' : g.getCell (c.x + d.1) (c.y + d.2) = some u := by
    split at hu
    next nb heq =>
      split_ifs at hu with hl
      have hnb : nb = u := by injection hu
      rw [← hnb]
      exact heq
    next => exact absurd hu (by simp)
  have hv' : g.getCell (c.x + d'.1) (c.y + d'.2) = some v := by
    split at hv
    next nb heq =>
      split_ifs at hv with hl
      have hnb : nb = v := by injection hv
      rw [← hnb]
      exact heq
    next => exact absurd hv (by simp)
  rcases getCell_coords hw hu' with ⟨hux, huy⟩
  rcases getCell_coords hw hv' with ⟨hvx, hvy⟩
  intro hkeq
  have h1 : u.x = v.x := congrArg Prod.fst hkeq
  have h2 : u.y = v.y := congrArg Prod.snd hkeq
  apply hne
  have hd1 : d.1 = d'.1 := by omega
  have hd2 : d.2 = d'.2 := by omega
  exact Prod.ext hd1 hd2

theorem ginv_pathBound {g : NavigationGrid} {start goal : Cell}
    {cost : Cell → Cell → ℝ} {heur : Cell → ℝ}
    {ks : KSetup g goal.key cost heur} {s : SearchState}
    {P : Finset (ℤ × ℤ)} (hv : GInv g start goal cost heur ks s P) :
    ∀ (l : List (ℤ × ℤ)) (k0 : ℤ × ℤ) (B : ℝ),
      List.Chain (stepOK g) k0 l →
      (∃ c0, s.costSoFar k0 = some c0 ∧ c0 ≤ B) →
      (∃ ck, s.costSoFar (lastK k0 l) = some ck ∧
        ck ≤ B + kchainW ks.W k0 l) ∨
      ∃ e ∈ s.pq, e.1 ≤ B + kchainW ks.W k0 l + ks.H (lastK k0 l) := by
  intro l
  induction l with
  | nil =>
      intro k0 B _ h0
      rcases h0 with ⟨c0, hc0, hc0B⟩
      left
      refine ⟨c0, hc0, ?_⟩
      show c0 ≤ B + 0
      linarith
  | cons k' rest ih =>
      intro k0 B hch h0
      rcases List.chain_cons.mp hch with ⟨hstep, hch'⟩
      rcases h0 with ⟨c0, hc0, hc0B⟩
      by_cases hP : k0 ∈ P
      · rcases hv.ip2 k0 hP k' hstep with ⟨ck, ck', hck, hck', hle⟩
        have hcc : ck = c0 := by
          rw [hck] at hc0
          exact Option.some_inj.mp hc0
        have hnext : ∃ c1, s.costSoFar k' = some c1 ∧ c1 ≤ B + ks.W k0 k' :=
          ⟨ck', hck', by rw [hcc] at hle; linarith⟩
        rcases ih k' (B + ks.W k0 k') hch' hnext with h | h
        · rcases h with ⟨c2, hc2, hc2le⟩
          left
          refine ⟨c2, hc2, ?_⟩
          show c2 ≤ B + (ks.W k0 k' + kchainW ks.W k' rest)
          linarith
        · rcases h with ⟨e, he, hele⟩
          right
          refine ⟨e, he, ?_⟩
          show e.1 ≤ B + (ks.W k0 k' + kchainW ks.W k' rest) +
            ks.H (lastK k' rest)
          linarith
      · have hkne : s.costSoFar k0 ≠ none := by
          rw [hc0]
          simp
        rcases hv.ek k0 hkne hP with ⟨e, he, _, ck, hck, hle⟩
        right
        refine ⟨e, he, ?_⟩
        have hcc : ck = c0 := by
          rw [hck] at hc0
          exact Option.some_inj.mp hc0
        have htl := htel ks (k' :: rest) k0 hch
        show e.1 ≤ B + (ks.W k0 k' + kchainW ks.W k' rest) +
          ks.H (lastK k' rest)
        have htl' : ks.H k0 ≤ ks.W k0 k' + kchainW ks.W k' rest +
            ks.H (lastK k' rest) := htl
        linarith

theorem ginv_pop_opt {g : NavigationGrid} {start goal : Cell}
    {cost : Cell → Cell → ℝ} {heur : Cell → ℝ}
    {ks : KSetup g goal.key cost heur} {s : SearchState}
    {P : Finset (ℤ × ℤ)} (hv : GInv g start goal cost heur ks s P)
    {pi0 : ℝ} {cnt0 : ℕ} {cur : Cell} {rest : List PQEntry}
    (hpq : s.pq = (pi0, cnt0, cur) :: rest) :
    ∃ cu, s.costSoFar cur.key = some cu ∧
      ∀ l, List.Chain (stepOK g) start.key l → lastK start.key l = cur.key →
        cu ≤ kchainW ks.W start.key l := by
  have hhead : ((pi0, cnt0, cur) : PQEntry) ∈ s.pq := by
    rw [hpq]
    exact List.mem_cons_self _ _
  rcases hv.es _ hhead with ⟨cu, hcu, hor⟩
  refine ⟨cu, hcu, ?_⟩
  intro l hch hlast
  have hWnn : ∀ k k', stepOK g k k' → 0 ≤ ks.W k k' :=
    fun k k' h => le_of_lt (ks.W_pos k k' h)
  have hwlen0 : 0 ≤ kchainW ks.W start.key l := kchainW_nonneg hWnn l _ hch
  rcases hv.start0 with ⟨c0, hc0, hc0le⟩
  rcases hor with hor | hor
  · rcases ginv_pathBound hv l start.key 0 hch ⟨c0, hc0, hc0le⟩ with h | h
    · rcases h with ⟨ck, hck, hle⟩
      rw [hlast] at hck
      have hcc : ck = cu := by
        rw [hck] at hcu
        exact Option.some_inj.mp hcu
      rw [hcc] at hle
      linarith
    · rcases h with ⟨e, he, hle⟩
      have hmin := pq_head_min hv.fr hpq e he
      rw [hlast] at hle
      have hHnn := ks.H_nonneg cur.key
      dsimp only at hor
      linarith
  · dsimp only at hor
    rw [hor] at hcu
    have hcc : cu = c0 := by
      rw [hcu] at hc0
      exact Option.some_inj.mp hc0
    linarith

theorem stepOK_ne {g : NavigationGrid} {k k' : ℤ × ℤ}
    (h : stepOK g k k') : k' ≠ k := by
  rcases h with ⟨d, hd, hkey, _⟩
  have hdne : d ≠ (0, 0) := by
    have : ∀ d' ∈ directions true, d' ≠ ((0 : ℤ), (0 : ℤ)) := by decide
    exact this d hd
  intro hc
  rw [hc] at hkey
  apply hdne
  have h1 : k.1 = k.1 + d.1 := congrArg Prod.fst hkey
  have h2 : k.2 = k.2 + d.2 := congrArg Prod.snd hkey
  have hd1 : d.1 = 0 := by omega
  have hd2 : d.2 = 0 := by omega
  rw [show ((0 : ℤ), (0 : ℤ)) = (d.1, d.2) from by rw [hd1, hd2]]

theorem relaxOne_mid {g : NavigationGrid} {start goal : Cell}
    {cost : Cell → Cell → ℝ} {heur : Cell → ℝ}
    {ks : KSetup g goal.key cost heur} {u : ℤ × ℤ} {cu : ℝ}
    {P : Finset (ℤ × ℤ)} {procKeys : List (ℤ × ℤ)} {s : SearchState}
    {curCell v : Cell} (hw : g.WF)
    (hm : MidInv g start goal cost heur ks u cu P procKeys s)
    (hcurk : curCell.key = u) (huP : u ∉ P)
    (hv : v ∈ g.getNeighbors curCell true)
    (hvproc : v.key ∉ procKeys) :
    MidInv g start goal cost heur ks u cu P (procKeys ++ [v.key])
      (relaxOne cost heur curCell s v) := by
  have hstep : stepOK g u v.key := by
    rw [← hcurk]
    exact neighbors_stepOK hw hv
  have hvu : v.key ≠ u := stepOK_ne hstep
  have hcost : cost curCell v = ks.W u v.key := by
    rw [ks.cost_eq curCell v hv, hcurk]
  have hheur : heur v = ks.H v.key := ks.heur_eq v
  have hgetd : (s.costSoFar curCell.key).getD 0 = cu := by
    rw [hcurk, hm.ucost]
    rfl
  -- a realized path witnessing the tentative score cu + W u v.key
  rcases hm.real u cu hm.ucost with ⟨lu, hlu, hlul, hluw⟩
  have hchainv : List.Chain (stepOK g) start.key (lu ++ [v.key]) :=
    chain_snoc lu start.key v.key hlu (by rw [hlul]; exact hstep)
  have hlastv : lastK start.key (lu ++ [v.key]) = v.key :=
    lastK_snoc lu start.key v.key
  have hWlenv : kchainW ks.W start.key (lu ++ [v.key]) =
      cu + ks.W u v.key := by
    rw [kchainW_snoc, hluw, hlul]
  unfold relaxOne
  dsimp only
  rw [hgetd, hcost]
  rcases hold : s.costSoFar v.key with _ | old
  · -- v.key not yet scored: relaxation proceeds
    split_ifs with hproT
    swap
    · exact absurd trivial hproT
    have hvP : v.key ∉ P := by
      intro hvP
      rcases hm.ip1 v.key hvP with ⟨ck, hck, _⟩
      rw [hold] at hck
      exact absurd hck (by simp)
    have hvs : v.key ≠ start.key := by
      intro hc
      rcases hm.start0 with ⟨c0, hc0, _⟩
      rw [← hc, hold] at hc0
      exact absurd hc0 (by simp)
    refine ⟨?_, ?_, ?_, ?_, ?_, ?_, hm.uopt, ?_, ?_, ?_, ?_, ?_, ?_, ?_, ?_⟩
    · exact frontierInv_push hm.fr _ v
    · intro e he
      rcases mem_pqInsert.mp he with rfl | he
      · refine ⟨cu + ks.W u v.key, ?_, Or.inl ?_⟩
        · show dictSet s.costSoFar v.key _ v.key = _
          simp [dictSet]
        · show cu + ks.W u v.key + ks.H v.key ≤ cu + ks.W u v.key + heur v
          rw [hheur]
      · rcases hm.es e he with ⟨c1, hc1, hor⟩
        by_cases hek : e.2.2.key = v.key
        · rw [hek, hold] at hc1
          exact absurd hc1 (by simp)
        · refine ⟨c1, ?_, hor⟩
          show dictSet s.costSoFar v.key _ e.2.2.key = _
          simp only [dictSet, if_neg hek]
          exact hc1
    · intro k ck hck
      by_cases hk : k = v.key
      · subst hk
        simp only [dictSet, if_pos rfl] at hck
        have hckv : cu + ks.W u v.key = ck := Option.some.inj hck
        exact ⟨lu ++ [v.key], hchainv, hlastv, by rw [hWlenv]; exact hckv⟩
      · simp only [dictSet, if_neg hk] at hck
        exact hm.real k ck hck
    · rcases hm.start0 with ⟨c0, hc0, hle⟩
      refine ⟨c0, ?_, hle⟩
      show dictSet s.costSoFar v.key _ start.key = _
      rw [show dictSet s.costSoFar v.key (cu + ks.W u v.key) start.key =
        s.costSoFar start.key from by simp only [dictSet, if_neg (Ne.symm hvs)]]
      exact hc0
    · intro k hkne hkP hku
      by_cases hk : k = v.key
      · subst hk
        refine ⟨(cu + ks.W u v.key + heur v, s.counter + 1, v), ?_, rfl, ?_⟩
        · exact mem_pqInsert.mpr (Or.inl rfl)
        · refine ⟨cu + ks.W u v.key, ?_, ?_⟩
          · simp [dictSet]
          · show cu + ks.W u v.key + heur v ≤ cu + ks.W u v.key + ks.H v.key
            rw [hheur]
      · have hkne' : s.costSoFar k ≠ none := by
          simp only [dictSet, if_neg hk] at hkne
          exact hkne
        rcases hm.ek k hkne' hkP hku with ⟨e, he, hek, ck, hck, hle⟩
        refine ⟨e, mem_pqInsert.mpr (Or.inr he), hek, ck, ?_, hle⟩
        simp only [dictSet, if_neg hk]
        exact hck
    · show dictSet s.costSoFar v.key _ u = _
      simp only [dictSet, if_neg (Ne.symm hvu)]
      exact hm.ucost
    · intro k hkP
      have hk : k ≠ v.key := fun hc => hvP (hc ▸ hkP)
      rcases hm.ip1 k hkP with ⟨ck, hck, hopt⟩
      refine ⟨ck, ?_, hopt⟩
      simp only [dictSet, if_neg hk]
      exact hck
    · intro k hkP k' hsk
      have hk : k ≠ v.key := fun hc => hvP (hc ▸ hkP)
      rcases hm.ip2 k hkP k' hsk with ⟨ck, ck', hck, hck', hle⟩
      by_cases hk' : k' = v.key
      · rw [hk', hold] at hck'
        exact absurd hck' (by simp)
      · refine ⟨ck, ck', ?_, ?_, hle⟩
        · simp only [dictSet, if_neg hk]
          exact hck
        · simp only [dictSet, if_neg hk']
          exact hck'
    · intro k' hk'
      rcases List.mem_append.mp hk' with hk' | hk'
      · have hne : k' ≠ v.key := fun hc => hvproc (hc ▸ hk')
        rcases hm.ip2u k' hk' with ⟨ck', hck', hle⟩
        refine ⟨ck', ?_, hle⟩
        simp only [dictSet, if_neg hne]
        exact hck'
      · rcases List.mem_singleton.mp hk' with rfl
        refine ⟨cu + ks.W u v.key, ?_, le_refl _⟩
        simp [dictSet]
    · intro k c hc
      by_cases hk : k = v.key
      · subst hk
        simp only [dictSet, if_pos rfl] at hc
        have hcc' : curCell = c := Option.some.inj (Option.some.inj hc)
        subst hcc'
        have hne : curCell.key ≠ v.key := by rw [hcurk]; exact Ne.symm hvu
        refine ⟨by rw [hcurk]; exact hstep, cu + ks.W u v.key, cu, ?_, ?_, ?_⟩
        · simp [dictSet]
        · simp only [dictSet, if_neg hne]
          rw [hcurk]
          exact hm.ucost
        · rw [hcurk]
      · simp only [dictSet, if_neg hk] at hc
        rcases hm.came1 k c hc with ⟨hsk, ck, cc, hck, hcc, hle⟩
        by_cases hck' : c.key = v.key
        · rw [hck', hold] at hcc
          exact absurd hcc (by simp)
        · refine ⟨hsk, ck, cc, ?_, ?_, hle⟩
          · simp only [dictSet, if_neg hk]
            exact hck
          · simp only [dictSet, if_neg hck']
            exact hcc
    · intro k hkc
      by_cases hk : k = v.key
      · subst hk
        simp only [dictSet, if_pos rfl] at hkc
        have : some curCell = none := Option.some.inj hkc
        exact absurd this (by simp)
      · simp only [dictSet, if_neg hk] at hkc
        exact hm.cameN k hkc
    · intro k
      by_cases hk : k = v.key
      · subst hk
        constructor
        · intro hkc
          simp only [dictSet, if_pos rfl] at hkc
          exact absurd hkc (by simp)
        · intro hkc
          simp only [dictSet, if_pos rfl] at hkc
          exact absurd hkc (by simp)
      · simp only [dictSet, if_neg hk]
        exact hm.camedom k
    · rcases hm.domcard with ⟨dom, hdom, hcard⟩
      refine ⟨insert v.key dom, ?_, ?_⟩
      · intro k
        by_cases hk : k = v.key
        · subst hk
          simp only [dictSet, if_pos rfl]
          constructor
          · intro _
            exact Finset.mem_insert_self _ _
          · intro _
            simp
        · simp only [dictSet, if_neg hk]
          rw [hdom k]
          constructor
          · intro hkd
            exact Finset.mem_insert_of_mem hkd
          · intro hkd
            rcases Finset.mem_insert.mp hkd with hkd | hkd
            · exact absurd hkd hk
            · exact hkd
      · calc (insert v.key dom).card ≤ dom.card + 1 := Finset.card_insert_le _ _
          _ ≤ s.counter + 1 + 1 := by omega
    · rcases hm.rcountM with ⟨R, hRcard, hRmem⟩
      have hnotin : (u, v.key) ∉ R := by
        intro hin
        rcases hRmem _ hin with ⟨_, hsrc | ⟨_, htgt⟩⟩
        · exact huP hsrc
        · exact hvproc htgt
      refine ⟨insert (u, v.key) R, ?_, ?_⟩
      · rw [Finset.card_insert_of_not_mem hnotin, hRcard]
      · intro pr hpr
        rcases Finset.mem_insert.mp hpr with rfl | hpr
        · exact ⟨hstep, Or.inr ⟨rfl, List.mem_append.mpr (Or.inr (List.mem_singleton_self _))⟩⟩
        · rcases hRmem pr hpr with ⟨hs1, hs2 | ⟨hs2, hs3⟩⟩
          · exact ⟨hs1, Or.inl hs2⟩
          · exact ⟨hs1, Or.inr ⟨hs2, List.mem_append.mpr (Or.inl hs3)⟩⟩
  · -- v.key already scored with old
    split_ifs with hpro
    · -- strict improvement: full update
      replace hpro : cu + ks.W u v.key < old := hpro
      have hvP : v.key ∉ P := by
        intro hvP
        rcases hm.ip1 v.key hvP with ⟨ck, hck, hopt⟩
        rw [hold] at hck
        have hcko : ck = old := (Option.some.inj hck).symm
        have := hopt (lu ++ [v.key]) hchainv hlastv
        rw [hWlenv] at this
        rw [hcko] at this
        linarith
      refine ⟨?_, ?_, ?_, ?_, ?_, ?_, hm.uopt, ?_, ?_, ?_, ?_, ?_, ?_, ?_, ?_⟩
      · exact frontierInv_push hm.fr _ v
      · intro e he
        rcases mem_pqInsert.mp he with rfl | he
        · refine ⟨cu + ks.W u v.key, ?_, Or.inl ?_⟩
          · simp [dictSet]
          · show cu + ks.W u v.key + ks.H v.key ≤ cu + ks.W u v.key + heur v
            rw [hheur]
        · rcases hm.es e he with ⟨c1, hc1, hor⟩
          by_cases hek : e.2.2.key = v.key
          · rw [hek, hold] at hc1
            have hc1o : c1 = old := (Option.some.inj hc1).symm
            refine ⟨cu + ks.W u v.key, ?_, ?_⟩
            · simp [dictSet, hek]
            · rcases hor with hor | hor
              · refine Or.inl ?_
                rw [hek] at hor ⊢
                rw [hc1o] at hor
                have : cu + ks.W u v.key ≤ old := le_of_lt hpro
                linarith
              · exact Or.inr hor
          · refine ⟨c1, ?_, hor⟩
            simp only [dictSet, if_neg hek]
            exact hc1
      · intro k ck hck
        by_cases hk : k = v.key
        · subst hk
          simp only [dictSet, if_pos rfl] at hck
          have hckv : cu + ks.W u v.key = ck := Option.some.inj hck
          exact ⟨lu ++ [v.key], hchainv, hlastv, by rw [hWlenv]; exact hckv⟩
        · simp only [dictSet, if_neg hk] at hck
          exact hm.real k ck hck
      · rcases hm.start0 with ⟨c0, hc0, hle⟩
        by_cases hk : start.key = v.key
        · refine ⟨cu + ks.W u v.key, ?_, ?_⟩
          · simp only [dictSet, if_pos hk]
          · rw [hk, hold] at hc0
            have hc0o : c0 = old := (Option.some.inj hc0).symm
            rw [hc0o] at hle
            linarith
        · refine ⟨c0, ?_, hle⟩
          simp only [dictSet, if_neg hk]
          exact hc0
      · intro k hkne hkP hku
        by_cases hk : k = v.key
        · subst hk
          refine ⟨(cu + ks.W u v.key + heur v, s.counter + 1, v), ?_, rfl, ?_⟩
          · exact mem_pqInsert.mpr (Or.inl rfl)
          · refine ⟨cu + ks.W u v.key, ?_, ?_⟩
            · simp [dictSet]
            · show cu + ks.W u v.key + heur v ≤ cu + ks.W u v.key + ks.H v.key
              rw [hheur]
        · have hkne' : s.costSoFar k ≠ none := by
            simp only [dictSet, if_neg hk] at hkne
            exact hkne
          rcases hm.ek k hkne' hkP hku with ⟨e, he, hek, ck, hck, hle⟩
          refine ⟨e, mem_pqInsert.mpr (Or.inr he), hek, ck, ?_, hle⟩
          simp only [dictSet, if_neg hk]
          exact hck
      · show dictSet s.costSoFar v.key _ u = _
        simp only [dictSet, if_neg (Ne.symm hvu)]
        exact hm.ucost
      · intro k hkP
        have hk : k ≠ v.key := fun hc => hvP (hc ▸ hkP)
        rcases hm.ip1 k hkP with ⟨ck, hck, hopt⟩
        refine ⟨ck, ?_, hopt⟩
        simp only [dictSet, if_neg hk]
        exact hck
      · intro k hkP k' hsk
        have hk : k ≠ v.key := fun hc => hvP (hc ▸ hkP)
        rcases hm.ip2 k hkP k' hsk with ⟨ck, ck', hck, hck', hle⟩
        by_cases hk' : k' = v.key
        · subst hk'
          rw [hold] at hck'
          have hck'o : ck' = old := (Option.some.inj hck').symm
          refine ⟨ck, cu + ks.W u v.key, ?_, ?_, ?_⟩
          · simp only [dictSet, if_neg hk]
            exact hck
          · simp [dictSet]
          · rw [hck'o] at hle
            linarith [le_of_lt hpro]
        · refine ⟨ck, ck', ?_, ?_, hle⟩
          · simp only [dictSet, if_neg hk]
            exact hck
          · simp only [dictSet, if_neg hk']
            exact hck'
      · intro k' hk'
        rcases List.mem_append.mp hk' with hk' | hk'
        · have hne : k' ≠ v.key := fun hc => hvproc (hc ▸ hk')
          rcases hm.ip2u k' hk' with ⟨ck', hck', hle⟩
          refine ⟨ck', ?_, hle⟩
          simp only [dictSet, if_neg hne]
          exact hck'
        · rcases List.mem_singleton.mp hk' with rfl
          refine ⟨cu + ks.W u v.key, ?_, le_refl _⟩
          simp [dictSet]
      · intro k c hc
        by_cases hk : k = v.key
        · subst hk
          simp only [dictSet, if_pos rfl] at hc
          have hcc' : curCell = c := Option.some.inj (Option.some.inj hc)
          subst hcc'
          have hne : curCell.key ≠ v.key := by rw [hcurk]; exact Ne.symm hvu
          refine ⟨by rw [hcurk]; exact hstep, cu + ks.W u v.key, cu, ?_, ?_, ?_⟩
          · simp [dictSet]
          · simp only [dictSet, if_neg hne]
            rw [hcurk]
            exact hm.ucost
          · rw [hcurk]
        · simp only [dictSet, if_neg hk] at hc
          rcases hm.came1 k c hc with ⟨hsk, ck, cc, hck, hcc, hle⟩
          by_cases hck' : c.key = v.key
          · rw [hck', hold] at hcc
            have hcco : cc = old := (Option.some.inj hcc).symm
            refine ⟨hsk, ck, cu + ks.W u v.key, ?_, ?_, ?_⟩
            · simp only [dictSet, if_neg hk]
              exact hck
            · simp [dictSet, hck']
            · rw [hcco] at hle
              linarith
          · refine ⟨hsk, ck, cc, ?_, ?_, hle⟩
            · simp only [dictSet, if_neg hk]
              exact hck
            · simp only [dictSet, if_neg hck']
              exact hcc
      · intro k hkc
        by_cases hk : k = v.key
        · subst hk
          simp only [dictSet, if_pos rfl] at hkc
          have : some curCell = none := Option.some.inj hkc
          exact absurd this (by simp)
        · simp only [dictSet, if_neg hk] at hkc
          exact hm.cameN k hkc
      · intro k
        by_cases hk : k = v.key
        · subst hk
          constructor
          · intro hkc
            simp only [dictSet, if_pos rfl] at hkc
            exact absurd hkc (by simp)
          · intro hkc
            simp only [dictSet, if_pos rfl] at hkc
            exact absurd hkc (by simp)
        · simp only [dictSet, if_neg hk]
          exact hm.camedom k
      · rcases hm.domcard with ⟨dom, hdom, hcard⟩
        refine ⟨insert v.key dom, ?_, ?_⟩
        · intro k
          by_cases hk : k = v.key
          · subst hk
            simp only [dictSet, if_pos rfl]
            constructor
            · intro _
              exact Finset.mem_insert_self _ _
            · intro _
              simp
          · simp only [dictSet, if_neg hk]
            rw [hdom k]
            constructor
            · intro hkd
              exact Finset.mem_insert_of_mem hkd
            · intro hkd
              rcases Finset.mem_insert.mp hkd with hkd | hkd
              · exact absurd hkd hk
              · exact hkd
        · calc (insert v.key dom).card ≤ dom.card + 1 := Finset.card_insert_le _ _
            _ ≤ s.counter + 1 + 1 := by omega
      · rcases hm.rcountM with ⟨R, hRcard, hRmem⟩
        have hnotin : (u, v.key) ∉ R := by
          intro hin
          rcases hRmem _ hin with ⟨_, hsrc | ⟨_, htgt⟩⟩
          · exact huP hsrc
          · exact hvproc htgt
        refine ⟨insert (u, v.key) R, ?_, ?_⟩
        · rw [Finset.card_insert_of_not_mem hnotin, hRcard]
        · intro pr hpr
          rcases Finset.mem_insert.mp hpr with rfl | hpr
          · exact ⟨hstep, Or.inr ⟨rfl, List.mem_append.mpr (Or.inr (List.mem_singleton_self _))⟩⟩
          · rcases hRmem pr hpr with ⟨hs1, hs2 | ⟨hs2, hs3⟩⟩
            · exact ⟨hs1, Or.inl hs2⟩
            · exact ⟨hs1, Or.inr ⟨hs2, List.mem_append.mpr (Or.inl hs3)⟩⟩
    · -- no improvement: state unchanged, the processed edge was already good
      replace hpro : ¬(cu + ks.W u v.key < old) := hpro
      refine ⟨hm.fr, hm.es, hm.real, hm.start0, ?_, hm.ucost, hm.uopt, hm.ip1,
        hm.ip2, ?_, hm.came1, hm.cameN, hm.camedom, hm.domcard, ?_⟩
      · intro k hkne hkP hku
        exact hm.ek k hkne hkP hku
      · intro k' hk'
        rcases List.mem_append.mp hk' with hk' | hk'
        · exact hm.ip2u k' hk'
        · rcases List.mem_singleton.mp hk' with rfl
          refine ⟨old, hold, ?_⟩
          linarith [not_lt.mp hpro]
      · rcases hm.rcountM with ⟨R, hRcard, hRmem⟩
        refine ⟨R, hRcard, ?_⟩
        intro pr hpr
        rcases hRmem pr hpr with ⟨hs1, hs2 | ⟨hs2, hs3⟩⟩
        · exact ⟨hs1, Or.inl hs2⟩
        · exact ⟨hs1, Or.inr ⟨hs2, List.mem_append.mpr (Or.inl hs3)⟩⟩

theorem relaxOne_count (cost : Cell → Cell → ℝ) (heur : Cell → ℝ)
    (c : Cell) (st : SearchState) (nb : Cell) :
    (relaxOne cost heur c st nb).pq.length + st.counter =
      st.pq.length + (relaxOne cost heur c st nb).counter := by
  unfold relaxOne
  dsimp only
  split_ifs with h
  · show (pqInsert _ st.pq).length + st.counter = st.pq.length + (st.counter + 1)
    rw [pqInsert_length]
    omega
  · rfl

theorem relaxFold_count (cost : Cell → Cell → ℝ) (heur : Cell → ℝ)
    (c : Cell) :
    ∀ (nbs : List Cell) (st : SearchState),
      (nbs.foldl (relaxOne cost heur c) st).pq.length + st.counter =
        st.pq.length + (nbs.foldl (relaxOne cost heur c) st).counter := by
  intro nbs
  induction nbs with
  | nil => intro st; rfl
  | cons x xs ih =>
      intro st
      have h1 := relaxOne_count cost heur c st x
      have h2 := ih (relaxOne cost heur c st x)
      simp only [List.foldl_cons]
      omega

theorem ginv_counter_le {g : NavigationGrid} {start goal : Cell}
    {cost : Cell → Cell → ℝ} {heur : Cell → ℝ}
    {ks : KSetup g goal.key cost heur} {s : SearchState}
    {P : Finset (ℤ × ℤ)} (hg : GInv g start goal cost heur ks s P) :
    s.counter ≤ 8 * g.width.toNat * g.height.toNat := by
  rcases hg.rcount with ⟨R, hcard, hmem⟩
  have hdirF : ∀ d ∈ directions true, d ∈ dirF := by decide
  have hsub : ∀ pr ∈ R,
      (pr.2, (pr.2.1 - pr.1.1, pr.2.2 - pr.1.2)) ∈ boundsK g ×ˢ dirF := by
    intro pr hpr
    rcases (hmem pr hpr).1 with ⟨d, hd, heq, c', hgc, _⟩
    have h1 : pr.2.1 = pr.1.1 + d.1 := by rw [heq]
    have h2 : pr.2.2 = pr.1.2 + d.2 := by rw [heq]
    unfold NavigationGrid.getCell at hgc
    split_ifs at hgc with hb
    refine Finset.mem_product.mpr ⟨?_, ?_⟩
    · show pr.2 ∈ boundsK g
      refine Finset.mem_product.mpr ⟨?_, ?_⟩
      · show pr.2.1 ∈ Finset.Icc 0 (g.width - 1)
        rw [Finset.mem_Icc]
        omega
      · show pr.2.2 ∈ Finset.Icc 0 (g.height - 1)
        rw [Finset.mem_Icc]
        omega
    · show (pr.2.1 - pr.1.1, pr.2.2 - pr.1.2) ∈ dirF
      have hdd : (pr.2.1 - pr.1.1, pr.2.2 - pr.1.2) = d := by
        rw [h1, h2]
        show (pr.1.1 + d.1 - pr.1.1, pr.1.2 + d.2 - pr.1.2) = d
        have e1 : pr.1.1 + d.1 - pr.1.1 = d.1 := by ring
        have e2 : pr.1.2 + d.2 - pr.1.2 = d.2 := by ring
        rw [e1, e2]
      rw [hdd]
      exact hdirF d hd
  have hinj : Set.InjOn (fun pr : (ℤ × ℤ) × (ℤ × ℤ) =>
      (pr.2, (pr.2.1 - pr.1.1, pr.2.2 - pr.1.2))) R := by
    intro pr hpr qr hqr heq
    have ha : pr.2 = qr.2 := congrArg Prod.fst heq
    have hb : (pr.2.1 - pr.1.1, pr.2.2 - pr.1.2) =
        (qr.2.1 - qr.1.1, qr.2.2 - qr.1.2) := congrArg Prod.snd heq
    have hb1 : pr.2.1 - pr.1.1 = qr.2.1 - qr.1.1 := congrArg Prod.fst hb
    have hb2 : pr.2.2 - pr.1.2 = qr.2.2 - qr.1.2 := congrArg Prod.snd hb
    have ha1 : pr.2.1 = qr.2.1 := congrArg Prod.fst ha
    have ha2 : pr.2.2 = qr.2.2 := congrArg Prod.snd ha
    have hx : pr.1.1 = qr.1.1 := by omega
    have hy : pr.1.2 = qr.1.2 := by omega
    have hfst : pr.1 = qr.1 := Prod.ext hx hy
    exact Prod.ext hfst ha
  have hle := Finset.card_le_card_of_injOn
    (fun pr : (ℤ × ℤ) × (ℤ × ℤ) => (pr.2, (pr.2.1 - pr.1.1, pr.2.2 - pr.1.2)))
    (fun pr hpr => hsub pr hpr) hinj
  have hbc : (boundsK g ×ˢ dirF).card =
      g.width.toNat * g.height.toNat * 8 := by
    rw [Finset.card_product]
    have hdc : dirF.card = 8 := by decide
    rw [hdc]
    unfold boundsK
    rw [Finset.card_product, Int.card_Icc, Int.card_Icc]
    have e1 : g.width - 1 + 1 - 0 = g.width := by ring
    have e2 : g.height - 1 + 1 - 0 = g.height := by ring
    rw [e1, e2]
  rw [hbc] at hle
  rw [hcard] at hle
  calc s.counter ≤ g.width.toNat * g.height.toNat * 8 := hle
    _ = 8 * g.width.toNat * g.height.toNat := by ring

theorem ginv_to_mid {g : NavigationGrid} {start goal : Cell}
    {cost : Cell → Cell → ℝ} {heur : Cell → ℝ}
    {ks : KSetup g goal.key cost heur} {s : SearchState}
    {P : Finset (ℤ × ℤ)} (hg : GInv g start goal cost heur ks s P)
    {pi0 : ℝ} {cnt0 : ℕ} {cur : Cell} {rest : List PQEntry}
    (hpq : s.pq = (pi0, cnt0, cur) :: rest) (hcurP : cur.key ∉ P) :
    ∃ cu, s.costSoFar cur.key = some cu ∧
      MidInv g start goal cost heur ks cur.key cu P []
        { s with pq := rest, nodesExplored := s.nodesExplored + 1 } := by
  rcases ginv_pop_opt hg hpq with ⟨cu, hcu, hopt⟩
  have hrest : ∀ e ∈ rest, e ∈ s.pq := by
    intro e he
    rw [hpq]
    exact List.mem_cons_of_mem _ he
  refine ⟨cu, hcu, ?_, ?_, hg.real, hg.start0, ?_, hcu, hopt, hg.ip1, hg.ip2,
    ?_, hg.came1, hg.cameN, hg.camedom, hg.domcard, ?_⟩
  · rcases hg.fr with ⟨h1, h2, h3⟩
    rw [hpq] at h1 h2
    exact ⟨(List.pairwise_cons.mp h1).2, (List.pairwise_cons.mp h2).2,
      fun e he => h3 e (hrest e he)⟩
  · intro e he
    exact hg.es e (hrest e he)
  · intro k hkc hkP hku
    rcases hg.ek k hkc hkP with ⟨e, he, hek, ck, hck, hle⟩
    rw [hpq] at he
    rcases List.mem_cons.mp he with rfl | he
    · exact absurd hek.symm hku
    · exact ⟨e, he, hek, ck, hck, hle⟩
  · intro k' hk'
    exact absurd hk' (List.not_mem_nil k')
  · rcases hg.rcount with ⟨R, hcard, hmem⟩
    exact ⟨R, hcard, fun pr hpr => ⟨(hmem pr hpr).1, Or.inl (hmem pr hpr).2⟩⟩

theorem relaxFold_mid {g : NavigationGrid} {start goal : Cell}
    {cost : Cell → Cell → ℝ} {heur : Cell → ℝ}
    {ks : KSetup g goal.key cost heur} {u : ℤ × ℤ} {cu : ℝ}
    {P : Finset (ℤ × ℤ)} {curCell : Cell} (hw : g.WF)
    (hcurk : curCell.key = u) (huP : u ∉ P) :
    ∀ (nbs : List Cell) (procKeys : List (ℤ × ℤ)) (s : SearchState),
      MidInv g start goal cost heur ks u cu P procKeys s →
      (∀ x ∈ nbs, x ∈ g.getNeighbors curCell true) →
      List.Pairwise (fun a b : Cell => a.key ≠ b.key) nbs →
      (∀ x ∈ nbs, x.key ∉ procKeys) →
      MidInv g start goal cost heur ks u cu P
        (procKeys ++ nbs.map Cell.key)
        (nbs.foldl (relaxOne cost heur curCell) s) := by
  intro nbs
  induction nbs with
  | nil =>
      intro procKeys s hm _ _ _
      simpa using hm
  | cons x xs ih =>
      intro procKeys s hm hsub hpw hfresh
      have hx : x ∈ g.getNeighbors curCell true := hsub x (List.mem_cons_self _ _)
      have hxf : x.key ∉ procKeys := hfresh x (List.mem_cons_self _ _)
      have hm1 := relaxOne_mid hw hm hcurk huP hx hxf
      have hsub' : ∀ y ∈ xs, y ∈ g.getNeighbors curCell true :=
        fun y hy => hsub y (List.mem_cons_of_mem _ hy)
      have hpw' := (List.pairwise_cons.mp hpw).2
      have hxk := (List.pairwise_cons.mp hpw).1
      have hfresh' : ∀ y ∈ xs, y.key ∉ procKeys ++ [x.key] := by
        intro y hy hmem
        rcases List.mem_append.mp hmem with h | h
        · exact hfresh y (List.mem_cons_of_mem _ hy) h
        · exact hxk y hy (List.mem_singleton.mp h).symm
      have := ih (procKeys ++ [x.key]) (relaxOne cost heur curCell s x)
        hm1 hsub' hpw' hfresh'
      simp only [List.foldl_cons, List.map_cons]
      rw [show procKeys ++ x.key :: List.map Cell.key xs =
        (procKeys ++ [x.key]) ++ List.map Cell.key xs from by
          rw [List.append_assoc]; rfl]
      exact this

theorem mid_to_ginv {g : NavigationGrid} {start goal : Cell}
    {cost : Cell → Cell → ℝ} {heur : Cell → ℝ}
    {ks : KSetup g goal.key cost heur} {u : ℤ × ℤ} {cu : ℝ}
    {P : Finset (ℤ × ℤ)} {procKeys : List (ℤ × ℤ)} {s : SearchState}
    (hm : MidInv g start goal cost heur ks u cu P procKeys s)
    (hsucc : ∀ k', stepOK g u k' → k' ∈ procKeys)
    (hgoal : goal.key ∉ P) (hug : u ≠ goal.key) :
    GInv g start goal cost heur ks s (insert u P) := by
  refine ⟨hm.fr, hm.es, hm.real, hm.start0, ?_, ?_, ?_, ?_, hm.came1,
    hm.cameN, hm.camedom, hm.domcard, ?_⟩
  · intro k hkc hkP
    have hkP' : k ∉ P := fun h => hkP (Finset.mem_insert_of_mem h)
    have hku : k ≠ u := fun h => hkP (h ▸ Finset.mem_insert_self u P)
    exact hm.ek k hkc hkP' hku
  · intro k hk
    rcases Finset.mem_insert.mp hk with rfl | hk
    · exact ⟨cu, hm.ucost, hm.uopt⟩
    · exact hm.ip1 k hk
  · intro k hk k' hsk
    rcases Finset.mem_insert.mp hk with rfl | hk
    · rcases hm.ip2u k' (hsucc k' hsk) with ⟨ck', hck', hle⟩
      exact ⟨cu, ck', hm.ucost, hck', hle⟩
    · exact hm.ip2 k hk k' hsk
  · intro hk
    rcases Finset.mem_insert.mp hk with h | h
    · exact hug h.symm
    · exact hgoal h
  · rcases hm.rcountM with ⟨R, hcard, hmem⟩
    refine ⟨R, hcard, ?_⟩
    intro pr hpr
    rcases hmem pr hpr with ⟨h1, h2 | ⟨h2, _⟩⟩
    · exact ⟨h1, Finset.mem_insert_of_mem h2⟩
    · exact ⟨h1, h2 ▸ Finset.mem_insert_self u P⟩

theorem relaxOne_noop {cost : Cell → Cell → ℝ} {heur : Cell → ℝ}
    {c : Cell} {st : SearchState} {nb : Cell} {old : ℝ}
    (hold : st.costSoFar nb.key = some old)
    (hge : old ≤ (st.costSoFar c.key).getD 0 + cost c nb) :
    relaxOne cost heur c st nb = st := by
  unfold relaxOne
  dsimp only
  rw [hold]
  rw [if_neg]
  intro h
  have h' : (st.costSoFar c.key).getD 0 + cost c nb < old := h
  linarith

theorem relaxFold_settled {g : NavigationGrid} {goalK : ℤ × ℤ}
    {cost : Cell → Cell → ℝ} {heur : Cell → ℝ}
    {ks : KSetup g goalK cost heur} {curCell : Cell} {st : SearchState}
    (hw : g.WF)
    (hip2 : ∀ k', stepOK g curCell.key k' →
      ∃ ck ck', st.costSoFar curCell.key = some ck ∧
        st.costSoFar k' = some ck' ∧ ck' ≤ ck + ks.W curCell.key k') :
    ∀ nbs : List Cell, (∀ v ∈ nbs, v ∈ g.getNeighbors curCell true) →
      nbs.foldl (relaxOne cost heur curCell) st = st := by
  intro nbs
  induction nbs with
  | nil => intro _; rfl
  | cons x xs ih =>
      intro hsub
      have hx : x ∈ g.getNeighbors curCell true := hsub x (List.mem_cons_self _ _)
      rcases hip2 x.key (neighbors_stepOK hw hx) with ⟨ck, ck', hck, hck', hle⟩
      have hno : relaxOne cost heur curCell st x = st := by
        refine relaxOne_noop hck' ?_
        rw [hck]
        show ck' ≤ ck + cost curCell x
        rw [ks.cost_eq curCell x hx]
        exact hle
      simp only [List.foldl_cons, hno]
      exact ih (fun v hv => hsub v (List.mem_cons_of_mem _ hv))

theorem ginv_step {g : NavigationGrid} {start goal : Cell}
    {cost : Cell → Cell → ℝ} {heur : Cell → ℝ}
    {ks : KSetup g goal.key cost heur} {s : SearchState}
    {P : Finset (ℤ × ℤ)} (hw : g.WF)
    (hg : GInv g start goal cost heur ks s P)
    {pi0 : ℝ} {cnt0 : ℕ} {cur : Cell} {rest : List PQEntry}
    (hpq : s.pq = (pi0, cnt0, cur) :: rest)
    (hng : cur.key ≠ goal.key) :
    ∃ P', GInv g start goal cost heur ks
      (relaxNeighbors g cost heur cur
        { s with pq := rest, nodesExplored := s.nodesExplored + 1 }) P' := by
  have hrest : ∀ e ∈ rest, e ∈ s.pq := by
    intro e he
    rw [hpq]
    exact List.mem_cons_of_mem _ he
  by_cases hP : cur.key ∈ P
  · -- already settled: every relaxation is a no-op
    refine ⟨P, ?_⟩
    have hip2 : ∀ k', stepOK g cur.key k' →
        ∃ ck ck',
          ({ s with pq := rest, nodesExplored := s.nodesExplored + 1 }
            : SearchState).costSoFar cur.key = some ck ∧
          ({ s with pq := rest, nodesExplored := s.nodesExplored + 1 }
            : SearchState).costSoFar k' = some ck' ∧
          ck' ≤ ck + ks.W cur.key k' :=
      fun k' hsk => hg.ip2 cur.key hP k' hsk
    have hfold := relaxFold_settled hw hip2
      (g.getNeighbors cur true) (fun v hv => hv)
    show GInv g start goal cost heur ks
      ((g.getNeighbors cur true).foldl (relaxOne cost heur cur)
        { s with pq := rest, nodesExplored := s.nodesExplored + 1 }) P
    rw [hfold]
    refine ⟨?_, ?_, hg.real, hg.start0, ?_, hg.ip1, hg.ip2, hg.goalP,
      hg.came1, hg.cameN, hg.camedom, hg.domcard, ?_⟩
    · rcases hg.fr with ⟨h1, h2, h3⟩
      rw [hpq] at h1 h2
      exact ⟨(List.pairwise_cons.mp h1).2, (List.pairwise_cons.mp h2).2,
        fun e he => h3 e (hrest e he)⟩
    · intro e he
      exact hg.es e (hrest e he)
    · intro k hkc hkP
      rcases hg.ek k hkc hkP with ⟨e, he, hek, ck, hck, hle⟩
      rw [hpq] at he
      rcases List.mem_cons.mp he with rfl | he
      · exact absurd (hek ▸ hP) hkP
      · exact ⟨e, he, hek, ck, hck, hle⟩
    · rcases hg.rcount with ⟨R, hcard, hmem⟩
      exact ⟨R, hcard, hmem⟩
  · -- fresh pop: go through the mid-phase invariant
    rcases ginv_to_mid hg hpq hP with ⟨cu, hcu, hmid⟩
    have hfold := relaxFold_mid hw (rfl : cur.key = cur.key) hP
      (g.getNeighbors cur true) []
      { s with pq := rest, nodesExplored := s.nodesExplored + 1 }
      hmid (fun x hx => hx) (getNeighbors_keys_pairwise hw cur)
      (fun x _ => List.not_mem_nil x.key)
    rw [List.nil_append] at hfold
    refine ⟨insert cur.key P, ?_⟩
    show GInv g start goal cost heur ks
      ((g.getNeighbors cur true).foldl (relaxOne cost heur cur)
        { s with pq := rest, nodesExplored := s.nodesExplored + 1 })
      (insert cur.key P)
    refine mid_to_ginv hfold ?_ hg.goalP hng
    intro k' hsk
    rcases stepOK_neighbors hw hsk with ⟨v, hv, hvk⟩
    exact List.mem_map.mpr ⟨v, hv, hvk⟩

theorem searchLoop_post {g : NavigationGrid} {start goal : Cell}
    {cost : Cell → Cell → ℝ} {heur : Cell → ℝ}
    {ks : KSetup g goal.key cost heur} (hw : g.WF) :
    ∀ (fuel : ℕ) (s : SearchState) (P : Finset (ℤ × ℤ)),
      GInv g start goal cost heur ks s P →
      8 * g.width.toNat * g.height.toNat + 1 + s.pq.length ≤ fuel + s.counter →
      FinInv g start goal cost heur ks (searchLoop g cost heur goal fuel s) ∧
      ((∃ cg, (searchLoop g cost heur goal fuel s).costSoFar goal.key =
            some cg ∧
          ∀ l, List.Chain (stepOK g) start.key l →
            lastK start.key l = goal.key →
            cg ≤ kchainW ks.W start.key l) ∨
        ((searchLoop g cost heur goal fuel s).costSoFar goal.key = none ∧
          ∀ l, List.Chain (stepOK g) start.key l →
            lastK start.key l ≠ goal.key)) := by
  intro fuel
  induction fuel with
  | zero =>
      intro s P hg hb
      have := ginv_counter_le hg
      omega
  | succ n ih =>
      intro s P hg hb
      have hunfold : searchLoop g cost heur goal (n + 1) s =
          (match searchStep g cost heur goal s with
            | .more s1 => searchLoop g cost heur goal n s1
            | .goalPopped s1 => s1
            | .frontierEmpty s1 => s1) := rfl
      rcases hpq : s.pq with _ | ⟨⟨pi0, cnt0, cur⟩, rest⟩
      · -- empty frontier: the run is over and the goal is unreachable
        have hse : searchStep g cost heur goal s = .frontierEmpty s := by
          unfold searchStep
          rw [hpq]
        have hrun : searchLoop g cost heur goal (n + 1) s = s := by
          rw [hunfold, hse]
        rw [hrun]
        have hnone : s.costSoFar goal.key = none := by
          by_contra h
          rcases hg.ek goal.key h hg.goalP with ⟨e, he, _⟩
          rw [hpq] at he
          exact absurd he (List.not_mem_nil e)
        refine ⟨⟨hg.real, hg.start0, hg.came1, hg.cameN, hg.camedom,
          hg.domcard⟩, Or.inr ⟨hnone, ?_⟩⟩
        intro l hch heq
        rcases hg.start0 with ⟨c0, hc0, hc0le⟩
        rcases ginv_pathBound hg l start.key 0 hch ⟨c0, hc0, hc0le⟩ with h | h
        · rcases h with ⟨ck, hck, _⟩
          rw [heq, hnone] at hck
          exact absurd hck (by simp)
        · rcases h with ⟨e, he, _⟩
          rw [hpq] at he
          exact absurd he (List.not_mem_nil e)
      · by_cases hgl : cur.x = goal.x ∧ cur.y = goal.y
        · -- the goal is popped: its score is optimal
          have hse : searchStep g cost heur goal s = .goalPopped
              { s with pq := rest, nodesExplored := s.nodesExplored + 1 } := by
            unfold searchStep
            rw [hpq]
            dsimp only
            rw [if_pos hgl]
          have hrun : searchLoop g cost heur goal (n + 1) s =
              { s with pq := rest, nodesExplored := s.nodesExplored + 1 } := by
            rw [hunfold, hse]
          have hkey : cur.key = goal.key := by
            show (cur.x, cur.y) = (goal.x, goal.y)
            rw [hgl.1, hgl.2]
          rcases ginv_pop_opt hg hpq with ⟨cu, hcu, hopt⟩
          rw [hrun]
          refine ⟨⟨hg.real, hg.start0, hg.came1, hg.cameN, hg.camedom,
            hg.domcard⟩, Or.inl ⟨cu, ?_, ?_⟩⟩
          · show s.costSoFar goal.key = some cu
            rw [← hkey]
            exact hcu
          · intro l hch hlast
            refine hopt l hch ?_
            rw [hlast]
            exact hkey.symm
        · -- ordinary expansion: maintain the invariant and recurse
          have hng : cur.key ≠ goal.key := by
            intro h
            exact hgl ⟨congrArg Prod.fst h, congrArg Prod.snd h⟩
          have hse : searchStep g cost heur goal s = .more
              (relaxNeighbors g cost heur cur
                { s with pq := rest, nodesExplored := s.nodesExplored + 1 }) := by
            unfold searchStep
            rw [hpq]
            dsimp only
            rw [if_neg hgl]
          have hrun : searchLoop g cost heur goal (n + 1) s =
              searchLoop g cost heur goal n
                (relaxNeighbors g cost heur cur
                  { s with pq := rest, nodesExplored := s.nodesExplored + 1 }) := by
            rw [hunfold, hse]
          rcases ginv_step hw hg hpq hng with ⟨P', hg'⟩
          have hlen : s.pq.length = rest.length + 1 := by
            rw [hpq]
            rfl
          have hcnt : (relaxNeighbors g cost heur cur
                { s with pq := rest, nodesExplored := s.nodesExplored + 1 }
              ).pq.length + s.counter =
              rest.length + (relaxNeighbors g cost heur cur
                { s with pq := rest, nodesExplored := s.nodesExplored + 1 }
              ).counter :=
            relaxFold_count cost heur cur (g.getNeighbors cur true)
              { s with pq := rest, nodesExplored := s.nodesExplored + 1 }
          rw [hrun]
          exact ih (relaxNeighbors g cost heur cur
            { s with pq := rest, nodesExplored := s.nodesExplored + 1 })
            P' hg' (by omega)

theorem sqrt_triangle_2d (p1 p2 q1 q2 : ℝ) :
    Real.sqrt ((p1 + q1) ^ 2 + (p2 + q2) ^ 2) ≤
      Real.sqrt (p1 ^ 2 + p2 ^ 2) + Real.sqrt (q1 ^ 2 + q2 ^ 2) := by
  have hAnn : 0 ≤ Real.sqrt (p1 ^ 2 + p2 ^ 2) := Real.sqrt_nonneg _
  have hBnn : 0 ≤ Real.sqrt (q1 ^ 2 + q2 ^ 2) := Real.sqrt_nonneg _
  have hA2 : Real.sqrt (p1 ^ 2 + p2 ^ 2) ^ 2 = p1 ^ 2 + p2 ^ 2 :=
    Real.sq_sqrt (by positivity)
  have hB2 : Real.sqrt (q1 ^ 2 + q2 ^ 2) ^ 2 = q1 ^ 2 + q2 ^ 2 :=
    Real.sq_sqrt (by positivity)
  have hCS : p1 * q1 + p2 * q2 ≤
      Real.sqrt (p1 ^ 2 + p2 ^ 2) * Real.sqrt (q1 ^ 2 + q2 ^ 2) := by
    rcases le_or_lt (p1 * q1 + p2 * q2) 0 with hS | hS
    · exact le_trans hS (mul_nonneg hAnn hBnn)
    · have hsq : (p1 * q1 + p2 * q2) ^ 2 ≤
          (Real.sqrt (p1 ^ 2 + p2 ^ 2) * Real.sqrt (q1 ^ 2 + q2 ^ 2)) ^ 2 := by
        have hprod : (Real.sqrt (p1 ^ 2 + p2 ^ 2) *
            Real.sqrt (q1 ^ 2 + q2 ^ 2)) ^ 2 =
            (p1 ^ 2 + p2 ^ 2) * (q1 ^ 2 + q2 ^ 2) := by
          rw [mul_pow, hA2, hB2]
        rw [hprod]
        nlinarith [sq_nonneg (p1 * q2 - p2 * q1)]
      nlinarith [mul_nonneg hAnn hBnn]
  have hX : (p1 + q1) ^ 2 + (p2 + q2) ^ 2 ≤
      (Real.sqrt (p1 ^ 2 + p2 ^ 2) + Real.sqrt (q1 ^ 2 + q2 ^ 2)) ^ 2 := by
    nlinarith [hCS, hA2, hB2]
  calc Real.sqrt ((p1 + q1) ^ 2 + (p2 + q2) ^ 2)
      ≤ Real.sqrt ((Real.sqrt (p1 ^ 2 + p2 ^ 2) +
          Real.sqrt (q1 ^ 2 + q2 ^ 2)) ^ 2) := Real.sqrt_le_sqrt hX
    _ = Real.sqrt (p1 ^ 2 + p2 ^ 2) + Real.sqrt (q1 ^ 2 + q2 ^ 2) :=
        Real.sqrt_sq (by positivity)

theorem intSq_cast (z w : ℤ) :
    ((|z| ^ 2 + |w| ^ 2 : ℤ) : ℝ) = (z : ℝ) ^ 2 + (w : ℝ) ^ 2 := by
  push_cast
  rw [sq_abs, sq_abs]

theorem keyDist_triangle (g : NavigationGrid) (hsz : 0 ≤ g.cellSizeKm)
    (a b c : ℤ × ℤ) : keyDist g a c ≤ keyDist g a b + keyDist g b c := by
  unfold keyDist
  rw [intSq_cast, intSq_cast, intSq_cast]
  have h1 : ((a.1 - c.1 : ℤ) : ℝ) = ((a.1 - b.1 : ℤ) : ℝ) + ((b.1 - c.1 : ℤ) : ℝ) := by
    push_cast
    ring
  have h2 : ((a.2 - c.2 : ℤ) : ℝ) = ((a.2 - b.2 : ℤ) : ℝ) + ((b.2 - c.2 : ℤ) : ℝ) := by
    push_cast
    ring
  rw [h1, h2]
  have ht := sqrt_triangle_2d ((a.1 - b.1 : ℤ) : ℝ) ((a.2 - b.2 : ℤ) : ℝ)
    ((b.1 - c.1 : ℤ) : ℝ) ((b.2 - c.2 : ℤ) : ℝ)
  calc Real.sqrt ((((a.1 - b.1 : ℤ) : ℝ) + ((b.1 - c.1 : ℤ) : ℝ)) ^ 2 +
        (((a.2 - b.2 : ℤ) : ℝ) + ((b.2 - c.2 : ℤ) : ℝ)) ^ 2) * g.cellSizeKm
      ≤ (Real.sqrt (((a.1 - b.1 : ℤ) : ℝ) ^ 2 + ((a.2 - b.2 : ℤ) : ℝ) ^ 2) +
          Real.sqrt (((b.1 - c.1 : ℤ) : ℝ) ^ 2 + ((b.2 - c.2 : ℤ) : ℝ) ^ 2)) *
          g.cellSizeKm := mul_le_mul_of_nonneg_right ht hsz
    _ = _ := by ring

theorem keyDist_nonneg (g : NavigationGrid) (hsz : 0 ≤ g.cellSizeKm)
    (k k' : ℤ × ℤ) : 0 ≤ keyDist g k k' :=
  mul_nonneg (Real.sqrt_nonneg _) hsz

theorem keyDist_pos (g : NavigationGrid) (hsz : 0 < g.cellSizeKm)
    {k k' : ℤ × ℤ} (hne : k' ≠ k) : 0 < keyDist g k k' := by
  unfold keyDist
  refine mul_pos ?_ hsz
  apply Real.sqrt_pos.mpr
  rw [intSq_cast]
  have hd : k.1 - k'.1 ≠ 0 ∨ k.2 - k'.2 ≠ 0 := by
    by_contra h
    push_neg at h
    apply hne
    have h1 : k'.1 = k.1 := by omega
    have h2 : k'.2 = k.2 := by omega
    exact Prod.ext h1 h2
  rcases hd with hd | hd
  · have : (0 : ℝ) < ((k.1 - k'.1 : ℤ) : ℝ) ^ 2 := by
      have hz : ((k.1 - k'.1 : ℤ) : ℝ) ≠ 0 := Int.cast_ne_zero.mpr hd
      positivity
    nlinarith [sq_nonneg ((k.2 - k'.2 : ℤ) : ℝ)]
  · have : (0 : ℝ) < ((k.2 - k'.2 : ℤ) : ℝ) ^ 2 := by
      have hz : ((k.2 - k'.2 : ℤ) : ℝ) ≠ 0 := Int.cast_ne_zero.mpr hd
      positivity
    nlinarith [sq_nonneg ((k.1 - k'.1 : ℤ) : ℝ)]

theorem pathSum_eq_kchainW (g : NavigationGrid) :
    ∀ (M : List Cell) (a : Cell),
      pathSum g (a :: M) =
        kchainW (fun k k' => keyDist g k k') a.key (M.map Cell.key)
  | [], a => rfl
  | b :: M, a => by
      show g.getDistance a b + pathSum g (b :: M) =
        keyDist g a.key b.key +
          kchainW (fun k k' => keyDist g k k') b.key (M.map Cell.key)
      rw [pathSum_eq_kchainW g M b]
      rfl

open scoped Classical in
theorem chase_success {g : NavigationGrid} {start goal : Cell}
    {cost : Cell → Cell → ℝ} {heur : Cell → ℝ}
    {ks : KSetup g goal.key cost heur} {s : SearchState}
    (hf : FinInv g start goal cost heur ks s) {dom : Finset (ℤ × ℤ)}
    (hdom : ∀ k, s.costSoFar k ≠ none ↔ k ∈ dom) :
    ∀ (n : ℕ) (c : Cell) (cc : ℝ), s.costSoFar c.key = some cc →
      (dom.filter (fun k => ∃ v, s.costSoFar k = some v ∧ v < cc)).card + 1 ≤ n →
      ∃ L, chaseParents s.cameFrom n c = some L ∧
        ∃ l : List (ℤ × ℤ), List.Chain (stepOK g) start.key l ∧
          lastK start.key l = c.key ∧
          (∃ c0, s.costSoFar start.key = some c0 ∧
            kchainW ks.W start.key l + c0 ≤ cc) ∧
          L.reverse.map Cell.key = start.key :: l := by
  intro n
  induction n with
  | zero =>
      intro c cc _ hcard
      omega
  | succ m ih =>
      intro c cc hcc hcard
      rcases hcame : s.cameFrom c.key with _ | oc
      · have hnone := (hf.camedom c.key).mp hcame
        rw [hcc] at hnone
        exact absurd hnone (by simp)
      · rcases oc with _ | p
        · -- the chain roots here: c sits on the start key
          have hcs : c.key = start.key := hf.cameN c.key hcame
          refine ⟨[c], ?_, [], List.Chain.nil, ?_, ⟨cc, ?_, ?_⟩, ?_⟩
          · show chaseParents s.cameFrom (m + 1) c = some [c]
            unfold chaseParents
            rw [hcame]
          · rw [lastK_nil]
            exact hcs.symm
          · rw [← hcs]
            exact hcc
          · show kchainW ks.W start.key [] + cc ≤ cc
            rw [show kchainW ks.W start.key [] = 0 from rfl]
            linarith
          · show ([c].reverse).map Cell.key = [start.key]
            simp [hcs]
        · -- follow the parent edge
          rcases hf.came1 c.key p hcame with ⟨hsk, ck, cp, hck, hcp, hle⟩
          have hckc : ck = cc := by
            rw [hck] at hcc
            exact Option.some_inj.mp hcc
          have hWp := ks.W_pos p.key c.key hsk
          have hplt : cp < cc := by
            rw [hckc] at hle
            linarith
          have hpdom : p.key ∈ dom := (hdom p.key).mp (by rw [hcp]; simp)
          have hpfilt : p.key ∈ dom.filter
              (fun k => ∃ v, s.costSoFar k = some v ∧ v < cc) :=
            Finset.mem_filter.mpr ⟨hpdom, ⟨cp, hcp, hplt⟩⟩
          have hsubset : dom.filter
              (fun k => ∃ v, s.costSoFar k = some v ∧ v < cp) ⊆
              (dom.filter
                (fun k => ∃ v, s.costSoFar k = some v ∧ v < cc)).erase p.key := by
            intro k hk
            rcases Finset.mem_filter.mp hk with ⟨hkd, v, hv, hvlt⟩
            refine Finset.mem_erase.mpr ⟨?_,
              Finset.mem_filter.mpr ⟨hkd, v, hv, by linarith⟩⟩
            intro hkp
            rw [hkp, hcp] at hv
            have hvcp : cp = v := Option.some_inj.mp hv
            rw [← hvcp] at hvlt
            exact absurd hvlt (lt_irrefl cp)
          have hcard' : (dom.filter
              (fun k => ∃ v, s.costSoFar k = some v ∧ v < cp)).card + 1 ≤ m := by
            have h1 := Finset.card_le_card hsubset
            have h2 := Finset.card_erase_of_mem hpfilt
            have h3 := Finset.card_pos.mpr ⟨p.key, hpfilt⟩
            omega
          rcases ih p cp hcp hcard' with
            ⟨Lp, hLp, l, hch, hlast, ⟨c0, hc0, hWl⟩, hkeys⟩
          refine ⟨c :: Lp, ?_, l ++ [c.key], ?_, ?_, ⟨c0, hc0, ?_⟩, ?_⟩
          · show chaseParents s.cameFrom (m + 1) c = some (c :: Lp)
            unfold chaseParents
            rw [hcame]
            show (chaseParents s.cameFrom m p).map (fun l => c :: l) =
              some (c :: Lp)
            rw [hLp]
            rfl
          · refine chain_snoc l start.key c.key hch ?_
            rw [hlast]
            exact hsk
          · exact lastK_snoc l start.key c.key
          · rw [kchainW_snoc, hlast]
            rw [hckc] at hle
            linarith
          · show ((c :: Lp).reverse).map Cell.key = start.key :: (l ++ [c.key])
            rw [List.reverse_cons, List.map_append, hkeys]
            rfl

open scoped Classical in
theorem runVariant_opt {r : ShipRouter} (hw : r.grid.WF)
    (start goal : Cell) {cost : Cell → Cell → ℝ} {heur : Cell → ℝ}
    (alg : String) (ks : KSetup r.grid goal.key cost heur)
    (hksW : ks.W = fun k k' => keyDist r.grid k k') :
    (∃ cg, (runVariant r cost heur start goal alg).distanceKm = cg ∧
      (∀ l, List.Chain (stepOK r.grid) start.key l →
        lastK start.key l = goal.key →
        cg ≤ kchainW (fun k k' => keyDist r.grid k k') start.key l) ∧
      ∃ l, List.Chain (stepOK r.grid) start.key l ∧
        lastK start.key l = goal.key ∧
        kchainW (fun k k' => keyDist r.grid k k') start.key l = cg) ∨
    ((runVariant r cost heur start goal alg).distanceKm = 0 ∧
      ∀ l, List.Chain (stepOK r.grid) start.key l →
        lastK start.key l ≠ goal.key) := by
  have hfuel0 : 8 * r.grid.width.toNat * r.grid.height.toNat + 1 +
      (initState start).pq.length ≤
        searchFuel r.grid + (initState start).counter := by
    have h1 : (initState start).pq.length = 1 := rfl
    have h2 : (initState start).counter = 0 := rfl
    unfold searchFuel
    omega
  rcases searchLoop_post hw (searchFuel r.grid) (initState start) ∅
    (ginv_init ks (Finset.not_mem_empty _)) hfuel0 with ⟨hfin, hpost⟩
  have hrv : runVariant r cost heur start goal alg =
      r.createResult
        (reconstructPath
          (searchLoop r.grid cost heur goal (searchFuel r.grid)
            (initState start)).cameFrom
          ((searchLoop r.grid cost heur goal (searchFuel r.grid)
            (initState start)).counter + 2) goal)
        (searchLoop r.grid cost heur goal (searchFuel r.grid)
          (initState start)).nodesExplored alg := rfl
  rw [hrv]
  revert hfin hpost
  generalize searchLoop r.grid cost heur goal (searchFuel r.grid)
    (initState start) = F
  intro hfin hpost
  rcases hpost with ⟨cg, hcg, hopt⟩ | ⟨hnone, hnop⟩
  · left
    rcases hfin.start0 with ⟨c0, hc0, hc0le⟩
    have hWnn : ∀ k k', stepOK r.grid k k' → 0 ≤ ks.W k k' :=
      fun k k' h => le_of_lt (ks.W_pos k k' h)
    rcases hfin.real start.key c0 hc0 with ⟨l0, hch0, _, hw0⟩
    have hc0nn : 0 ≤ c0 := by
      rw [← hw0]
      exact kchainW_nonneg hWnn l0 _ hch0
    have hc00 : c0 = 0 := le_antisymm hc0le hc0nn
    rcases hfin.domcard with ⟨dom, hdom, hdc⟩
    have hfirst : (dom.filter
        (fun k => ∃ v, F.costSoFar k = some v ∧ v < cg)).card + 1 ≤
        F.counter + 2 := by
      have hsub := Finset.card_le_card
        (Finset.filter_subset (fun k => ∃ v, F.costSoFar k = some v ∧ v < cg) dom)
      omega
    rcases chase_success hfin hdom (F.counter + 2) goal cg hcg hfirst with
      ⟨L, hL, l, hch, hlast, ⟨c0', hc0', hWl⟩, hkeys⟩
    have hc0c0' : c0' = c0 := by
      rw [hc0'] at hc0
      exact Option.some_inj.mp hc0
    have hup : kchainW ks.W start.key l ≤ cg := by
      rw [hc0c0', hc00] at hWl
      linarith
    have hlow := hopt l hch hlast
    have heq : kchainW ks.W start.key l = cg := le_antisymm hup hlow
    rw [hksW] at heq hopt
    have hLne : L ≠ [] := by
      intro h
      rw [h] at hkeys
      simp at hkeys
    have hLrev : L.reverse ≠ [] := fun h => hLne (List.reverse_eq_nil_iff.mp h)
    rcases List.exists_cons_of_ne_nil hLrev with ⟨a, M, hAM⟩
    rw [hAM, List.map_cons] at hkeys
    have hak : a.key = start.key := (List.cons_eq_cons.mp hkeys).1
    have hMl : M.map Cell.key = l := (List.cons_eq_cons.mp hkeys).2
    have hps : pathSum r.grid (a :: M) =
        kchainW (fun k k' => keyDist r.grid k k') start.key l := by
      rw [pathSum_eq_kchainW r.grid M a, hMl, hak]
    refine ⟨cg, ?_, hopt, ⟨l, hch, hlast, heq⟩⟩
    rw [reconstructPath_chase_some hL, hAM,
      createResult_distance _ _ (List.cons_ne_nil a M) _ _,
      getPathLength_eq_pathSum, hps, heq]
  · right
    have hcame : F.cameFrom goal.key = none := (hfin.camedom goal.key).mpr hnone
    rw [reconstructPath_missing hcame, createResult_empty]
    exact ⟨rfl, hnop⟩

theorem movementCost_keyDist {g : NavigationGrid} (hof : ObstacleFree g)
    {c v : Cell} (hv : v ∈ g.getNeighbors c true) :
    g.getMovementCost c v = keyDist g c.key v.key := by
  rcases mem_getNeighbors.mp hv with ⟨d, _, hgc, hland⟩
  have hcells : ∃ x y, g.cells x y = v := by
    unfold NavigationGrid.getCell at hgc
    split_ifs at hgc with hb
    exact ⟨c.x + d.1, c.y + d.2, by injection hgc⟩
  rcases hcells with ⟨x, y, hxy⟩
  have hbase : v.baseCost = 1 := by
    rw [← hxy]
    exact (hof x y).2.1
  have hwc : v.weatherCost = 0 := by
    rw [← hxy]
    exact (hof x y).2.2
  unfold NavigationGrid.getMovementCost
  rw [if_neg (by rw [hland]; simp)]
  unfold Cell.totalCost
  rw [if_neg (by rw [hland]; simp)]
  have h1 : v.baseCost + v.weatherCost = 1 := by
    rw [hbase, hwc]
    norm_num
  rw [h1, mul_one]
  rfl

theorem keyDist_self (g : NavigationGrid) (k : ℤ × ℤ) : keyDist g k k = 0 := by
  unfold keyDist
  simp

/-- C2: on an obstacle-free grid (all cells water with base cost 1 and
weather cost 0) with a positive cell size and coordinate-faithful cells,
dijkstra and a_star report exactly the same total path distance for every
start/goal pair: each returns a geometrically shortest traversable path
(or both report 0 when the goal key is unreachable), so the two distances
coincide. -/
theorem claim_C2_dijkstra_astar_equal (r : ShipRouter) (hw : r.grid.WF)
    (hof : ObstacleFree r.grid) (hsz : 0 < r.grid.cellSizeKm)
    (start goal : Cell) :
    (r.dijkstra start goal).distanceKm = (r.aStar start goal).distanceKm := by
  have hsz' : 0 ≤ r.grid.cellSizeKm := le_of_lt hsz
  have hD := runVariant_opt hw start goal "Dijkstra"
    (⟨fun k k' => keyDist r.grid k k', fun _ => 0,
      fun k k' h => keyDist_pos r.grid hsz (stepOK_ne h),
      fun _ => le_refl 0,
      fun k k' h => by
        rw [add_zero]
        exact keyDist_nonneg r.grid hsz' k k',
      rfl,
      fun cl vl hvl => movementCost_keyDist hof hvl,
      fun _ => rfl⟩ :
      KSetup r.grid goal.key (fun a b => r.grid.getMovementCost a b)
        (fun _ => 0)) rfl
  have hA := runVariant_opt hw start goal "A*"
    (⟨fun k k' => keyDist r.grid k k', fun k => keyDist r.grid k goal.key,
      fun k k' h => keyDist_pos r.grid hsz (stepOK_ne h),
      fun k => keyDist_nonneg r.grid hsz' k goal.key,
      fun k k' _ => keyDist_triangle r.grid hsz' k k' goal.key,
      keyDist_self r.grid goal.key,
      fun cl vl hvl => movementCost_keyDist hof hvl,
      fun _ => rfl⟩ :
      KSetup r.grid goal.key (fun a b => r.grid.getMovementCost a b)
        (fun cl => r.grid.getDistance cl goal)) rfl
  rw [show r.dijkstra start goal =
    runVariant r (fun a b => r.grid.getMovementCost a b) (fun _ => 0)
      start goal "Dijkstra" from rfl]
  rw [show r.aStar start goal =
    runVariant r (fun a b => r.grid.getMovementCost a b)
      (fun cl => r.grid.getDistance cl goal) start goal "A*" from rfl]
  rcases hD with ⟨cgD, hdD, hoptD, lD, hchD, hlastD, hwD⟩ | ⟨hdD, hnoD⟩
  · rcases hA with ⟨cgA, hdA, hoptA, lA, hchA, hlastA, hwA⟩ | ⟨_, hnoA⟩
    · rw [hdD, hdA]
      have h1 : cgD ≤ cgA := by
        have := hoptD lA hchA hlastA
        rw [hwA] at this
        exact this
      have h2 : cgA ≤ cgD := by
        have := hoptA lD hchD hlastD
        rw [hwD] at this
        exact this
      linarith
    · exact absurd hlastD (hnoA lD hchD)
  · rcases hA with ⟨cgA, hdA, hoptA, lA, hchA, hlastA, hwA⟩ | ⟨hdA, _⟩
    · exact absurd hlastA (hnoD lA hchA)
    · rw [hdD, hdA]

/-- Witness: the obstacle-free 10 x 10 grid with 10 km cells and the pair
(0,0) -> (3,4) satisfy the hypotheses, and both searches report the same
distance there. -/
theorem claim_C2_witness :
    router10.grid.WF ∧ ObstacleFree router10.grid ∧
      0 < router10.grid.cellSizeKm ∧
      (router10.dijkstra cellA cellG34).distanceKm =
        (router10.aStar cellA cellG34).distanceKm :=
  ⟨grid10_WF, fun x y => ⟨rfl, rfl, rfl⟩, by norm_num [router10, grid10, NavigationGrid.make],
    claim_C2_dijkstra_astar_equal router10 grid10_WF
      (fun x y => ⟨rfl, rfl, rfl⟩)
      (by norm_num [router10, grid10, NavigationGrid.make]) cellA cellG34⟩

end ShipRouting
